import Mathlib

/-!
# BansheeEngine: GL scratch pool and framebuffer object

A shallow embedding of `BsGLHardwareBufferManager.cpp` (the scratch-memory
sub-allocator) and of `BsGLFrameBufferObject.cpp` (the attachment table), with
the properties of the natural-language specification stated and proved over
these definitions.

Machine integers are natural numbers with explicit reduction modulo `2^32`
(`UINT32`) and `2^31` (the `size : 31` bit-field).
-/

namespace BansheeEngine

/-! ## Scratch pool: data model -/

/-- Reduction of a value to an `UINT32`. -/
def u32 (n : Nat) : Nat := n % 2 ^ 32

/-- Reduction of a value to the 31-bit `size` bit-field. -/
def u31 (n : Nat) : Nat := n % 2 ^ 31

/-- Unsigned 32-bit subtraction `a - b` (wraps around below zero). -/
def sub32 (a b : Nat) : Nat := (a + (2 ^ 32 - b % 2 ^ 32)) % 2 ^ 32

/-- The control block `struct GLScratchBufferAlloc { UINT32 size : 31; UINT32 free : 1; }`. -/
structure GLScratchBufferAlloc where
  /-- Size in bytes. -/
  size : Nat
  /-- Free? (packed with size). -/
  free : Bool
deriving DecidableEq, Repr

/-- The macro `SCRATCH_POOL_SIZE`, `1 * 1024 * 1024`. -/
def SCRATCH_POOL_SIZE : Nat := 1 * 1024 * 1024

/-- The macro `SCRATCH_ALIGNMENT`. -/
def SCRATCH_ALIGNMENT : Nat := 32

/-- The value of `sizeof(GLScratchBufferAlloc)`: one 32-bit word. -/
def sizeofAlloc : Nat := 4

/-- The arena `mScratchBufferPool`, seen as the control block found at each
byte offset from the start of the arena; pointers into the arena are byte
offsets from `mScratchBufferPool`.  A control block occupies 4 bytes.  In an
arena that is partitioned into blocks, the control blocks that the two methods
read or write lie in disjoint byte ranges (the new control block of a split
lies inside the payload of the block being split), so each one is held at its
own offset.  Payload bytes are not modelled. -/
abbrev Pool := Nat → GLScratchBufferAlloc

/-- The assignment `p->size = v` for the control block at offset `p`; the
value is truncated to the 31 bits of the field. -/
def setSize (mem : Pool) (p v : Nat) : Pool :=
  fun o => if o = p then { size := u31 v, free := (mem p).free } else mem o

/-- The assignment `p->free = b` for the control block at offset `p`. -/
def setFree (mem : Pool) (p : Nat) (b : Bool) : Pool :=
  fun o => if o = p then { size := (mem p).size, free := b } else mem o

/-! ## Scratch pool: operations -/

/-- The scratch-pool part of the constructor `GLHardwareBufferManager()`:
the whole arena (whose bytes after `_aligned_malloc` are `raw`) becomes one
free block. -/
def construct (raw : Pool) : Pool :=
  let ptrAlloc := 0
  let mem := setSize raw ptrAlloc (SCRATCH_POOL_SIZE - sizeofAlloc)
  setFree mem ptrAlloc true

/-- The alignment step of `allocateScratch`: round the size up to 32 bits,
in `UINT32` arithmetic. -/
def roundSize (size : Nat) : Nat :=
  if size % 4 ≠ 0 then u32 (size + (4 - size % 4)) else size

/-- The `while (bufferPos < SCRATCH_POOL_SIZE)` loop of `allocateScratch`,
with `size` already rounded.  The result is the arena after the call with the
returned pointer (`none` for the null pointer); the outer `none` means that
the iteration budget `fuel` was used up before the loop ended.  The split test
and the split size are reached only when `pNext->size >= size`, where the
31-bit size bounds `size`, so `size + sizeof(GLScratchBufferAlloc)` does not
wrap and the subtraction does not go below zero. -/
def allocLoop : Nat → Pool → Nat → Nat → Option (Pool × Option Nat)
  | 0, _, _, _ => none
  | fuel + 1, mem, size, bufferPos =>
    if bufferPos < SCRATCH_POOL_SIZE then
      let pNext := bufferPos
      -- Big enough?
      if (mem pNext).free = true ∧ (mem pNext).size ≥ size then
        -- split? And enough space for control block
        let mem1 :=
          if (mem pNext).size > size + sizeofAlloc then
            let offset := u32 (sizeofAlloc + size)
            let pSplitAlloc := bufferPos + offset
            let m := setFree mem pSplitAlloc true
            -- split size is remainder minus new control block
            let m := setSize m pSplitAlloc ((m pNext).size - size - sizeofAlloc)
            -- New size of current
            setSize m pNext size
          else mem
        -- allocate and return
        let mem2 := setFree mem1 pNext false
        some (mem2, some (pNext + sizeofAlloc))
      else
        allocLoop fuel mem size (u32 (bufferPos + u32 (sizeofAlloc + (mem pNext).size)))
    else
      -- no available alloc
      some (mem, none)

/-- The method `allocateScratch(UINT32 size)`.  Every iteration of the loop
advances `bufferPos` by at least one control block, so `SCRATCH_POOL_SIZE`
iterations are more than the loop can make. -/
def allocateScratch (mem : Pool) (size : Nat) : Option (Pool × Option Nat) :=
  allocLoop SCRATCH_POOL_SIZE mem (roundSize size) 0

/-- How a call of `deallocateScratch` ends. -/
inductive DeallocResult where
  /-- The `return` after the merge steps, with the arena it leaves. -/
  | done (mem : Pool)
  /-- The statement `assert (false && "Memory deallocation error")` was reached. -/
  | assertFailed (mem : Pool)

/-- The `while (bufferPos < SCRATCH_POOL_SIZE)` loop of `deallocateScratch`.
`pLast` is the offset of the previously visited control block (`none` for the
null pointer); the outer `none` means that `fuel` was used up. -/
def deallocLoop : Nat → Pool → Nat → Nat → Option Nat → Option DeallocResult
  | 0, _, _, _, _ => none
  | fuel + 1, mem, ptr, bufferPos, pLast =>
    if bufferPos < SCRATCH_POOL_SIZE then
      let pCurrent := bufferPos
      -- Pointers match?
      if bufferPos + sizeofAlloc = ptr then
        -- dealloc
        let mem1 := setFree mem pCurrent true
        -- merge with previous
        let merged : Pool × Nat × Nat :=
          match pLast with
          | some l =>
            if (mem1 l).free = true then
              -- adjust buffer pos
              let bufferPos1 := sub32 bufferPos (u32 ((mem1 l).size + sizeofAlloc))
              -- merge free space
              let m := setSize mem1 l ((mem1 l).size + ((mem1 pCurrent).size + sizeofAlloc))
              (m, bufferPos1, l)
            else (mem1, bufferPos, pCurrent)
          | none => (mem1, bufferPos, pCurrent)
        let mem2 := merged.1
        let bufferPos2 := merged.2.1
        let pCurrent2 := merged.2.2
        -- merge with next
        let offset := u32 (u32 (bufferPos2 + (mem2 pCurrent2).size) + sizeofAlloc)
        let mem3 :=
          if offset < SCRATCH_POOL_SIZE then
            let pNext := offset
            if (mem2 pNext).free = true then
              setSize mem2 pCurrent2 ((mem2 pCurrent2).size + ((mem2 pNext).size + sizeofAlloc))
            else mem2
          else mem2
        -- done
        some (DeallocResult.done mem3)
      else
        deallocLoop fuel mem ptr (u32 (bufferPos + u32 (sizeofAlloc + (mem pCurrent).size)))
          (some pCurrent)
    else
      -- Should never get here unless there's a corruption
      some (DeallocResult.assertFailed mem)

/-- The method `deallocateScratch(void* ptr)`, with `ptr` given as a byte
offset from the start of the arena.  No payload address is below
`sizeofAlloc`, so offset 0 stands for every pointer that lies before the
arena. -/
def deallocateScratch (mem : Pool) (ptr : Nat) : Option DeallocResult :=
  deallocLoop SCRATCH_POOL_SIZE mem ptr 0 none

/-! ## Scratch pool: the header walk -/

/-- One block of the arena as the header walk sees it. -/
structure Block where
  /-- Offset of the control block from the start of the arena. -/
  offset : Nat
  /-- Payload size in bytes. -/
  size : Nat
  /-- Free flag. -/
  free : Bool
deriving DecidableEq, Repr

/-- Payload address of a block: just after its control block. -/
def Block.payload (b : Block) : Nat := b.offset + sizeofAlloc

/-- Offset just after the payload of a block. -/
def Block.stop (b : Block) : Nat := b.offset + sizeofAlloc + b.size

/-- Walk the control blocks from offset `pos` while `pos < SCRATCH_POOL_SIZE`,
each block starting where the previous one ends. -/
def blocksFrom : Nat → Pool → Nat → List Block
  | 0, _, _ => []
  | fuel + 1, mem, pos =>
    if pos < SCRATCH_POOL_SIZE then
      { offset := pos, size := (mem pos).size, free := (mem pos).free } ::
        blocksFrom fuel mem (pos + sizeofAlloc + (mem pos).size)
    else []

/-- The block list of the arena: the header walk from offset 0. -/
def blocks (mem : Pool) : List Block := blocksFrom SCRATCH_POOL_SIZE mem 0

/-- The partition invariant: walking headers from offset 0, the blocks'
header plus payload sizes sum to exactly `SCRATCH_POOL_SIZE`. -/
def PartitionInvariant (mem : Pool) : Prop :=
  ((blocks mem).map (fun b => sizeofAlloc + b.size)).sum = SCRATCH_POOL_SIZE

instance (mem : Pool) : Decidable (PartitionInvariant mem) := by
  unfold PartitionInvariant; infer_instance

/-- An arena whose bytes are all zero. -/
def zeroPool : Pool := fun _ => { size := 0, free := false }

/-- The walk over the control blocks from offset `a` spells out the blocks
`bs` and ends exactly at offset `e`. -/
def Seg (mem : Pool) : Nat → List Block → Nat → Prop
  | a, [], e => a = e
  | a, b :: bs, e =>
    b.offset = a ∧ mem a = { size := b.size, free := b.free } ∧
      Seg mem (a + sizeofAlloc + b.size) bs e

/-- A block is a candidate of the first-fit scan for the (rounded) size. -/
def Block.fits (size : Nat) (b : Block) : Prop := b.free = true ∧ b.size ≥ size

instance (size : Nat) (b : Block) : Decidable (b.fits size) := by
  unfold Block.fits; infer_instance

/-- What `allocateScratch` makes of the block it selects. -/
def allocSplit (size : Nat) (b : Block) : List Block :=
  if b.size > size + sizeofAlloc then
    [{ offset := b.offset, size := size, free := false },
     { offset := b.offset + sizeofAlloc + size, size := b.size - size - sizeofAlloc, free := true }]
  else [{ offset := b.offset, size := b.size, free := false }]

/-- The forward merge of `deallocateScratch`: the free block `c` absorbs the
block after it when that one is free. -/
def mergeNext (c : Block) : List Block → List Block
  | [] => [c]
  | n :: rest =>
    if n.free = true then
      { offset := c.offset, size := c.size + (n.size + sizeofAlloc), free := c.free } :: rest
    else c :: n :: rest

/-- The block list that `deallocateScratch` leaves when it frees the block
`b` that follows the blocks `pre` (in reverse order `rpre`, nearest first)
and precedes the blocks `post`. -/
def deallocMerge (rpre : List Block) (b : Block) (post : List Block) : List Block :=
  match rpre with
  | [] => mergeNext { offset := b.offset, size := b.size, free := true } post
  | l :: rest =>
    if l.free = true then
      rest.reverse ++
        mergeNext { offset := l.offset, size := l.size + (b.size + sizeofAlloc), free := true } post
    else
      rest.reverse ++ l :: mergeNext { offset := b.offset, size := b.size, free := true } post

/-- The control block that the loop of `deallocateScratch` holds in `pLast`
after it has walked over the blocks `pre`, having started with `p`. -/
def lastVisited : Option Nat → List Block → Option Nat
  | p, [] => p
  | _, b :: bs => lastVisited (some b.offset) bs

/-- The "merge with next" step of `deallocateScratch`, on the arena `mem2`
with the values of `bufferPos` and `pCurrent` at that point. -/
def forwardMerge (mem2 : Pool) (bufferPos2 pCurrent2 : Nat) : Pool :=
  let offset := u32 (u32 (bufferPos2 + (mem2 pCurrent2).size) + sizeofAlloc)
  if offset < SCRATCH_POOL_SIZE then
    if (mem2 offset).free = true then
      setSize mem2 pCurrent2 ((mem2 pCurrent2).size + ((mem2 offset).size + sizeofAlloc))
    else mem2
  else mem2

/-- A sequence of `allocateScratch` calls with the given sizes and no
deallocation in between: the arena after the last call and the pointers
returned, in order. -/
def allocSeq : Pool → List Nat → Option (Pool × List (Option Nat))
  | mem, [] => some (mem, [])
  | mem, size :: rest =>
    match allocateScratch mem size with
    | none => none
    | some (mem1, r) =>
      match allocSeq mem1 rest with
      | none => none
      | some (mem2, rs) => some (mem2, r :: rs)

/-- The least multiple of 4 that is greater than or equal to `n`. -/
def roundUp4 (n : Nat) : Nat := (n + 3) / 4 * 4

/-- The pointers that a run of allocations yields when each one is carved
from the front of the free block starting at `pos`. -/
def ptrsFrom : Nat → List Nat → List Nat
  | _, [] => []
  | pos, size :: rest => (pos + sizeofAlloc) :: ptrsFrom (pos + sizeofAlloc + roundUp4 size) rest

/-- Two payload ranges `[p, p + size)`, given as pairs of pointer and size,
do not overlap. -/
def Disjoint2 (x y : Nat × Nat) : Prop := x.1 + x.2 ≤ y.1 ∨ y.1 + y.2 ≤ x.1

/-- Total number of free payload bytes in the pool. -/
def freeBytes (mem : Pool) : Nat :=
  (((blocks mem).filter (fun b => b.free)).map (fun b => b.size)).sum

/-- The backward merge of `deallocateScratch`, for the freed block `b` and the
blocks `rpre` before it (nearest first): the blocks left untouched before the
current block, and the current block after the step. -/
def mergePrev : List Block → Block → List Block × Block
  | [], b => ([], { offset := b.offset, size := b.size, free := true })
  | l :: rest, b =>
    if l.free = true then
      (rest.reverse, { offset := l.offset, size := l.size + (b.size + sizeofAlloc), free := true })
    else
      ((l :: rest).reverse, { offset := b.offset, size := b.size, free := true })

/-- The arena that allocations of 100, 52 and 20 bytes leave on a fresh pool
over a zeroed arena. -/
def threeAllocPool : Pool := fun o =>
  if o = 0 then { size := 100, free := false }
  else if o = 104 then { size := 52, free := false }
  else if o = 160 then { size := 20, free := false }
  else if o = 184 then { size := 1048388, free := true }
  else { size := 0, free := false }

/-! ## Framebuffer object: data model -/

/-- OpenGL enumerant `GL_NONE`. -/
def GL_NONE : Nat := 0

/-- OpenGL enumerant `GL_FRAMEBUFFER_EXT`. -/
def GL_FRAMEBUFFER_EXT : Nat := 0x8D40

/-- OpenGL enumerant `GL_RENDERBUFFER_EXT`. -/
def GL_RENDERBUFFER_EXT : Nat := 0x8D41

/-- OpenGL enumerant `GL_COLOR_ATTACHMENT0_EXT`. -/
def GL_COLOR_ATTACHMENT0_EXT : Nat := 0x8CE0

/-- OpenGL enumerant `GL_DEPTH_STENCIL_ATTACHMENT`. -/
def GL_DEPTH_STENCIL_ATTACHMENT : Nat := 0x821A

/-- OpenGL enumerant `GL_FRAMEBUFFER_COMPLETE_EXT`. -/
def GL_FRAMEBUFFER_COMPLETE_EXT : Nat := 0x8CD5

/-- OpenGL enumerant `GL_FRAMEBUFFER_UNSUPPORTED_EXT`. -/
def GL_FRAMEBUFFER_UNSUPPORTED_EXT : Nat := 0x8CDD

/-- Reduction of a value to an `UINT16`. -/
def u16 (n : Nat) : Nat := n % 2 ^ 16

/-- A `GLPixelBuffer` as the framebuffer object sees it: which buffer it is,
and what `getWidth()`, `getHeight()`, `getGLFormat()` and `getFormat()`
return. -/
structure GLPixelBuffer where
  /-- Identity of the buffer object. -/
  id : Nat
  /-- Result of `getWidth()`. -/
  width : Nat
  /-- Result of `getHeight()`. -/
  height : Nat
  /-- Result of `getGLFormat()`. -/
  glFormat : Nat
  /-- Result of `getFormat()`. -/
  format : Nat
deriving DecidableEq, Repr

/-- The struct `GLSurfaceDesc`: a buffer reference (possibly null) and a
z-offset. -/
structure GLSurfaceDesc where
  /-- The member `buffer`; `none` is the null pointer. -/
  buffer : Option GLPixelBuffer
  /-- The member `zoffset`. -/
  zoffset : Nat
deriving DecidableEq, Repr

/-- The members of a `GLFrameBufferObject`.  `mColor x` is what the C++
expression `mColor[x]` reads; the array has `BS_MAX_MULTIPLE_RENDER_TARGETS`
elements and C++ does not check the index. -/
structure GLFrameBufferObject where
  /-- Name of the device-side framebuffer object. -/
  mFB : Nat
  /-- Number of samples, a `GLsizei`. -/
  mNumSamples : Int
  /-- The color slots. -/
  mColor : Nat → GLSurfaceDesc
  /-- The depth/stencil slot. -/
  mDepthStencilBuffer : Option GLPixelBuffer

/-- A call made to the graphics device. -/
inductive GLCall where
  /-- The call `glBindFramebufferEXT(target, framebuffer)`. -/
  | bindFramebuffer (target framebuffer : Nat)
  /-- The call `buffer->bindToFramebuffer(attachment, zoffset)`. -/
  | bindToFramebuffer (buffer : GLPixelBuffer) (attachment zoffset : Nat)
  /-- The call `glFramebufferRenderbufferEXT(target, attachment, rbtarget, rb)`. -/
  | framebufferRenderbuffer (target attachment renderbuffertarget renderbuffer : Nat)
  /-- The call `glDrawBuffers(n, bufs)`, with the whole array `bufs`. -/
  | drawBuffers (n : Nat) (bufs : List Nat)
  /-- The call `glDrawBuffer(buf)`. -/
  | drawBuffer (buf : Nat)
  /-- The call `glReadBuffer(mode)`. -/
  | readBuffer (mode : Nat)
  /-- The call `glCheckFramebufferStatusEXT(target)`. -/
  | checkFramebufferStatus (target : Nat)
  /-- The call `glGenFramebuffersEXT(n, &name)`. -/
  | genFramebuffers (n : Nat)
  /-- The call `glGetIntegerv(pname, &value)`. -/
  | getIntegerv (pname : Nat)
deriving DecidableEq, Repr

/-- The state of the graphics device that the framebuffer object acts on:
the framebuffer bound to the global binding point (0 is "none"), and the
calls received so far, oldest first. -/
structure GLDevice where
  /-- The framebuffer currently bound. -/
  boundFramebuffer : Nat
  /-- The calls received. -/
  calls : List GLCall
deriving DecidableEq, Repr

/-- Record a call. -/
def GLDevice.call (dev : GLDevice) (c : GLCall) : GLDevice :=
  { dev with calls := dev.calls ++ [c] }

/-- The call `glBindFramebufferEXT(target, framebuffer)`. -/
def GLDevice.glBindFramebufferEXT (dev : GLDevice) (target framebuffer : Nat) : GLDevice :=
  { boundFramebuffer := framebuffer,
    calls := dev.calls ++ [GLCall.bindFramebuffer target framebuffer] }

/-- What the framebuffer object asks of its surroundings during
`initialize()`. -/
structure GLDriver where
  /-- Result of `getCapabilities()->getNumMultiRenderTargets()`. -/
  numMultiRenderTargets : Nat
  /-- Whether the entry point `glDrawBuffers` is available. -/
  hasDrawBuffers : Bool
  /-- Result of `glCheckFramebufferStatusEXT(GL_FRAMEBUFFER_EXT)`. -/
  framebufferStatus : Nat

/-- The message of an `InvalidParametersException` raised by `initialize()`. -/
inductive InitError where
  /-- "Attachment 0 must have surface attached". -/
  | attachment0Missing
  /-- "Attachment x has incompatible size w x h. It must be of the same as
  the size of surface 0, width x height." -/
  | incompatibleSize (x w h width height : Nat)
  /-- "Attachment x has incompatible format." -/
  | incompatibleFormat (x : Nat)
  /-- "All framebuffer formats with this texture internal format unsupported". -/
  | unsupported
  /-- "Framebuffer incomplete or other FBO status error". -/
  | incomplete
deriving DecidableEq, Repr

/-- How a call of `initialize()` ends. -/
inductive Outcome where
  /-- The method returned. -/
  | returned
  /-- An `InvalidParametersException` was raised. -/
  | invalidParameters (why : InitError)
deriving DecidableEq, Repr

/-- The framebuffer object and the device after a call of a method,
with the way the call ended. -/
structure MethodResult where
  /-- How the call ended. -/
  outcome : Outcome
  /-- The members of the object after the call. -/
  self : GLFrameBufferObject
  /-- The device after the call. -/
  device : GLDevice

/-! ## Framebuffer object: operations -/

/-- The loop "Bind all attachment points to frame buffer" of `initialize()`,
for `x` from the given value with `k` iterations to go.  The result is the
device, and the error if an exception was raised. -/
def bindAttachments (self : GLFrameBufferObject) (width height glformat : Nat) :
    Nat → Nat → GLDevice → Option InitError × GLDevice
  | 0, _, dev => (none, dev)
  | k + 1, x, dev =>
    match (self.mColor x).buffer with
    | some buffer =>
      if buffer.width ≠ width ∨ buffer.height ≠ height then
        (some (InitError.incompatibleSize x buffer.width buffer.height width height), dev)
      else if buffer.glFormat ≠ glformat then
        (some (InitError.incompatibleFormat x), dev)
      else
        bindAttachments self width height glformat k (x + 1)
          (dev.call (GLCall.bindToFramebuffer buffer (GL_COLOR_ATTACHMENT0_EXT + x)
            (self.mColor x).zoffset))
    | none =>
      -- Detach
      bindAttachments self width height glformat k (x + 1)
        (dev.call (GLCall.framebufferRenderbuffer GL_FRAMEBUFFER_EXT
          (GL_COLOR_ATTACHMENT0_EXT + x) GL_RENDERBUFFER_EXT 0))

/-- The loop "Do glDrawBuffer calls" of `initialize()`, for `x` from the
given value with `k` iterations to go: the array `bufs` filled so far and the
count `n`. -/
def fillDrawBuffers (self : GLFrameBufferObject) : Nat → Nat → List Nat → Nat → List Nat × Nat
  | 0, _, bufs, n => (bufs, n)
  | k + 1, x, bufs, n =>
    match (self.mColor x).buffer with
    | some _ =>
      -- Keep highest used buffer + 1
      fillDrawBuffers self k (x + 1) (bufs ++ [GL_COLOR_ATTACHMENT0_EXT + x]) (x + 1)
    | none => fillDrawBuffers self k (x + 1) (bufs ++ [GL_NONE]) n

/-- The method `GLFrameBufferObject::initialize()`, which the specification
calls finalize.  `BS_MAX_MULTIPLE_RENDER_TARGETS` is the engine constant of
that name, which is defined outside the files at hand. -/
def finalize (BS_MAX_MULTIPLE_RENDER_TARGETS : Nat) (driver : GLDriver)
    (self : GLFrameBufferObject) (dev : GLDevice) : MethodResult :=
  -- First buffer must be bound
  match (self.mColor 0).buffer with
  | none => { outcome := Outcome.invalidParameters InitError.attachment0Missing,
              self := self, device := dev }
  | some buffer0 =>
    -- Store basic stats
    let width := buffer0.width
    let height := buffer0.height
    let glformat := buffer0.glFormat
    let maxSupportedMRTs := u16 driver.numMultiRenderTargets
    -- Bind simple buffer to add colour attachments
    let dev1 := dev.glBindFramebufferEXT GL_FRAMEBUFFER_EXT self.mFB
    -- Bind all attachment points to frame buffer
    match bindAttachments self width height glformat maxSupportedMRTs 0 dev1 with
    | (some err, dev2) =>
      { outcome := Outcome.invalidParameters err, self := self, device := dev2 }
    | (none, dev2) =>
      let dev3 :=
        match self.mDepthStencilBuffer with
        | some ds => dev2.call (GLCall.bindToFramebuffer ds GL_DEPTH_STENCIL_ATTACHMENT 0)
        | none => dev2
      -- Do glDrawBuffer calls
      let filled := fillDrawBuffers self BS_MAX_MULTIPLE_RENDER_TARGETS 0 [] 0
      let bufs := filled.1
      let n := filled.2
      let dev4 :=
        if driver.hasDrawBuffers = true then
          -- Drawbuffer extension supported, use it
          dev3.call (GLCall.drawBuffers n bufs)
        else
          dev3.call (GLCall.drawBuffer (bufs.getD 0 GL_NONE))
      -- No read buffer, by default
      let dev5 := dev4.call (GLCall.readBuffer GL_NONE)
      -- Check status
      let status := driver.framebufferStatus
      let dev6 := dev5.call (GLCall.checkFramebufferStatus GL_FRAMEBUFFER_EXT)
      -- Bind main buffer
      let dev7 := dev6.glBindFramebufferEXT GL_FRAMEBUFFER_EXT 0
      if status = GL_FRAMEBUFFER_COMPLETE_EXT then
        -- All is good
        { outcome := Outcome.returned, self := self, device := dev7 }
      else if status = GL_FRAMEBUFFER_UNSUPPORTED_EXT then
        { outcome := Outcome.invalidParameters InitError.unsupported,
          self := self, device := dev7 }
      else
        { outcome := Outcome.invalidParameters InitError.incomplete,
          self := self, device := dev7 }

/-- A 256 x 256 buffer. -/
def buffer256 : GLPixelBuffer := { id := 1, width := 256, height := 256, glFormat := 0x8058, format := 1 }

/-- A 128 x 128 buffer of the same format. -/
def buffer128 : GLPixelBuffer := { id := 2, width := 128, height := 128, glFormat := 0x8058, format := 1 }

/-- A table with the 256 x 256 buffer in slot 0 and the 128 x 128 buffer in
slot 1. -/
def mismatchedTable : GLFrameBufferObject :=
  { mFB := 1, mNumSamples := 0,
    mColor := fun x =>
      if x = 0 then { buffer := some buffer256, zoffset := 0 }
      else if x = 1 then { buffer := some buffer128, zoffset := 0 }
      else { buffer := none, zoffset := 0 },
    mDepthStencilBuffer := none }

/-- A device on which nothing is bound and nothing has been called. -/
def idleDevice : GLDevice := { boundFramebuffer := 0, calls := [] }

/-- A device that supports one color attachment and reports a complete
framebuffer. -/
def oneTargetDriver : GLDriver :=
  { numMultiRenderTargets := 1, hasDrawBuffers := true,
    framebufferStatus := GL_FRAMEBUFFER_COMPLETE_EXT }

/-- A device that supports two color attachments and reports a complete
framebuffer. -/
def twoTargetDriver : GLDriver :=
  { numMultiRenderTargets := 2, hasDrawBuffers := true,
    framebufferStatus := GL_FRAMEBUFFER_COMPLETE_EXT }

/-- A populated slot agrees with the reference width, height and GL format. -/
def SlotMatches (self : GLFrameBufferObject) (width height glformat x : Nat) : Prop :=
  ∀ b, (self.mColor x).buffer = some b →
    b.width = width ∧ b.height = height ∧ b.glFormat = glformat

/-! ## Framebuffer object: construction and binding -/

/-- OpenGL enumerant `GL_MAX_SAMPLES_EXT`. -/
def GL_MAX_SAMPLES_EXT : Nat := 0x8D57

/-- Conversion of an `UINT32` value to `GLsizei`, a 32-bit signed integer:
values from `2^31` on wrap around to negative numbers. -/
def toGLsizei (n : Nat) : Int :=
  if n % 2 ^ 32 < 2 ^ 31 then ((n % 2 ^ 32 : Nat) : Int)
  else ((n % 2 ^ 32 : Nat) : Int) - 2 ^ 32

/-- The function `std::min` on `GLsizei` values. -/
def stdMin (a b : Int) : Int := if b < a then b else a

/-- What the constructor of `GLFrameBufferObject` asks of its surroundings. -/
structure GLContext where
  /-- The name that `glGenFramebuffersEXT(1, &mFB)` stores in `mFB`. -/
  genFramebuffer : Nat
  /-- The flag `GLEW_EXT_framebuffer_blit`. -/
  GLEW_EXT_framebuffer_blit : Bool
  /-- The flag `GLEW_EXT_framebuffer_multisample`. -/
  GLEW_EXT_framebuffer_multisample : Bool
  /-- The `GLint` that `glGetIntegerv(GL_MAX_SAMPLES_EXT, &maxSamples)` stores. -/
  maxSamples : Int

/-- The loop "Initialise state" of the constructor, for `x` from the given
value with `k` iterations to go: `mColor[x].buffer = nullptr`. -/
def clearSlots : Nat → Nat → (Nat → GLSurfaceDesc) → (Nat → GLSurfaceDesc)
  | 0, _, mColor => mColor
  | k + 1, x, mColor =>
    clearSlots k (x + 1)
      (fun i => if i = x then { buffer := none, zoffset := (mColor x).zoffset } else mColor i)

/-- The constructor `GLFrameBufferObject(UINT32 multisampleCount)`.  The
member `mNumSamples` is a `GLsizei`, as its use in `std::min` with a
`GLsizei` shows; `slots` is the array `mColor` as its elements' own
constructor leaves it. -/
def newGLFrameBufferObject (BS_MAX_MULTIPLE_RENDER_TARGETS : Nat) (ctx : GLContext)
    (slots : Nat → GLSurfaceDesc) (multisampleCount : Nat) (dev : GLDevice) :
    GLFrameBufferObject × GLDevice :=
  let mNumSamples0 := toGLsizei multisampleCount
  -- Generate framebuffer object
  let mFB := ctx.genFramebuffer
  let dev1 := dev.call (GLCall.genFramebuffers 1)
  -- check multisampling
  let checked : Int × GLDevice :=
    if ctx.GLEW_EXT_framebuffer_blit = true ∧ ctx.GLEW_EXT_framebuffer_multisample = true then
      -- check samples supported
      let dev2 := dev1.glBindFramebufferEXT GL_FRAMEBUFFER_EXT mFB
      let dev3 := dev2.call (GLCall.getIntegerv GL_MAX_SAMPLES_EXT)
      let maxSamples := ctx.maxSamples
      let dev4 := dev3.glBindFramebufferEXT GL_FRAMEBUFFER_EXT 0
      (stdMin mNumSamples0 maxSamples, dev4)
    else
      (0, dev1)
  -- Initialise state
  ({ mFB := mFB, mNumSamples := checked.1,
     mColor := clearSlots BS_MAX_MULTIPLE_RENDER_TARGETS 0 slots,
     mDepthStencilBuffer := none },
   checked.2)

/-- The method `bindSurface(UINT32 attachment, const GLSurfaceDesc& target)`.
The result `none` stands for the failure of
`assert(attachment < BS_MAX_MULTIPLE_RENDER_TARGETS)`. -/
def bindSurface (BS_MAX_MULTIPLE_RENDER_TARGETS : Nat) (driver : GLDriver)
    (self : GLFrameBufferObject) (dev : GLDevice) (attachment : Nat) (target : GLSurfaceDesc) :
    Option MethodResult :=
  if attachment < BS_MAX_MULTIPLE_RENDER_TARGETS then
    let self1 : GLFrameBufferObject :=
      { self with mColor := fun x => if x = attachment then target else self.mColor x }
    -- Re-initialise
    match (self1.mColor 0).buffer with
    | some _ => some (finalize BS_MAX_MULTIPLE_RENDER_TARGETS driver self1 dev)
    | none => some { outcome := Outcome.returned, self := self1, device := dev }
  else none

/-- The method `unbindSurface(UINT32 attachment)`.  The result `none` stands
for the failure of `assert(attachment < BS_MAX_MULTIPLE_RENDER_TARGETS)`. -/
def unbindSurface (BS_MAX_MULTIPLE_RENDER_TARGETS : Nat) (driver : GLDriver)
    (self : GLFrameBufferObject) (dev : GLDevice) (attachment : Nat) : Option MethodResult :=
  if attachment < BS_MAX_MULTIPLE_RENDER_TARGETS then
    let self1 : GLFrameBufferObject :=
      { self with mColor := fun x =>
          if x = attachment then
            { buffer := none, zoffset := (self.mColor attachment).zoffset }
          else self.mColor x }
    -- Re-initialise if buffer 0 still bound
    match (self1.mColor 0).buffer with
    | some _ => some (finalize BS_MAX_MULTIPLE_RENDER_TARGETS driver self1 dev)
    | none => some { outcome := Outcome.returned, self := self1, device := dev }
  else none

/-- The method `bindDepthStencil(GLPixelBufferPtr depthStencilBuffer)`. -/
def bindDepthStencil (self : GLFrameBufferObject) (depthStencilBuffer : Option GLPixelBuffer) :
    GLFrameBufferObject :=
  { self with mDepthStencilBuffer := depthStencilBuffer }

/-- The method `unbindDepthStencil()`. -/
def unbindDepthStencil (self : GLFrameBufferObject) : GLFrameBufferObject :=
  { self with mDepthStencilBuffer := none }

/-- The draw-target list that the device holds after the given calls: the
first `n` entries of the array of the latest `glDrawBuffers(n, bufs)`, or the
one buffer of the latest `glDrawBuffer(buf)`; `acc` is the list held before. -/
def lastDrawTargets : List GLCall → List Nat → List Nat
  | [], acc => acc
  | GLCall.drawBuffers n bufs :: cs, _ => lastDrawTargets cs (bufs.take n)
  | GLCall.drawBuffer buf :: cs, _ => lastDrawTargets cs [buf]
  | _ :: cs, acc => lastDrawTargets cs acc

/-- The draw-target list that the device holds. -/
def GLDevice.drawTargets (dev : GLDevice) : List Nat := lastDrawTargets dev.calls []

/-- The color-attachment marker of a slot if the slot is populated, and the
marker `GL_NONE` if it is not. -/
def slotMarker (self : GLFrameBufferObject) (x : Nat) : Nat :=
  match (self.mColor x).buffer with
  | some _ => GL_COLOR_ATTACHMENT0_EXT + x
  | none => GL_NONE

/-- A table with a 256 x 256 buffer in slot 0 and a 128 x 128 buffer in
slot 3. -/
def sparseTable : GLFrameBufferObject :=
  { mFB := 1, mNumSamples := 0,
    mColor := fun x =>
      if x = 0 then { buffer := some buffer256, zoffset := 0 }
      else if x = 3 then { buffer := some buffer128, zoffset := 0 }
      else { buffer := none, zoffset := 0 },
    mDepthStencilBuffer := none }

/-- A table with all slots empty. -/
def emptyTable : GLFrameBufferObject :=
  { mFB := 1, mNumSamples := 0, mColor := fun _ => { buffer := none, zoffset := 0 },
    mDepthStencilBuffer := none }

/-- A 512 x 512 RGBA8 buffer. -/
def buffer512a : GLPixelBuffer :=
  { id := 3, width := 512, height := 512, glFormat := 0x8058, format := 1 }

/-- Another 512 x 512 RGBA8 buffer. -/
def buffer512b : GLPixelBuffer :=
  { id := 4, width := 512, height := 512, glFormat := 0x8058, format := 1 }

/-- A context with multisample and blit support and at most 4 samples. -/
def sampleContext : GLContext :=
  { genFramebuffer := 1, GLEW_EXT_framebuffer_blit := true,
    GLEW_EXT_framebuffer_multisample := true, maxSamples := 4 }

/-- The device after the steps of `initialize()` that follow the attachment
loop (depth/stencil attachment, draw buffers, read buffer, status query and
the final `glBindFramebufferEXT(GL_FRAMEBUFFER_EXT, 0)`), from the device
`dev2` that the loop leaves. -/
def finishDevice (BS_MAX_MULTIPLE_RENDER_TARGETS : Nat) (driver : GLDriver)
    (self : GLFrameBufferObject) (dev2 : GLDevice) : GLDevice :=
  let dev3 :=
    match self.mDepthStencilBuffer with
    | some ds => dev2.call (GLCall.bindToFramebuffer ds GL_DEPTH_STENCIL_ATTACHMENT 0)
    | none => dev2
  let filled := fillDrawBuffers self BS_MAX_MULTIPLE_RENDER_TARGETS 0 [] 0
  let dev4 :=
    if driver.hasDrawBuffers = true then dev3.call (GLCall.drawBuffers filled.2 filled.1)
    else dev3.call (GLCall.drawBuffer (filled.1.getD 0 GL_NONE))
  let dev5 := dev4.call (GLCall.readBuffer GL_NONE)
  let dev6 := dev5.call (GLCall.checkFramebufferStatus GL_FRAMEBUFFER_EXT)
  dev6.glBindFramebufferEXT GL_FRAMEBUFFER_EXT 0

/-- The table after the assignment `mColor[attachment] = target`. -/
def storeSlot (self : GLFrameBufferObject) (attachment : Nat) (target : GLSurfaceDesc) :
    GLFrameBufferObject :=
  { self with mColor := fun x => if x = attachment then target else self.mColor x }

/-- The table after the assignment `mColor[attachment].buffer = nullptr`. -/
def clearSlot (self : GLFrameBufferObject) (attachment : Nat) : GLFrameBufferObject :=
  { self with mColor := fun x =>
      if x = attachment then { buffer := none, zoffset := (self.mColor attachment).zoffset }
      else self.mColor x }

/-- Two physically consecutive blocks are not both free. -/
def NotBothFree (x y : Block) : Prop := ¬ (x.free = true ∧ y.free = true)

instance : DecidableRel NotBothFree := fun x y => by
  unfold NotBothFree; infer_instance

/-- No two consecutive blocks of a block list are both free. -/
def NoAdjFreeList : List Block → Prop
  | [] => True
  | [_] => True
  | x :: y :: rest => NotBothFree x y ∧ NoAdjFreeList (y :: rest)

instance decNoAdjFreeList : (bs : List Block) → Decidable (NoAdjFreeList bs)
  | [] => isTrue trivial
  | [_] => isTrue trivial
  | x :: y :: rest =>
    @instDecidableAnd (NotBothFree x y) (NoAdjFreeList (y :: rest)) inferInstance
      (decNoAdjFreeList (y :: rest))

/-- The no-adjacent-free-blocks invariant: no two consecutive blocks of the
header walk are both free. -/
def NoAdjacentFree (mem : Pool) : Prop := NoAdjFreeList (blocks mem)

instance (mem : Pool) : Decidable (NoAdjacentFree mem) := by
  unfold NoAdjacentFree; infer_instance

/-! ## Scratch pool: the control blocks that the two loops touch -/

/-- A control block that a loop reads or writes, by the pointer through which
it does so. -/
inductive HeaderAccess where
  /-- The control block at `bufferPos` in an iteration (`pNext` of
  `allocateScratch`, `pCurrent` of `deallocateScratch`). -/
  | visited (o : Nat)
  /-- The new control block `pSplitAlloc` of a split. -/
  | split (o : Nat)
  /-- The control block `pLast` of `deallocateScratch`. -/
  | last (o : Nat)
  /-- The control block `pNext` of the forward merge of `deallocateScratch`. -/
  | next (o : Nat)
deriving DecidableEq, Repr

/-- The offset of the control block. -/
def HeaderAccess.offset : HeaderAccess → Nat
  | HeaderAccess.visited o => o
  | HeaderAccess.split o => o
  | HeaderAccess.last o => o
  | HeaderAccess.next o => o

/-- Whether the access is the visit of an iteration. -/
def HeaderAccess.isVisited : HeaderAccess → Bool
  | HeaderAccess.visited _ => true
  | _ => false

/-- The loop of `allocateScratch` as in `allocLoop`, which also lists, in
order, the control blocks it reads or writes; `tr` is the list so far. -/
def allocLoopTraced : Nat → Pool → Nat → Nat → List HeaderAccess →
    Option ((Pool × Option Nat) × List HeaderAccess)
  | 0, _, _, _, _ => none
  | fuel + 1, mem, size, bufferPos, tr =>
    if bufferPos < SCRATCH_POOL_SIZE then
      let pNext := bufferPos
      let tr1 := tr ++ [HeaderAccess.visited pNext]
      if (mem pNext).free = true ∧ (mem pNext).size ≥ size then
        if (mem pNext).size > size + sizeofAlloc then
          let offset := u32 (sizeofAlloc + size)
          let pSplitAlloc := bufferPos + offset
          let m := setFree mem pSplitAlloc true
          let m := setSize m pSplitAlloc ((m pNext).size - size - sizeofAlloc)
          let mem1 := setSize m pNext size
          some ((setFree mem1 pNext false, some (pNext + sizeofAlloc)),
            tr1 ++ [HeaderAccess.split pSplitAlloc])
        else
          some ((setFree mem pNext false, some (pNext + sizeofAlloc)), tr1)
      else
        allocLoopTraced fuel mem size (u32 (bufferPos + u32 (sizeofAlloc + (mem pNext).size)))
          tr1
    else
      some ((mem, none), tr)

/-- The loop of `deallocateScratch` as in `deallocLoop`, which also lists,
in order, the control blocks it reads or writes; `tr` is the list so far. -/
def deallocLoopTraced : Nat → Pool → Nat → Nat → Option Nat → List HeaderAccess →
    Option (DeallocResult × List HeaderAccess)
  | 0, _, _, _, _, _ => none
  | fuel + 1, mem, ptr, bufferPos, pLast, tr =>
    if bufferPos < SCRATCH_POOL_SIZE then
      let pCurrent := bufferPos
      let tr1 := tr ++ [HeaderAccess.visited pCurrent]
      if bufferPos + sizeofAlloc = ptr then
        let mem1 := setFree mem pCurrent true
        let merged : Pool × Nat × Nat :=
          match pLast with
          | some l =>
            if (mem1 l).free = true then
              let bufferPos1 := sub32 bufferPos (u32 ((mem1 l).size + sizeofAlloc))
              let m := setSize mem1 l ((mem1 l).size + ((mem1 pCurrent).size + sizeofAlloc))
              (m, bufferPos1, l)
            else (mem1, bufferPos, pCurrent)
          | none => (mem1, bufferPos, pCurrent)
        let tr2 :=
          match pLast with
          | some l => tr1 ++ [HeaderAccess.last l]
          | none => tr1
        let mem2 := merged.1
        let bufferPos2 := merged.2.1
        let pCurrent2 := merged.2.2
        let offset := u32 (u32 (bufferPos2 + (mem2 pCurrent2).size) + sizeofAlloc)
        let mem3 :=
          if offset < SCRATCH_POOL_SIZE then
            let pNext := offset
            if (mem2 pNext).free = true then
              setSize mem2 pCurrent2 ((mem2 pCurrent2).size + ((mem2 pNext).size + sizeofAlloc))
            else mem2
          else mem2
        let tr3 := if offset < SCRATCH_POOL_SIZE then tr2 ++ [HeaderAccess.next offset] else tr2
        some (DeallocResult.done mem3, tr3)
      else
        deallocLoopTraced fuel mem ptr
          (u32 (bufferPos + u32 (sizeofAlloc + (mem pCurrent).size))) (some pCurrent) tr1
    else
      some (DeallocResult.assertFailed mem, tr)

/-- Every control block of the list lies inside the arena, every visited
offset is the start of a block of the pool, and the visits are at most as
many as the blocks. -/
def TraceInBounds (mem : Pool) (tr : List HeaderAccess) : Prop :=
  (∀ a ∈ tr, a.offset + sizeofAlloc ≤ SCRATCH_POOL_SIZE) ∧
  (∀ o, HeaderAccess.visited o ∈ tr → ∃ b ∈ blocks mem, b.offset = o) ∧
  tr.countP (fun a => a.isVisited) ≤ (blocks mem).length

/-! ## Framebuffer object: the slot indices of the attachment loop -/

/-- The loop "Bind all attachment points to frame buffer" of `initialize()`
together with the indices `x` at which it has read `mColor[x]`, in order. -/
def bindAttachmentsTraced (self : GLFrameBufferObject) (width height glformat : Nat) :
    Nat → Nat → GLDevice → List Nat → (Option InitError × GLDevice) × List Nat
  | 0, _, dev, seen => ((none, dev), seen)
  | k + 1, x, dev, seen =>
    match (self.mColor x).buffer with
    | some buffer =>
      if buffer.width ≠ width ∨ buffer.height ≠ height then
        ((some (InitError.incompatibleSize x buffer.width buffer.height width height), dev),
          seen ++ [x])
      else if buffer.glFormat ≠ glformat then
        ((some (InitError.incompatibleFormat x), dev), seen ++ [x])
      else
        bindAttachmentsTraced self width height glformat k (x + 1)
          (dev.call (GLCall.bindToFramebuffer buffer (GL_COLOR_ATTACHMENT0_EXT + x)
            (self.mColor x).zoffset)) (seen ++ [x])
    | none =>
      -- Detach
      bindAttachmentsTraced self width height glformat k (x + 1)
        (dev.call (GLCall.framebufferRenderbuffer GL_FRAMEBUFFER_EXT
          (GL_COLOR_ATTACHMENT0_EXT + x) GL_RENDERBUFFER_EXT 0)) (seen ++ [x])

/-- The indices at which the attachment loop of `initialize()` reads `mColor`,
when the method is called on the given object and device. -/
def examinedSlots (driver : GLDriver) (self : GLFrameBufferObject) (dev : GLDevice) : List Nat :=
  match (self.mColor 0).buffer with
  | none => []
  | some buffer0 =>
    (bindAttachmentsTraced self buffer0.width buffer0.height buffer0.glFormat
      (u16 driver.numMultiRenderTargets) 0
      (dev.glBindFramebufferEXT GL_FRAMEBUFFER_EXT self.mFB) []).2

/-- A table with the 256 x 256 buffer in slot 0 and nothing else. -/
def singleTable : GLFrameBufferObject :=
  { mFB := 1, mNumSamples := 0,
    mColor := fun x =>
      if x = 0 then { buffer := some buffer256, zoffset := 0 }
      else { buffer := none, zoffset := 0 },
    mDepthStencilBuffer := none }

/-- A device that supports nine color attachments and reports a complete
framebuffer. -/
def nineTargetDriver : GLDriver :=
  { numMultiRenderTargets := 9, hasDrawBuffers := true,
    framebufferStatus := GL_FRAMEBUFFER_COMPLETE_EXT }

/-! ## Scratch pool: arithmetic and memory lemmas -/

theorem pool_size_val : SCRATCH_POOL_SIZE = 1048576 := rfl

theorem sizeofAlloc_val : sizeofAlloc = 4 := rfl

theorem u32_of_lt {n : Nat} (h : n < 4294967296) : u32 n = n := by
  unfold u32; exact Nat.mod_eq_of_lt (by norm_num; exact h)

theorem u31_of_lt {n : Nat} (h : n < 2147483648) : u31 n = n := by
  unfold u31; exact Nat.mod_eq_of_lt (by norm_num; exact h)

theorem sub32_of_le {a b : Nat} (ha : a < 4294967296) (hb : b ≤ a) : sub32 a b = a - b := by
  unfold sub32
  have h1 : b % 2 ^ 32 = b := Nat.mod_eq_of_lt (by norm_num; omega)
  rw [h1]
  have h2 : a + (2 ^ 32 - b) = (a - b) + 2 ^ 32 := by norm_num; omega
  rw [h2, Nat.add_mod_right]
  exact Nat.mod_eq_of_lt (by norm_num; omega)

theorem setSize_same (mem : Pool) (p v : Nat) :
    setSize mem p v p = { size := u31 v, free := (mem p).free } := by
  simp [setSize]

theorem setSize_other (mem : Pool) (p v o : Nat) (h : o ≠ p) : setSize mem p v o = mem o := by
  simp [setSize, h]

theorem setFree_same (mem : Pool) (p : Nat) (b : Bool) :
    setFree mem p b p = { size := (mem p).size, free := b } := by
  simp [setFree]

theorem setFree_other (mem : Pool) (p : Nat) (b : Bool) (o : Nat) (h : o ≠ p) :
    setFree mem p b o = mem o := by
  simp [setFree, h]

/-! ## Scratch pool: the header walk and the partition invariant -/

theorem seg_le {mem : Pool} : ∀ {bs : List Block} {a e : Nat}, Seg mem a bs e →
    a + 4 * bs.length ≤ e := by
  intro bs
  induction bs with
  | nil => intro a e h; simp [Seg] at h; simp [h]
  | cons b bs ih =>
    intro a e h
    obtain ⟨_, _, h3⟩ := h
    have := ih h3
    simp only [sizeofAlloc_val, List.length_cons] at *
    omega

theorem seg_sum {mem : Pool} : ∀ {bs : List Block} {a e : Nat}, Seg mem a bs e →
    a + (bs.map (fun b => sizeofAlloc + b.size)).sum = e := by
  intro bs
  induction bs with
  | nil => intro a e h; simp [Seg] at h; simp [h]
  | cons b bs ih =>
    intro a e h
    obtain ⟨_, _, h3⟩ := h
    have := ih h3
    simp only [List.map_cons, List.sum_cons] at *
    omega

theorem seg_append {mem : Pool} : ∀ {xs ys : List Block} {a e : Nat},
    Seg mem a (xs ++ ys) e ↔ ∃ m, Seg mem a xs m ∧ Seg mem m ys e := by
  intro xs
  induction xs with
  | nil =>
    intro ys a e
    constructor
    · intro h; exact ⟨a, rfl, h⟩
    · rintro ⟨m, h1, h2⟩
      have : a = m := h1
      subst this; exact h2
  | cons b xs ih =>
    intro ys a e
    constructor
    · rintro ⟨h1, h2, h3⟩
      obtain ⟨m, h4, h5⟩ := ih.mp h3
      exact ⟨m, ⟨h1, h2, h4⟩, h5⟩
    · rintro ⟨m, ⟨h1, h2, h4⟩, h5⟩
      exact ⟨h1, h2, ih.mpr ⟨m, h4, h5⟩⟩

theorem seg_frame {mem mem1 : Pool} : ∀ {bs : List Block} {a e : Nat}, Seg mem a bs e →
    (∀ o, a ≤ o → o < e → mem1 o = mem o) → Seg mem1 a bs e := by
  intro bs
  induction bs with
  | nil => intro a e h _; exact h
  | cons b bs ih =>
    intro a e h hf
    obtain ⟨h1, h2, h3⟩ := h
    have hle := seg_le h3
    refine ⟨h1, ?_, ih h3 ?_⟩
    · rw [hf a (le_refl a) (by simp only [sizeofAlloc_val] at hle; omega)]; exact h2
    · intro o ho1 ho2
      exact hf o (by omega) ho2

theorem seg_offset_lt {mem : Pool} : ∀ {bs : List Block} {a e : Nat}, Seg mem a bs e →
    ∀ b ∈ bs, a ≤ b.offset ∧ b.offset + sizeofAlloc + b.size ≤ e := by
  intro bs
  induction bs with
  | nil => intro a e _ b hb; simp at hb
  | cons x bs ih =>
    intro a e h b hb
    obtain ⟨h1, h2, h3⟩ := h
    have hle := seg_le h3
    rcases List.mem_cons.mp hb with rfl | hb
    · constructor
      · omega
      · rw [h1]; omega
    · have := ih h3 b hb
      omega

theorem seg_blocksFrom (mem : Pool) : ∀ (fuel pos : Nat),
    Seg mem pos (blocksFrom fuel mem pos)
      (pos + ((blocksFrom fuel mem pos).map (fun b => sizeofAlloc + b.size)).sum) := by
  intro fuel
  induction fuel with
  | zero => intro pos; simp [blocksFrom, Seg]
  | succ fuel ih =>
    intro pos
    unfold blocksFrom
    split
    · refine ⟨rfl, rfl, ?_⟩
      have := ih (pos + sizeofAlloc + (mem pos).size)
      simp only [List.map_cons, List.sum_cons]
      have e : pos + (sizeofAlloc + (mem pos).size +
          ((blocksFrom fuel mem (pos + sizeofAlloc + (mem pos).size)).map
            (fun b => sizeofAlloc + b.size)).sum) =
          pos + sizeofAlloc + (mem pos).size +
          ((blocksFrom fuel mem (pos + sizeofAlloc + (mem pos).size)).map
            (fun b => sizeofAlloc + b.size)).sum := by omega
      rw [e]; exact this
    · simp [Seg]

theorem blocksFrom_of_seg {mem : Pool} : ∀ {bs : List Block} {fuel a : Nat},
    Seg mem a bs SCRATCH_POOL_SIZE → bs.length ≤ fuel → blocksFrom fuel mem a = bs := by
  intro bs
  induction bs with
  | nil =>
    intro fuel a h _
    have : a = SCRATCH_POOL_SIZE := h
    cases fuel with
    | zero => rfl
    | succ n => simp [blocksFrom, this]
  | cons b bs ih =>
    intro fuel a h hf
    cases fuel with
    | zero => simp at hf
    | succ n =>
      have hle := seg_le h
      obtain ⟨h1, h2, h3⟩ := h
      have hlt : a < SCRATCH_POOL_SIZE := by
        simp only [List.length_cons] at hle; omega
      unfold blocksFrom
      rw [if_pos hlt, h2]
      simp only
      rw [ih h3 (by simpa using hf)]
      cases b; simp at h1 ⊢; omega

theorem blocks_of_seg {mem : Pool} {bs : List Block} (h : Seg mem 0 bs SCRATCH_POOL_SIZE) :
    blocks mem = bs := by
  have hle := seg_le h
  exact blocksFrom_of_seg h (by omega)

theorem invariant_iff_seg (mem : Pool) :
    PartitionInvariant mem ↔ Seg mem 0 (blocks mem) SCRATCH_POOL_SIZE := by
  constructor
  · intro h
    have := seg_blocksFrom mem SCRATCH_POOL_SIZE 0
    unfold PartitionInvariant blocks at h
    rw [h, Nat.zero_add] at this
    exact this
  · intro h
    have := seg_sum h
    unfold PartitionInvariant
    omega

theorem invariant_of_seg {mem : Pool} {bs : List Block} (h : Seg mem 0 bs SCRATCH_POOL_SIZE) :
    PartitionInvariant mem := by
  rw [invariant_iff_seg, blocks_of_seg h]; exact h

/-! ## Scratch pool: what the two loops do on a partitioned arena -/

theorem allocLoop_skip {mem : Pool} {size : Nat} : ∀ {pre : List Block} {a e k : Nat},
    Seg mem a pre e → e ≤ SCRATCH_POOL_SIZE → (∀ b ∈ pre, ¬ b.fits size) →
    allocLoop (pre.length + k) mem size a = allocLoop k mem size e := by
  intro pre
  induction pre with
  | nil =>
    intro a e k h _ _
    have : a = e := h
    subst this; simp
  | cons b pre ih =>
    intro a e k h he hn
    have hle := seg_le h
    obtain ⟨h1, h2, h3⟩ := h
    have hfuel : (b :: pre).length + k = (pre.length + k) + 1 := by
      simp only [List.length_cons]; omega
    have hlt : a < SCRATCH_POOL_SIZE := by
      simp only [List.length_cons] at hle; omega
    have hb : ¬ ((mem a).free = true ∧ (mem a).size ≥ size) := by
      rw [h2]; exact hn b (List.mem_cons_self _ _)
    have hle3 := seg_le h3
    have hpos : u32 (a + u32 (sizeofAlloc + (mem a).size)) = a + sizeofAlloc + b.size := by
      rw [h2]
      simp only [sizeofAlloc_val, pool_size_val] at *
      have hin : u32 (4 + b.size) = 4 + b.size := u32_of_lt (by omega)
      rw [hin, u32_of_lt (by omega)]; omega
    rw [hfuel, allocLoop, if_pos hlt]
    simp only
    rw [if_neg hb, hpos]
    exact ih h3 he (fun x hx => hn x (List.mem_cons_of_mem _ hx))

theorem allocLoop_miss {mem : Pool} {size : Nat} {bs : List Block} {a k : Nat}
    (h : Seg mem a bs SCRATCH_POOL_SIZE) (hn : ∀ b ∈ bs, ¬ b.fits size) :
    allocLoop (bs.length + (k + 1)) mem size a = some (mem, none) := by
  rw [allocLoop_skip h (le_refl _) hn, allocLoop, if_neg (lt_irrefl _)]

theorem seg_allocSplit {mem : Pool} {size : Nat} {b : Block} {post : List Block} {e : Nat}
    (h : Seg mem e (b :: post) SCRATCH_POOL_SIZE) (hb : b.fits size) :
    ∃ mem1, (∀ k, allocLoop (k + 1) mem size e = some (mem1, some (e + sizeofAlloc))) ∧
      Seg mem1 e (allocSplit size b ++ post) SCRATCH_POOL_SIZE ∧
      (∀ o, o < e → mem1 o = mem o) ∧
      (∀ o, e + sizeofAlloc + b.size ≤ o → mem1 o = mem o) := by
  have hle := seg_le h
  obtain ⟨h1, h2, h3⟩ := h
  subst h1
  have hle3 := seg_le h3
  have hlt : b.offset < SCRATCH_POOL_SIZE := by
    simp only [List.length_cons] at hle; omega
  have hfit : (mem b.offset).free = true ∧ (mem b.offset).size ≥ size := by rw [h2]; exact hb
  have hsz : (mem b.offset).size = b.size := by rw [h2]
  have hfr : (mem b.offset).free = b.free := by rw [h2]
  obtain ⟨hbf, hbs⟩ := hb
  by_cases hsplit : b.size > size + sizeofAlloc
  · refine ⟨setFree (setSize (setSize (setFree mem (b.offset + u32 (sizeofAlloc + size)) true)
      (b.offset + u32 (sizeofAlloc + size))
      ((setFree mem (b.offset + u32 (sizeofAlloc + size)) true b.offset).size - size - sizeofAlloc))
      b.offset size) b.offset false, ?_, ?_, ?_, ?_⟩
    · intro k
      rw [allocLoop, if_pos hlt]
      simp only
      rw [if_pos hfit, if_pos (by rw [hsz]; exact hsplit)]
    · have hu : u32 (sizeofAlloc + size) = sizeofAlloc + size := by
        simp only [sizeofAlloc_val, pool_size_val] at *
        exact u32_of_lt (by omega)
      have hne : b.offset ≠ b.offset + (sizeofAlloc + size) := by
        simp only [sizeofAlloc_val]; omega
      rw [hu]
      simp only [allocSplit, if_pos hsplit, List.cons_append, List.nil_append]
      refine ⟨rfl, ?_, rfl, ?_, ?_⟩
      · rw [setFree_same, setSize_same]
        simp only [sizeofAlloc_val, pool_size_val] at *
        rw [u31_of_lt (by omega)]
      · have hne2 : b.offset + sizeofAlloc + size ≠ b.offset := by
          simp only [sizeofAlloc_val]; omega
        have hadd : b.offset + sizeofAlloc + size = b.offset + (sizeofAlloc + size) := by omega
        rw [setFree_other _ _ _ _ hne2, setSize_other _ _ _ _ hne2, hadd, setSize_same,
          setFree_same, setFree_other _ _ _ _ hne, hsz]
        simp only [sizeofAlloc_val, pool_size_val] at *
        rw [u31_of_lt (by omega)]
      · refine @seg_frame mem _ _ _ _ ?_ ?_
        · have hadd : b.offset + sizeofAlloc + size + sizeofAlloc + (b.size - size - sizeofAlloc) =
              b.offset + sizeofAlloc + b.size := by
            simp only [sizeofAlloc_val] at *; omega
          rw [hadd]; exact h3
        · intro o ho1 _
          have hadd : b.offset + sizeofAlloc + size + sizeofAlloc + (b.size - size - sizeofAlloc) =
              b.offset + sizeofAlloc + b.size := by
            simp only [sizeofAlloc_val] at *; omega
          rw [hadd] at ho1
          have ho3 : o ≠ b.offset := by simp only [sizeofAlloc_val] at *; omega
          have ho4 : o ≠ b.offset + (sizeofAlloc + size) := by
            simp only [sizeofAlloc_val] at *; omega
          rw [setFree_other _ _ _ _ ho3, setSize_other _ _ _ _ ho3, setSize_other _ _ _ _ ho4,
            setFree_other _ _ _ _ ho4]
    · intro o ho
      have hu : u32 (sizeofAlloc + size) = sizeofAlloc + size := by
        simp only [sizeofAlloc_val, pool_size_val] at *
        exact u32_of_lt (by omega)
      rw [hu]
      have ho3 : o ≠ b.offset := by omega
      have ho4 : o ≠ b.offset + (sizeofAlloc + size) := by omega
      rw [setFree_other _ _ _ _ ho3, setSize_other _ _ _ _ ho3, setSize_other _ _ _ _ ho4,
        setFree_other _ _ _ _ ho4]
    · intro o ho
      have hu : u32 (sizeofAlloc + size) = sizeofAlloc + size := by
        simp only [sizeofAlloc_val, pool_size_val] at *
        exact u32_of_lt (by omega)
      rw [hu]
      have ho3 : o ≠ b.offset := by simp only [sizeofAlloc_val] at *; omega
      have ho4 : o ≠ b.offset + (sizeofAlloc + size) := by
        simp only [sizeofAlloc_val] at *; omega
      rw [setFree_other _ _ _ _ ho3, setSize_other _ _ _ _ ho3, setSize_other _ _ _ _ ho4,
        setFree_other _ _ _ _ ho4]
  · refine ⟨setFree mem b.offset false, ?_, ?_, ?_, ?_⟩
    · intro k
      rw [allocLoop, if_pos hlt]
      simp only
      rw [if_pos hfit, if_neg (by rw [hsz]; exact hsplit)]
    · simp only [allocSplit, if_neg hsplit, List.cons_append, List.nil_append]
      refine ⟨rfl, ?_, ?_⟩
      · rw [setFree_same, hsz]
      · apply seg_frame h3
        intro o ho1 _
        exact setFree_other _ _ _ _ (by simp only [sizeofAlloc_val] at *; omega)
    · intro o ho
      exact setFree_other _ _ _ _ (by omega)
    · intro o ho
      exact setFree_other _ _ _ _ (by simp only [sizeofAlloc_val] at *; omega)

theorem deallocLoop_skip {mem : Pool} {ptr : Nat} : ∀ {pre : List Block} {a e k : Nat}
    {p : Option Nat}, Seg mem a pre e → e ≤ SCRATCH_POOL_SIZE →
    (∀ b ∈ pre, b.offset + sizeofAlloc ≠ ptr) →
    deallocLoop (pre.length + k) mem ptr a p = deallocLoop k mem ptr e (lastVisited p pre) := by
  intro pre
  induction pre with
  | nil =>
    intro a e k p h _ _
    have : a = e := h
    subst this; simp [lastVisited]
  | cons b pre ih =>
    intro a e k p h he hn
    have hle := seg_le h
    obtain ⟨h1, h2, h3⟩ := h
    subst h1
    have hfuel : (b :: pre).length + k = (pre.length + k) + 1 := by
      simp only [List.length_cons]; omega
    have hlt : b.offset < SCRATCH_POOL_SIZE := by
      simp only [List.length_cons] at hle; omega
    have hb : ¬ (b.offset + sizeofAlloc = ptr) := hn b (List.mem_cons_self _ _)
    have hle3 := seg_le h3
    have hpos : u32 (b.offset + u32 (sizeofAlloc + (mem b.offset).size)) =
        b.offset + sizeofAlloc + b.size := by
      rw [h2]
      simp only [sizeofAlloc_val, pool_size_val] at *
      have hin : u32 (4 + b.size) = 4 + b.size := u32_of_lt (by omega)
      rw [hin, u32_of_lt (by omega)]; omega
    rw [hfuel, deallocLoop, if_pos hlt]
    simp only
    rw [if_neg hb, hpos]
    exact ih h3 he (fun x hx => hn x (List.mem_cons_of_mem _ hx))

theorem deallocLoop_miss {mem : Pool} {ptr : Nat} {bs : List Block} {a k : Nat} {p : Option Nat}
    (h : Seg mem a bs SCRATCH_POOL_SIZE) (hn : ∀ b ∈ bs, b.offset + sizeofAlloc ≠ ptr) :
    deallocLoop (bs.length + (k + 1)) mem ptr a p = some (DeallocResult.assertFailed mem) := by
  rw [deallocLoop_skip h (le_refl _) hn, deallocLoop, if_neg (lt_irrefl _)]

theorem seg_forwardMerge {mem2 : Pool} {c : Block} {post : List Block}
    (h : Seg mem2 c.offset (c :: post) SCRATCH_POOL_SIZE) :
    Seg (forwardMerge mem2 c.offset c.offset) c.offset (mergeNext c post) SCRATCH_POOL_SIZE ∧
      (∀ o, o < c.offset → forwardMerge mem2 c.offset c.offset o = mem2 o) := by
  have hle := seg_le h
  obtain ⟨_, h2, h3⟩ := h
  have hsz : (mem2 c.offset).size = c.size := by rw [h2]
  have hfr : (mem2 c.offset).free = c.free := by rw [h2]
  have hle3 := seg_le h3
  have hoff : u32 (u32 (c.offset + (mem2 c.offset).size) + sizeofAlloc) =
      c.offset + sizeofAlloc + c.size := by
    rw [hsz]
    simp only [sizeofAlloc_val, pool_size_val] at *
    have hin : u32 (c.offset + c.size) = c.offset + c.size := u32_of_lt (by omega)
    rw [hin, u32_of_lt (by omega)]; omega
  unfold forwardMerge
  simp only
  rw [hoff]
  cases post with
  | nil =>
    have hend : c.offset + sizeofAlloc + c.size = SCRATCH_POOL_SIZE := h3
    rw [hend, if_neg (lt_irrefl _)]
    exact ⟨⟨rfl, h2, h3⟩, fun _ _ => rfl⟩
  | cons n rest =>
    obtain ⟨g1, g2, g3⟩ := h3
    have hle4 := seg_le g3
    have hlt : c.offset + sizeofAlloc + c.size < SCRATCH_POOL_SIZE := by
      simp only [sizeofAlloc_val, pool_size_val] at *; omega
    rw [if_pos hlt, g2]
    simp only [mergeNext]
    by_cases hn : n.free = true
    · rw [if_pos hn, if_pos hn, hsz]
      refine ⟨⟨rfl, ?_, ?_⟩, ?_⟩
      · rw [setSize_same, hfr]
        simp only [sizeofAlloc_val, pool_size_val] at *
        rw [u31_of_lt (by omega)]
      · refine @seg_frame mem2 _ _ _ _ ?_ ?_
        · have hadd : c.offset + sizeofAlloc + (c.size + (n.size + sizeofAlloc)) =
              c.offset + sizeofAlloc + c.size + sizeofAlloc + n.size := by omega
          simp only
          rw [hadd]; exact g3
        · intro o ho _
          apply setSize_other
          simp only [sizeofAlloc_val] at *; omega
      · intro o ho
        exact setSize_other _ _ _ _ (by omega)
    · rw [if_neg hn, if_neg hn]
      exact ⟨⟨rfl, h2, g1, g2, g3⟩, fun _ _ => rfl⟩

theorem deallocLoop_hit_first {mem : Pool} {b : Block} {post : List Block}
    (h : Seg mem b.offset (b :: post) SCRATCH_POOL_SIZE) :
    ∃ mem3, (∀ k, deallocLoop (k + 1) mem (b.offset + sizeofAlloc) b.offset none =
        some (DeallocResult.done mem3)) ∧
      Seg mem3 b.offset (deallocMerge [] b post) SCRATCH_POOL_SIZE ∧
      (∀ o, o < b.offset → mem3 o = mem o) := by
  have hle := seg_le h
  have hlt : b.offset < SCRATCH_POOL_SIZE := by
    simp only [List.length_cons] at hle; omega
  obtain ⟨_, h2, h3⟩ := h
  have hseg1 : Seg (setFree mem b.offset true) b.offset
      ({ offset := b.offset, size := b.size, free := true } :: post) SCRATCH_POOL_SIZE := by
    refine ⟨rfl, ?_, ?_⟩
    · rw [setFree_same, h2]
    · apply seg_frame h3
      intro o ho _
      exact setFree_other _ _ _ _ (by simp only [sizeofAlloc_val] at *; omega)
  have hm := seg_forwardMerge (c := { offset := b.offset, size := b.size, free := true }) hseg1
  refine ⟨forwardMerge (setFree mem b.offset true) b.offset b.offset, ?_, hm.1, ?_⟩
  · intro k
    rw [deallocLoop, if_pos hlt]
    simp only [↓reduceIte]
    rfl
  · intro o ho
    rw [hm.2 o ho]
    exact setFree_other _ _ _ _ (by omega)

theorem deallocLoop_hit_next {mem : Pool} {l b : Block} {post : List Block}
    (hl : Seg mem l.offset [l] b.offset)
    (h : Seg mem b.offset (b :: post) SCRATCH_POOL_SIZE) :
    ∃ mem3, (∀ k, deallocLoop (k + 1) mem (b.offset + sizeofAlloc) b.offset (some l.offset) =
        some (DeallocResult.done mem3)) ∧
      Seg mem3 l.offset (deallocMerge [l] b post) SCRATCH_POOL_SIZE ∧
      (∀ o, o < l.offset → mem3 o = mem o) := by
  have hle := seg_le h
  have hlt : b.offset < SCRATCH_POOL_SIZE := by
    simp only [List.length_cons] at hle; omega
  obtain ⟨_, l2, l3⟩ := hl
  have l3 : l.offset + sizeofAlloc + l.size = b.offset := l3
  obtain ⟨_, h2, h3⟩ := h
  have hle3 := seg_le h3
  have hne : l.offset ≠ b.offset := by simp only [sizeofAlloc_val] at *; omega
  have hl1 : setFree mem b.offset true l.offset = { size := l.size, free := l.free } := by
    rw [setFree_other _ _ _ _ hne, l2]
  have hb1 : setFree mem b.offset true b.offset = { size := b.size, free := true } := by
    rw [setFree_same, h2]
  have hseg1 : Seg (setFree mem b.offset true) b.offset
      ({ offset := b.offset, size := b.size, free := true } :: post) SCRATCH_POOL_SIZE := by
    refine ⟨rfl, hb1, ?_⟩
    apply seg_frame h3
    intro o ho _
    exact setFree_other _ _ _ _ (by simp only [sizeofAlloc_val] at *; omega)
  by_cases hf : l.free = true
  · have hseg2 : Seg (setSize (setFree mem b.offset true) l.offset
        (l.size + (b.size + sizeofAlloc))) l.offset
        ({ offset := l.offset, size := l.size + (b.size + sizeofAlloc), free := true } :: post)
        SCRATCH_POOL_SIZE := by
      refine ⟨rfl, ?_, ?_⟩
      · rw [setSize_same, hl1]
        simp only [sizeofAlloc_val, pool_size_val] at *
        rw [u31_of_lt (by omega)]
        simp [hf]
      · refine @seg_frame mem _ _ _ _ ?_ ?_
        · have hadd : l.offset + sizeofAlloc + (l.size + (b.size + sizeofAlloc)) =
              b.offset + sizeofAlloc + b.size := by omega
          simp only
          rw [hadd]; exact h3
        · intro o ho _
          have ho1 : o ≠ l.offset := by simp only [sizeofAlloc_val] at *; omega
          have ho2 : o ≠ b.offset := by simp only [sizeofAlloc_val] at *; omega
          rw [setSize_other _ _ _ _ ho1, setFree_other _ _ _ _ ho2]
    have hm := seg_forwardMerge
      (c := { offset := l.offset, size := l.size + (b.size + sizeofAlloc), free := true }) hseg2
    refine ⟨forwardMerge (setSize (setFree mem b.offset true) l.offset
        (l.size + (b.size + sizeofAlloc))) l.offset l.offset, ?_, ?_, ?_⟩
    · intro k
      have hsub : sub32 b.offset (u32 (l.size + sizeofAlloc)) = l.offset := by
        simp only [sizeofAlloc_val, pool_size_val] at *
        have hin : u32 (l.size + 4) = l.size + 4 := u32_of_lt (by omega)
        rw [hin, sub32_of_le (by omega) (by omega)]; omega
      rw [deallocLoop, if_pos hlt]
      simp only [↓reduceIte]
      rw [hl1, hb1]
      simp only
      rw [if_pos hf, hsub]
      rfl
    · simp only [deallocMerge, if_pos hf, List.reverse_nil, List.nil_append]
      exact hm.1
    · intro o ho
      rw [hm.2 o ho]
      have ho1 : o ≠ l.offset := by omega
      have ho2 : o ≠ b.offset := by simp only [sizeofAlloc_val] at *; omega
      rw [setSize_other _ _ _ _ ho1, setFree_other _ _ _ _ ho2]
  · have hm := seg_forwardMerge (c := { offset := b.offset, size := b.size, free := true }) hseg1
    refine ⟨forwardMerge (setFree mem b.offset true) b.offset b.offset, ?_, ?_, ?_⟩
    · intro k
      rw [deallocLoop, if_pos hlt]
      simp only [↓reduceIte]
      rw [hl1]
      simp only
      rw [if_neg hf]
      rfl
    · simp only [deallocMerge, if_neg hf, List.reverse_nil, List.nil_append]
      refine ⟨rfl, ?_, ?_⟩
      · rw [hm.2 _ (by simp only [sizeofAlloc_val] at *; omega), hl1]
      · rw [l3]; exact hm.1
    · intro o ho
      rw [hm.2 o (by simp only [sizeofAlloc_val] at *; omega)]
      exact setFree_other _ _ _ _ (by simp only [sizeofAlloc_val] at *; omega)

/-! ## Scratch pool: the two methods on a partitioned arena -/

theorem first_split (p : Block → Prop) [DecidablePred p] : ∀ bs : List Block,
    (∀ b ∈ bs, ¬ p b) ∨
      ∃ pre b post, bs = pre ++ b :: post ∧ (∀ x ∈ pre, ¬ p x) ∧ p b := by
  intro bs
  induction bs with
  | nil => left; simp
  | cons x xs ih =>
    by_cases hx : p x
    · right; exact ⟨[], x, xs, rfl, by simp, hx⟩
    · rcases ih with h | ⟨pre, b, post, h1, h2, h3⟩
      · left
        intro b hb
        rcases List.mem_cons.mp hb with rfl | hb
        · exact hx
        · exact h b hb
      · right
        refine ⟨x :: pre, b, post, by simp [h1], ?_, h3⟩
        intro y hy
        rcases List.mem_cons.mp hy with rfl | hy
        · exact hx
        · exact h2 y hy

theorem allocateScratch_miss {mem : Pool} {size : Nat} {bs : List Block}
    (h : Seg mem 0 bs SCRATCH_POOL_SIZE) (hn : ∀ b ∈ bs, ¬ b.fits (roundSize size)) :
    allocateScratch mem size = some (mem, none) := by
  have hle := seg_le h
  have hfuel : SCRATCH_POOL_SIZE = bs.length + ((SCRATCH_POOL_SIZE - bs.length - 1) + 1) := by
    simp only [pool_size_val] at *; omega
  unfold allocateScratch
  rw [hfuel]
  exact allocLoop_miss h hn

theorem allocateScratch_hit {mem : Pool} {size : Nat} {pre post : List Block} {b : Block}
    (h : Seg mem 0 (pre ++ b :: post) SCRATCH_POOL_SIZE)
    (hn : ∀ x ∈ pre, ¬ x.fits (roundSize size)) (hb : b.fits (roundSize size)) :
    ∃ mem1, allocateScratch mem size = some (mem1, some (b.offset + sizeofAlloc)) ∧
      Seg mem1 0 (pre ++ allocSplit (roundSize size) b ++ post) SCRATCH_POOL_SIZE := by
  have hle := seg_le h
  obtain ⟨m, h1, h2⟩ := seg_append.mp h
  have hm : b.offset = m := h2.1
  subst hm
  have hle2 := seg_le h2
  obtain ⟨mem1, e1, e2, e3, _⟩ := seg_allocSplit h2 hb
  refine ⟨mem1, ?_, ?_⟩
  · have hfuel : SCRATCH_POOL_SIZE =
        pre.length + ((SCRATCH_POOL_SIZE - pre.length - 1) + 1) := by
      simp only [pool_size_val, List.length_append, List.length_cons] at *; omega
    unfold allocateScratch
    rw [hfuel, allocLoop_skip h1 (by omega) hn]
    exact e1 _
  · rw [List.append_assoc]
    exact seg_append.mpr ⟨b.offset, seg_frame h1 (fun o _ ho => e3 o ho), e2⟩

theorem lastVisited_concat (p : Option Nat) : ∀ (L : List Block) (l : Block),
    lastVisited p (L ++ [l]) = some l.offset := by
  intro L
  induction L generalizing p with
  | nil => intro l; rfl
  | cons x xs ih => intro l; exact ih (some x.offset) l

theorem deallocateScratch_miss {mem : Pool} {ptr : Nat} {bs : List Block}
    (h : Seg mem 0 bs SCRATCH_POOL_SIZE) (hn : ∀ b ∈ bs, b.offset + sizeofAlloc ≠ ptr) :
    deallocateScratch mem ptr = some (DeallocResult.assertFailed mem) := by
  have hle := seg_le h
  have hfuel : SCRATCH_POOL_SIZE = bs.length + ((SCRATCH_POOL_SIZE - bs.length - 1) + 1) := by
    simp only [pool_size_val] at *; omega
  unfold deallocateScratch
  rw [hfuel]
  exact deallocLoop_miss h hn

theorem deallocateScratch_hit {mem : Pool} {pre post : List Block} {b : Block}
    (h : Seg mem 0 (pre ++ b :: post) SCRATCH_POOL_SIZE) :
    ∃ mem3, deallocateScratch mem (b.offset + sizeofAlloc) = some (DeallocResult.done mem3) ∧
      Seg mem3 0 (deallocMerge pre.reverse b post) SCRATCH_POOL_SIZE := by
  have hle := seg_le h
  obtain ⟨m, h1, h2⟩ := seg_append.mp h
  have hm : b.offset = m := h2.1
  subst hm
  have hle2 := seg_le h2
  have hpre : ∀ x ∈ pre, x.offset + sizeofAlloc ≠ b.offset + sizeofAlloc := by
    intro x hx
    have := seg_offset_lt h1 x hx
    simp only [sizeofAlloc_val] at *; omega
  have hfuel : SCRATCH_POOL_SIZE =
      pre.length + ((SCRATCH_POOL_SIZE - pre.length - 1) + 1) := by
    simp only [pool_size_val, List.length_append, List.length_cons] at *; omega
  rcases List.eq_nil_or_concat pre with hnil | ⟨L, l, hL⟩
  · subst hnil
    have h0 : b.offset = 0 := by
      have : (0 : Nat) = b.offset := h1
      omega
    obtain ⟨mem3, e1, e2, _⟩ := deallocLoop_hit_first h2
    refine ⟨mem3, ?_, ?_⟩
    · unfold deallocateScratch
      rw [hfuel]
      simp only [List.length_nil, Nat.zero_add]
      have := e1 (SCRATCH_POOL_SIZE - 0 - 1)
      rw [h0] at this
      rw [h0]; exact this
    · rw [h0] at e2
      exact e2
  · rw [List.concat_eq_append] at hL
    subst hL
    obtain ⟨m, g1, g2⟩ := seg_append.mp h1
    have hm : l.offset = m := g2.1
    subst hm
    obtain ⟨mem3, e1, e2, e3⟩ := deallocLoop_hit_next g2 h2
    refine ⟨mem3, ?_, ?_⟩
    · unfold deallocateScratch
      rw [hfuel, deallocLoop_skip h1 (by omega) hpre, lastVisited_concat]
      exact e1 _
    · have hg : Seg mem3 0 L l.offset := seg_frame g1 (fun o _ ho => e3 o ho)
      have hlist : deallocMerge (L ++ [l]).reverse b post = L ++ deallocMerge [l] b post := by
        simp only [List.reverse_append, List.reverse_cons, List.reverse_nil, List.nil_append,
          List.singleton_append, deallocMerge, List.reverse_reverse]
        split <;> simp
      rw [hlist]
      exact seg_append.mpr ⟨l.offset, hg, e2⟩

theorem seg_construct (raw : Pool) :
    Seg (construct raw) 0 [{ offset := 0, size := SCRATCH_POOL_SIZE - sizeofAlloc, free := true }]
      SCRATCH_POOL_SIZE := by
  refine ⟨rfl, ?_, ?_⟩
  · unfold construct
    simp only
    rw [setFree_same, setSize_same]
    simp only [sizeofAlloc_val, pool_size_val]
    rw [u31_of_lt (by omega)]
  · show 0 + sizeofAlloc + (SCRATCH_POOL_SIZE - sizeofAlloc) = SCRATCH_POOL_SIZE
    simp only [sizeofAlloc_val, pool_size_val]

/-! ## Scratch pool: properties of the specification -/

/-- C1: the partition invariant (walking headers from offset 0, header plus
payload sizes sum to exactly `SCRATCH_POOL_SIZE`; the walk puts each block
where the previous one ends) holds for the freshly constructed pool, and is
preserved by `allocateScratch` for every size and by `deallocateScratch` for
every payload address of an existing block; both calls return. -/
theorem partition_invariant_preserved :
    (∀ raw : Pool, PartitionInvariant (construct raw)) ∧
    (∀ (mem : Pool) (size : Nat), PartitionInvariant mem →
      ∃ mem1 r, allocateScratch mem size = some (mem1, r) ∧ PartitionInvariant mem1) ∧
    (∀ (mem : Pool) (p : Nat), PartitionInvariant mem → (∃ b ∈ blocks mem, b.payload = p) →
      ∃ mem1, deallocateScratch mem p = some (DeallocResult.done mem1) ∧
        PartitionInvariant mem1) := by
  refine ⟨fun raw => invariant_of_seg (seg_construct raw), ?_, ?_⟩
  · intro mem size hinv
    have hseg := (invariant_iff_seg mem).mp hinv
    rcases first_split (fun b => b.fits (roundSize size)) (blocks mem) with hn | h
    · exact ⟨mem, none, allocateScratch_miss hseg hn, hinv⟩
    · obtain ⟨pre, b, post, h1, h2, h3⟩ := h
      rw [h1] at hseg
      obtain ⟨mem1, e1, e2⟩ := allocateScratch_hit hseg h2 h3
      exact ⟨mem1, _, e1, invariant_of_seg e2⟩
  · rintro mem p hinv ⟨b, hb, rfl⟩
    have hseg := (invariant_iff_seg mem).mp hinv
    obtain ⟨pre, post, h1⟩ := List.append_of_mem hb
    rw [h1] at hseg
    obtain ⟨mem3, e1, e2⟩ := deallocateScratch_hit hseg
    exact ⟨mem3, e1, invariant_of_seg e2⟩

/-- Witness for C1: a fresh pool over a zeroed arena, a request of 100 bytes,
and the release of the block whose payload is at offset 4. -/
theorem partition_invariant_preserved_witness :
    PartitionInvariant (construct zeroPool) ∧
    (∃ mem1 r, allocateScratch (construct zeroPool) 100 = some (mem1, r) ∧
      PartitionInvariant mem1) ∧
    (∃ mem1, deallocateScratch (construct zeroPool) 4 = some (DeallocResult.done mem1) ∧
      PartitionInvariant mem1) :=
  ⟨partition_invariant_preserved.1 zeroPool,
   partition_invariant_preserved.2.1 (construct zeroPool) 100 (by decide),
   partition_invariant_preserved.2.2 (construct zeroPool) 4 (by decide)
     ⟨{ offset := 0, size := 1048572, free := true }, by decide, by decide⟩⟩

/-- C2: first fit.  On a pool satisfying the partition invariant,
`allocateScratch` returns; it returns null exactly when no block of the walk
is free with a size at least the rounded size; and a returned pointer is the
payload address of a free block that is large enough and has the lowest
offset among such blocks, and the block at that offset is not free
afterwards. -/
theorem allocateScratch_first_fit (mem : Pool) (size : Nat) (hinv : PartitionInvariant mem) :
    ∃ mem1 r, allocateScratch mem size = some (mem1, r) ∧
      (r = none ↔ ∀ b ∈ blocks mem, ¬ b.fits (roundSize size)) ∧
      (∀ p, r = some p → ∃ b ∈ blocks mem, b.fits (roundSize size) ∧ p = b.payload ∧
        (∀ x ∈ blocks mem, x.fits (roundSize size) → b.offset ≤ x.offset) ∧
        (mem1 b.offset).free = false ∧
        ∃ b1 ∈ blocks mem1, b1.offset = b.offset ∧ b1.free = false) := by
  have hseg := (invariant_iff_seg mem).mp hinv
  rcases first_split (fun b => b.fits (roundSize size)) (blocks mem) with hn | h
  · refine ⟨mem, none, allocateScratch_miss hseg hn, ?_, ?_⟩
    · simp only [true_iff]; exact hn
    · intro p hp; cases hp
  · obtain ⟨pre, b, post, h1, h2, h3⟩ := h
    rw [h1] at hseg
    obtain ⟨mem1, e1, e2⟩ := allocateScratch_hit hseg h2 h3
    refine ⟨mem1, _, e1, ?_, ?_⟩
    · constructor
      · intro hr; cases hr
      · intro hall
        exact absurd h3 (hall b (by rw [h1]; simp))
    · intro p hp
      have hp : b.offset + sizeofAlloc = p := Option.some.inj hp
      obtain ⟨m, g1, g2⟩ := seg_append.mp hseg
      have hm : b.offset = m := g2.1
      subst hm
      -- the block at that offset after the call
      have hfirst : ∃ b1 rest, allocSplit (roundSize size) b = b1 :: rest ∧
          b1.offset = b.offset ∧ b1.free = false := by
        unfold allocSplit
        split
        · exact ⟨_, _, rfl, rfl, rfl⟩
        · exact ⟨_, _, rfl, rfl, rfl⟩
      obtain ⟨b1, rest, hsp, ho, hf⟩ := hfirst
      rw [hsp] at e2
      have hb1 : b1 ∈ blocks mem1 := by
        rw [blocks_of_seg e2]; simp
      obtain ⟨m1, k1, k2⟩ := seg_append.mp (by simpa using e2 :
        Seg mem1 0 (pre ++ (b1 :: (rest ++ post))) SCRATCH_POOL_SIZE)
      have hm1 : m1 = b.offset := by
        have a1 := seg_sum g1
        have a2 := seg_sum k1
        omega
      have hmem : mem1 b.offset = { size := b1.size, free := b1.free } := by
        rw [← hm1]; exact k2.2.1
      refine ⟨b, by rw [h1]; simp, h3, hp.symm, ?_, by rw [hmem, hf], b1, hb1, ho, hf⟩
      intro x hx hfit
      rw [h1] at hx
      rcases List.mem_append.mp hx with hx | hx
      · exact absurd hfit (h2 x hx)
      · have := seg_offset_lt g2 x hx
        omega

/-- Witness for C2: a fresh pool over a zeroed arena and a request of 100 bytes. -/
theorem allocateScratch_first_fit_witness :
    ∃ mem1 r, allocateScratch (construct zeroPool) 100 = some (mem1, r) ∧
      (r = none ↔ ∀ b ∈ blocks (construct zeroPool), ¬ b.fits (roundSize 100)) ∧
      (∀ p, r = some p → ∃ b ∈ blocks (construct zeroPool), b.fits (roundSize 100) ∧
        p = b.payload ∧
        (∀ x ∈ blocks (construct zeroPool), x.fits (roundSize 100) → b.offset ≤ x.offset) ∧
        (mem1 b.offset).free = false ∧
        ∃ b1 ∈ blocks mem1, b1.offset = b.offset ∧ b1.free = false) :=
  allocateScratch_first_fit (construct zeroPool) 100 (by decide)

theorem roundSize_eq_roundUp4 {size : Nat} (h : size + 3 < 4294967296) :
    roundSize size = roundUp4 size := by
  unfold roundSize roundUp4
  split
  · rw [u32_of_lt (by omega)]; omega
  · omega

theorem roundUp4_ge (size : Nat) : size ≤ roundUp4 size := by
  unfold roundUp4; omega

theorem roundUp4_pos {size : Nat} (h : 0 < size) : 4 ≤ roundUp4 size := by
  unfold roundUp4; omega

theorem allocSeq_frontier : ∀ (sizes : List Nat) (mem : Pool) (pos : Nat) (allocs : List Block),
    Seg mem 0 allocs pos → (∀ b ∈ allocs, b.free = false) →
    (pos = SCRATCH_POOL_SIZE ∨
      Seg mem pos [{ offset := pos, size := SCRATCH_POOL_SIZE - pos - sizeofAlloc, free := true }]
        SCRATCH_POOL_SIZE) →
    (∀ s ∈ sizes, 0 < s) →
    pos + (sizes.map (fun s => roundUp4 s + sizeofAlloc)).sum ≤ SCRATCH_POOL_SIZE →
    ∃ mem1, allocSeq mem sizes = some (mem1, (ptrsFrom pos sizes).map some) := by
  intro sizes
  induction sizes with
  | nil => intro mem pos allocs _ _ _ _ _; exact ⟨mem, rfl⟩
  | cons s ss ih =>
    intro mem pos allocs hseg hall hfree hpos hsum
    have hs := roundUp4_pos (hpos s (List.mem_cons_self _ _))
    have hge := roundUp4_ge s
    simp only [List.map_cons, List.sum_cons] at hsum
    have hround : roundSize s = roundUp4 s :=
      roundSize_eq_roundUp4 (by simp only [pool_size_val, sizeofAlloc_val] at hsum; omega)
    rcases hfree with hfull | hfree
    · simp only [pool_size_val, sizeofAlloc_val] at *; omega
    · have hwhole : Seg mem 0 (allocs ++
          { offset := pos, size := SCRATCH_POOL_SIZE - pos - sizeofAlloc, free := true } :: [])
          SCRATCH_POOL_SIZE := seg_append.mpr ⟨pos, hseg, hfree⟩
      have hn : ∀ x ∈ allocs, ¬ x.fits (roundSize s) := by
        intro x hx hfit
        have := hall x hx
        rw [hfit.1] at this
        cases this
      have hb : Block.fits (roundSize s)
          { offset := pos, size := SCRATCH_POOL_SIZE - pos - sizeofAlloc, free := true } := by
        refine ⟨rfl, ?_⟩
        rw [hround]
        simp only [pool_size_val, sizeofAlloc_val] at *; omega
      obtain ⟨mem1, e1, e2⟩ := allocateScratch_hit hwhole hn hb
      rw [hround] at e2
      by_cases hsplit : SCRATCH_POOL_SIZE - pos - sizeofAlloc > roundUp4 s + sizeofAlloc
      · simp only [allocSplit, if_pos hsplit, List.append_nil] at e2
        have e3 : Seg mem1 0 ((allocs ++ [{ offset := pos, size := roundUp4 s, free := false }]) ++
            [{ offset := pos + sizeofAlloc + roundUp4 s,
               size := SCRATCH_POOL_SIZE - pos - sizeofAlloc - roundUp4 s - sizeofAlloc,
               free := true }]) SCRATCH_POOL_SIZE := by
          simpa using e2
        obtain ⟨m, g1, g2⟩ := seg_append.mp e3
        have hm : pos + sizeofAlloc + roundUp4 s = m := g2.1
        subst hm
        have hsz : SCRATCH_POOL_SIZE - pos - sizeofAlloc - roundUp4 s - sizeofAlloc =
            SCRATCH_POOL_SIZE - (pos + sizeofAlloc + roundUp4 s) - sizeofAlloc := by omega
        rw [hsz] at g2
        obtain ⟨mem2, e4⟩ := ih mem1 (pos + sizeofAlloc + roundUp4 s) _ g1
          (by
            intro b hb
            rcases List.mem_append.mp hb with hb | hb
            · exact hall b hb
            · simp only [List.mem_singleton] at hb; rw [hb])
          (Or.inr g2) (fun x hx => hpos x (List.mem_cons_of_mem _ hx)) (by omega)
        refine ⟨mem2, ?_⟩
        simp only [allocSeq, e1, e4, ptrsFrom, List.map_cons]
      · have hss : ss = [] := by
          cases ss with
          | nil => rfl
          | cons t ts =>
            have ht := roundUp4_pos (hpos t (by simp))
            simp only [List.map_cons, List.sum_cons, pool_size_val, sizeofAlloc_val] at *
            omega
        subst hss
        refine ⟨mem1, ?_⟩
        simp only [allocSeq, e1, ptrsFrom, List.map_cons, List.map_nil]

theorem ptrsFrom_length : ∀ (sizes : List Nat) (pos : Nat),
    (ptrsFrom pos sizes).length = sizes.length := by
  intro sizes
  induction sizes with
  | nil => intro pos; rfl
  | cons s ss ih => intro pos; simp [ptrsFrom, ih]

theorem ptrsFrom_bounds : ∀ (sizes : List Nat) (pos : Nat),
    ∀ x ∈ List.zip (ptrsFrom pos sizes) sizes,
      pos + sizeofAlloc ≤ x.1 ∧
        x.1 + x.2 ≤ pos + (sizes.map (fun s => roundUp4 s + sizeofAlloc)).sum := by
  intro sizes
  induction sizes with
  | nil => intro pos x hx; simp [ptrsFrom] at hx
  | cons s ss ih =>
    intro pos x hx
    have hge := roundUp4_ge s
    simp only [ptrsFrom, List.zip_cons_cons, List.mem_cons] at hx
    simp only [List.map_cons, List.sum_cons]
    rcases hx with rfl | hx
    · simp only; omega
    · have := ih (pos + sizeofAlloc + roundUp4 s) x hx
      omega

theorem ptrsFrom_pairwise : ∀ (sizes : List Nat) (pos : Nat),
    (List.zip (ptrsFrom pos sizes) sizes).Pairwise Disjoint2 := by
  intro sizes
  induction sizes with
  | nil => intro pos; simp [ptrsFrom]
  | cons s ss ih =>
    intro pos
    have hge := roundUp4_ge s
    simp only [ptrsFrom, List.zip_cons_cons, List.pairwise_cons]
    refine ⟨?_, ih _⟩
    intro y hy
    have := ptrsFrom_bounds ss (pos + sizeofAlloc + roundUp4 s) y hy
    left
    simp only
    omega

/-- C3, as the code has it: from a freshly constructed pool and with no
deallocation, for every sequence of requests of non-zero sizes whose sizes
rounded up to a multiple of 4, plus one header each, sum to at most
`SCRATCH_POOL_SIZE`, every `allocateScratch` call returns a non-null pointer
whose payload range lies inside the arena, and the payload ranges are
pairwise disjoint. -/
theorem allocSeq_all_succeed (raw : Pool) (sizes : List Nat)
    (hpos : ∀ s ∈ sizes, 0 < s)
    (hsum : (sizes.map (fun s => roundUp4 s + sizeofAlloc)).sum ≤ SCRATCH_POOL_SIZE) :
    ∃ mem1 ps, allocSeq (construct raw) sizes = some (mem1, ps.map some) ∧
      ps.length = sizes.length ∧
      (∀ x ∈ List.zip ps sizes, sizeofAlloc ≤ x.1 ∧ x.1 + x.2 ≤ SCRATCH_POOL_SIZE) ∧
      (List.zip ps sizes).Pairwise Disjoint2 := by
  have hfree : Seg (construct raw) 0
      [{ offset := 0, size := SCRATCH_POOL_SIZE - 0 - sizeofAlloc, free := true }]
      SCRATCH_POOL_SIZE := seg_construct raw
  obtain ⟨mem1, e⟩ := allocSeq_frontier sizes (construct raw) 0 [] rfl (by simp)
    (Or.inr hfree) hpos (by omega)
  refine ⟨mem1, ptrsFrom 0 sizes, e, ptrsFrom_length sizes 0, ?_, ptrsFrom_pairwise sizes 0⟩
  intro x hx
  have := ptrsFrom_bounds sizes 0 x hx
  omega

/-- Witness for C3: requests of 100, 50 and 7 bytes on a fresh pool. -/
theorem allocSeq_all_succeed_witness :
    ∃ mem1 ps, allocSeq (construct zeroPool) [100, 50, 7] = some (mem1, ps.map some) ∧
      ps.length = [100, 50, 7].length ∧
      (∀ x ∈ List.zip ps [100, 50, 7], sizeofAlloc ≤ x.1 ∧ x.1 + x.2 ≤ SCRATCH_POOL_SIZE) ∧
      (List.zip ps [100, 50, 7]).Pairwise Disjoint2 :=
  allocSeq_all_succeed zeroPool [100, 50, 7] (by decide) (by decide)

/-- Counterexample to C3 as stated: the requests 1048567 and 1 (and likewise
1048568 and 0) have sizes that, plus one header each, sum to exactly
`SCRATCH_POOL_SIZE`, yet the second `allocateScratch` call returns null: the
first request is rounded up (or is not split) and takes the whole arena. -/
theorem allocSeq_sum_counterexample :
    ((([1048567, 1] : List Nat).map (fun s => s + sizeofAlloc)).sum ≤ SCRATCH_POOL_SIZE ∧
      (allocSeq (construct zeroPool) [1048567, 1]).map Prod.snd = some [some 4, none]) ∧
    ((([1048568, 0] : List Nat).map (fun s => s + sizeofAlloc)).sum ≤ SCRATCH_POOL_SIZE ∧
      (allocSeq (construct zeroPool) [1048568, 0]).map Prod.snd = some [some 4, none]) := by
  decide

theorem size_le_freeBytes_aux : ∀ (bs : List Block) (b : Block), b ∈ bs → b.free = true →
    b.size ≤ ((bs.filter (fun x => x.free)).map (fun x => x.size)).sum := by
  intro bs
  induction bs with
  | nil => intro b hb; simp at hb
  | cons x xs ih =>
    intro b hb hf
    rcases List.mem_cons.mp hb with rfl | hb
    · simp [List.filter_cons, hf]
    · have := ih b hb hf
      by_cases hx : x.free = true
      · simp only [List.filter_cons, hx, if_true, List.map_cons, List.sum_cons]; omega
      · simp only [List.filter_cons, hx, Bool.false_eq_true, if_false]; exact this

theorem allocateScratch_exhausted (mem : Pool) (size : Nat) (hinv : PartitionInvariant mem)
    (hsize : size + 3 < 4294967296) (hbig : freeBytes mem < size) :
    allocateScratch mem size = some (mem, none) := by
  apply allocateScratch_miss ((invariant_iff_seg mem).mp hinv)
  intro b hb hfit
  have h1 := size_le_freeBytes_aux (blocks mem) b hb hfit.1
  have h2 : size ≤ roundSize size := by
    rw [roundSize_eq_roundUp4 hsize]; exact roundUp4_ge size
  have h3 := hfit.2
  unfold freeBytes at hbig
  omega

/-- C4, at the failing input: on a fresh pool, whose free payload bytes number
1048572, the 32-bit request 4294967295 exceeds the free space, yet the
rounding step wraps the size around to 0 and `allocateScratch` returns the
non-null pointer 4 and changes the pool: it splits off an allocated block of
size 0. -/
theorem allocateScratch_exhaustion_wraps :
    PartitionInvariant (construct zeroPool) ∧
    freeBytes (construct zeroPool) = 1048572 ∧
    freeBytes (construct zeroPool) < 4294967295 ∧ 4294967295 < 2 ^ 32 ∧
    roundSize 4294967295 = 0 ∧
    (allocateScratch (construct zeroPool) 4294967295).map (fun r => (blocks r.1, r.2)) =
      some ([{ offset := 0, size := 0, free := false },
             { offset := 4, size := 1048568, free := true }], some 4) ∧
    blocks (construct zeroPool) = [{ offset := 0, size := 1048572, free := true }] := by
  decide

/-- C5: round trip on an otherwise-empty pool.  The fresh pool is one free
block of size `SCRATCH_POOL_SIZE - sizeofAlloc` at offset 0, and for every
size for which `allocateScratch` returns a non-null pointer `p` on it,
`deallocateScratch(p)` right afterwards returns and leaves that same block
list. -/
theorem alloc_dealloc_roundtrip_fresh (raw : Pool) (size p : Nat) (mem1 : Pool)
    (h : allocateScratch (construct raw) size = some (mem1, some p)) :
    blocks (construct raw) =
      [{ offset := 0, size := SCRATCH_POOL_SIZE - sizeofAlloc, free := true }] ∧
    ∃ mem2, deallocateScratch mem1 p = some (DeallocResult.done mem2) ∧
      blocks mem2 = blocks (construct raw) := by
  have hseg := seg_construct raw
  have hbl := blocks_of_seg hseg
  refine ⟨hbl, ?_⟩
  rw [hbl]
  by_cases hfit : Block.fits (roundSize size)
      { offset := 0, size := SCRATCH_POOL_SIZE - sizeofAlloc, free := true }
  · have hseg0 : Seg (construct raw) 0 ([] ++
        { offset := 0, size := SCRATCH_POOL_SIZE - sizeofAlloc, free := true } :: [])
        SCRATCH_POOL_SIZE := hseg
    obtain ⟨m1, e1, e2⟩ := allocateScratch_hit hseg0 (by simp) hfit
    rw [e1] at h
    have hm : m1 = mem1 := by
      have := Option.some.inj h
      exact congrArg Prod.fst this
    have hp : (0 : Nat) + sizeofAlloc = p := by
      have := Option.some.inj h
      exact Option.some.inj (congrArg Prod.snd this)
    subst hm
    subst hp
    by_cases hsplit : SCRATCH_POOL_SIZE - sizeofAlloc > roundSize size + sizeofAlloc
    · simp only [allocSplit, if_pos hsplit, List.nil_append, List.append_nil] at e2
      have e3 : Seg m1 0 ([] ++ ({ offset := 0, size := roundSize size, free := false } : Block) ::
          [{ offset := 0 + sizeofAlloc + roundSize size,
             size := SCRATCH_POOL_SIZE - sizeofAlloc - roundSize size - sizeofAlloc,
             free := true }]) SCRATCH_POOL_SIZE := e2
      obtain ⟨mem2, d1, d2⟩ := deallocateScratch_hit e3
      refine ⟨mem2, d1, ?_⟩
      rw [blocks_of_seg d2]
      simp only [List.reverse_nil, deallocMerge, mergeNext, if_true]
      have : roundSize size +
          (SCRATCH_POOL_SIZE - sizeofAlloc - roundSize size - sizeofAlloc + sizeofAlloc) =
          SCRATCH_POOL_SIZE - sizeofAlloc := by omega
      rw [this]
    · simp only [allocSplit, if_neg hsplit, List.nil_append, List.append_nil] at e2
      have e3 : Seg m1 0 ([] ++
          ({ offset := 0, size := SCRATCH_POOL_SIZE - sizeofAlloc, free := false } : Block) :: [])
          SCRATCH_POOL_SIZE := e2
      obtain ⟨mem2, d1, d2⟩ := deallocateScratch_hit e3
      refine ⟨mem2, d1, ?_⟩
      rw [blocks_of_seg d2]
      simp only [List.reverse_nil, deallocMerge, mergeNext]
  · have hmiss := @allocateScratch_miss _ size _ hseg (by
      intro b hb
      simp only [List.mem_singleton] at hb
      rw [hb]; exact hfit)
    rw [hmiss] at h
    have := Option.some.inj h
    have := congrArg Prod.snd this
    cases this

/-- Witness for C5: a request of 100 bytes on a fresh pool over a zeroed
arena returns the pointer 4. -/
theorem alloc_dealloc_roundtrip_fresh_witness :
    ∃ mem1, allocateScratch (construct zeroPool) 100 = some (mem1, some 4) ∧
      blocks (construct zeroPool) =
        [{ offset := 0, size := SCRATCH_POOL_SIZE - sizeofAlloc, free := true }] ∧
      ∃ mem2, deallocateScratch mem1 4 = some (DeallocResult.done mem2) ∧
        blocks mem2 = blocks (construct zeroPool) :=
  ⟨_, rfl, alloc_dealloc_roundtrip_fresh zeroPool 100 4 _ rfl⟩

theorem deallocMerge_eq (rpre : List Block) (b : Block) (post : List Block) :
    deallocMerge rpre b post = (mergePrev rpre b).1 ++ mergeNext (mergePrev rpre b).2 post := by
  cases rpre with
  | nil => simp [deallocMerge, mergePrev]
  | cons l rest => by_cases hl : l.free = true <;> simp [deallocMerge, mergePrev, hl]

theorem mergeNext_form (c : Block) (post : List Block) :
    ∃ c1 post1, mergeNext c post = c1 :: post1 ∧ c1.offset = c.offset ∧ c1.free = c.free ∧
      c.size ≤ c1.size ∧
      (∀ d : Block,
        mergeNext { offset := d.offset, size := d.size + (c.size + sizeofAlloc), free := c.free }
            post =
          { offset := d.offset, size := d.size + (c1.size + sizeofAlloc), free := c.free } ::
            post1) ∧
      ((∀ n, post.head? = some n → n.free = false) → c1 = c ∧ post1 = post) := by
  cases post with
  | nil => exact ⟨c, [], rfl, rfl, rfl, le_refl _, fun _ => rfl, fun _ => ⟨rfl, rfl⟩⟩
  | cons n r =>
    by_cases hn : n.free = true
    · refine ⟨{ offset := c.offset, size := c.size + (n.size + sizeofAlloc), free := c.free }, r,
        by simp only [mergeNext, if_pos hn], rfl, rfl, by simp, ?_, ?_⟩
      · intro d
        simp only [mergeNext, if_pos hn]
        have : d.size + (c.size + sizeofAlloc) + (n.size + sizeofAlloc) =
            d.size + (c.size + (n.size + sizeofAlloc) + sizeofAlloc) := by omega
        rw [this]
      · intro h
        have := h n rfl
        rw [hn] at this
        cases this
    · exact ⟨c, n :: r, by simp only [mergeNext, if_neg hn], rfl, rfl, le_refl _,
        fun _ => by simp only [mergeNext, if_neg hn], fun _ => ⟨rfl, rfl⟩⟩

theorem mergePrev_form {mem : Pool} {pre : List Block} {A : Block}
    (h : Seg mem 0 pre A.offset) :
    (mergePrev pre.reverse A).2.free = true ∧
      (mergePrev pre.reverse A).2.offset ≤ A.offset ∧
      (mergePrev pre.reverse A).2.offset + sizeofAlloc + (mergePrev pre.reverse A).2.size =
        A.offset + sizeofAlloc + A.size ∧
      ((∀ l, pre.getLast? = some l → l.free = false) →
        mergePrev pre.reverse A = (pre, { offset := A.offset, size := A.size, free := true })) := by
  rcases List.eq_nil_or_concat pre with hnil | ⟨L, l, hL⟩
  · subst hnil
    simp [mergePrev]
  · rw [List.concat_eq_append] at hL
    subst hL
    obtain ⟨m, g1, g2⟩ := seg_append.mp h
    obtain ⟨k1, _, k3⟩ := g2
    have k3 : m + sizeofAlloc + l.size = A.offset := k3
    simp only [List.reverse_append, List.reverse_cons, List.reverse_nil, List.nil_append,
      List.singleton_append, mergePrev]
    by_cases hl : l.free = true
    · simp only [if_pos hl, true_and]
      refine ⟨by omega, by omega, ?_⟩
      intro hfree
      have := hfree l (by simp)
      rw [hl] at this
      cases this
    · simp only [if_neg hl, true_and, le_refl]
      simp

/-- C6: order-independent coalescing.  When two physically adjacent blocks
`A` then `B` of a pool satisfying the partition invariant are both
allocated, freeing `A` then `B` and freeing `B` then `A` leave the same
block list; in it the region of `A` and `B` lies inside one free block, and
when neither outer neighbour was free that block starts at `A` and has size
`A.size + B.size + sizeofAlloc`. -/
theorem dealloc_adjacent_order_independent (mem : Pool) (pre post : List Block) (A B : Block)
    (hinv : PartitionInvariant mem) (hbl : blocks mem = pre ++ A :: B :: post)
    (hA : A.free = false) (hB : B.free = false) :
    ∃ m1 m2 n1 n2,
      deallocateScratch mem A.payload = some (DeallocResult.done m1) ∧
      deallocateScratch m1 B.payload = some (DeallocResult.done m2) ∧
      deallocateScratch mem B.payload = some (DeallocResult.done n1) ∧
      deallocateScratch n1 A.payload = some (DeallocResult.done n2) ∧
      blocks m2 = blocks n2 ∧
      ∃ F ∈ blocks m2, F.free = true ∧ F.offset ≤ A.offset ∧ B.stop ≤ F.stop ∧
        ((∀ l, pre.getLast? = some l → l.free = false) →
          (∀ n, post.head? = some n → n.free = false) →
          F.offset = A.offset ∧ F.size = A.size + B.size + sizeofAlloc) := by
  have hseg := (invariant_iff_seg mem).mp hinv
  rw [hbl] at hseg
  obtain ⟨mA, hpre, hrest⟩ := seg_append.mp hseg
  have hmA : A.offset = mA := hrest.1
  subst hmA
  have hAB : A.offset + sizeofAlloc + A.size = B.offset := hrest.2.2.1.symm
  obtain ⟨p1, p2, p3, p4⟩ := mergePrev_form (A := A) hpre
  -- free A, then B
  obtain ⟨m1, a1, a2⟩ := deallocateScratch_hit hseg
  rw [deallocMerge_eq] at a2
  simp only [mergeNext, hB, Bool.false_eq_true, if_false] at a2
  have a3 : Seg m1 0 (((mergePrev pre.reverse A).1 ++ [(mergePrev pre.reverse A).2]) ++
      B :: post) SCRATCH_POOL_SIZE := by
    simpa using a2
  obtain ⟨m2, b1, b2⟩ := deallocateScratch_hit a3
  simp only [List.reverse_append, List.reverse_cons, List.reverse_nil, List.nil_append,
    List.singleton_append, deallocMerge, if_pos p1, List.reverse_reverse] at b2
  -- free B, then A
  have hseg2 : Seg mem 0 ((pre ++ [A]) ++ B :: post) SCRATCH_POOL_SIZE := by
    simpa using hseg
  obtain ⟨n1, c1, c2⟩ := deallocateScratch_hit hseg2
  simp only [List.reverse_append, List.reverse_cons, List.reverse_nil, List.nil_append,
    List.singleton_append, deallocMerge, hA, Bool.false_eq_true, if_false,
    List.reverse_reverse] at c2
  obtain ⟨BN, post1, f1, f2, f3, f4, f5, f6⟩ :=
    mergeNext_form { offset := B.offset, size := B.size, free := true } post
  rw [f1] at c2
  obtain ⟨n2, d1, d2⟩ := deallocateScratch_hit c2
  rw [deallocMerge_eq] at d2
  have f3 : BN.free = true := f3
  simp only [mergeNext, if_pos f3, p1] at d2
  have f5 := f5 (mergePrev pre.reverse A).2
  simp only at f5
  rw [f5] at b2
  refine ⟨m1, m2, n1, n2, a1, b1, c1, d1, ?_, ?_⟩
  · rw [blocks_of_seg b2, blocks_of_seg d2]
  · rw [blocks_of_seg b2]
    refine ⟨{ offset := (mergePrev pre.reverse A).2.offset,
              size := (mergePrev pre.reverse A).2.size + (BN.size + sizeofAlloc), free := true },
      by simp, rfl, p2, ?_, ?_⟩
    · simp only [Block.stop]
      have f4 : B.size ≤ BN.size := f4
      have hjoin : (mergePrev pre.reverse A).2.offset + sizeofAlloc +
          (mergePrev pre.reverse A).2.size = B.offset := by rw [p3]; exact hAB
      clear f2 p3 hAB
      omega
    · intro hl hn
      have e1 := p4 hl
      obtain ⟨e2, _⟩ := f6 hn
      have o1 : (mergePrev pre.reverse A).2.offset = A.offset := by rw [e1]
      have o2 : (mergePrev pre.reverse A).2.size = A.size := by rw [e1]
      have o3 : BN.size = B.size := by rw [e2]
      refine ⟨o1, ?_⟩
      show (mergePrev pre.reverse A).2.size + (BN.size + sizeofAlloc) =
        A.size + B.size + sizeofAlloc
      rw [o2, o3]
      omega

/-- Witness for C6: the pool left by allocations of 100, 52 and 20 bytes on
a fresh pool; the first two blocks are freed in both orders. -/
theorem dealloc_adjacent_order_independent_witness :
    PartitionInvariant threeAllocPool ∧
    ∃ m1 m2 n1 n2,
      deallocateScratch threeAllocPool 4 = some (DeallocResult.done m1) ∧
      deallocateScratch m1 108 = some (DeallocResult.done m2) ∧
      deallocateScratch threeAllocPool 108 = some (DeallocResult.done n1) ∧
      deallocateScratch n1 4 = some (DeallocResult.done n2) ∧
      blocks m2 = blocks n2 ∧
      ∃ F ∈ blocks m2, F.free = true ∧ F.offset ≤ 0 ∧ 160 ≤ F.stop ∧
        ((∀ l, ([] : List Block).getLast? = some l → l.free = false) →
          (∀ n, ([{ offset := 160, size := 20, free := false },
              { offset := 184, size := 1048388, free := true }] : List Block).head? = some n →
            n.free = false) →
          F.offset = 0 ∧ F.size = 100 + 52 + sizeofAlloc) :=
  ⟨by decide,
   dealloc_adjacent_order_independent threeAllocPool []
    [{ offset := 160, size := 20, free := false },
     { offset := 184, size := 1048388, free := true }]
    { offset := 0, size := 100, free := false } { offset := 104, size := 52, free := false }
    (by decide) (by decide) rfl rfl⟩

theorem deallocLoop_general (mem : Pool) (ptr : Nat) (h31 : ∀ o, (mem o).size < 2 ^ 31) :
    ∀ (fuel pos : Nat) (pLast : Option Nat), 1 ≤ fuel →
      SCRATCH_POOL_SIZE + 4 ≤ pos + 4 * fuel →
      ((∀ b ∈ blocksFrom fuel mem pos, b.payload ≠ ptr) →
        deallocLoop fuel mem ptr pos pLast = some (DeallocResult.assertFailed mem)) ∧
      ((∃ b ∈ blocksFrom fuel mem pos, b.payload = ptr) →
        ∃ m, deallocLoop fuel mem ptr pos pLast = some (DeallocResult.done m)) := by
  intro fuel
  induction fuel with
  | zero => intro pos pLast h; omega
  | succ n ih =>
    intro pos pLast _ hfuel
    by_cases hlt : pos < SCRATCH_POOL_SIZE
    · have hsz := h31 pos
      have hpos : u32 (pos + u32 (sizeofAlloc + (mem pos).size)) =
          pos + sizeofAlloc + (mem pos).size := by
        simp only [sizeofAlloc_val, pool_size_val] at *
        have hin : u32 (4 + (mem pos).size) = 4 + (mem pos).size := u32_of_lt (by omega)
        rw [hin, u32_of_lt (by omega)]; omega
      have hn : 1 ≤ n := by omega
      have hih := ih (pos + sizeofAlloc + (mem pos).size) (some pos) hn
        (by simp only [sizeofAlloc_val]; omega)
      rw [blocksFrom, if_pos hlt, deallocLoop, if_pos hlt]
      simp only
      by_cases hp : pos + sizeofAlloc = ptr
      · rw [if_pos hp]
        constructor
        · intro hall
          exact absurd hp (hall _ (List.mem_cons_self _ _))
        · intro _
          exact ⟨_, rfl⟩
      · rw [if_neg hp, hpos]
        constructor
        · intro hall
          exact hih.1 (fun b hb => hall b (List.mem_cons_of_mem _ hb))
        · rintro ⟨b, hb, hbp⟩
          rcases List.mem_cons.mp hb with rfl | hb
          · exact absurd hbp hp
          · exact hih.2 ⟨b, hb, hbp⟩
    · rw [blocksFrom, if_neg hlt, deallocLoop, if_neg hlt]
      constructor
      · intro _; rfl
      · rintro ⟨b, hb, _⟩
        simp at hb

/-- C7: for an arena whose control blocks hold 31-bit sizes,
`deallocateScratch(p)` always ends; it reaches the assertion "Memory
deallocation error" if and only if `p` is not the payload address of any
block visited by the header walk from offset 0; and then the arena, so every
block's size and free flag, is what it was before the call. -/
theorem deallocateScratch_assert_iff (mem : Pool) (ptr : Nat)
    (h31 : ∀ o, (mem o).size < 2 ^ 31) :
    (∃ r, deallocateScratch mem ptr = some r) ∧
    ((∃ m, deallocateScratch mem ptr = some (DeallocResult.assertFailed m)) ↔
      ∀ b ∈ blocks mem, b.payload ≠ ptr) ∧
    (∀ m, deallocateScratch mem ptr = some (DeallocResult.assertFailed m) → m = mem) := by
  have hg := deallocLoop_general mem ptr h31 SCRATCH_POOL_SIZE 0 none (by decide) (by decide)
  have hcases : (∀ b ∈ blocks mem, b.payload ≠ ptr) ∨ ∃ b ∈ blocks mem, b.payload = ptr := by
    by_cases h : ∃ b ∈ blocks mem, b.payload = ptr
    · exact Or.inr h
    · left
      intro b hb hbp
      exact h ⟨b, hb, hbp⟩
  unfold deallocateScratch
  unfold blocks at hcases
  rcases hcases with hall | hex
  · have e := hg.1 hall
    rw [e]
    refine ⟨⟨_, rfl⟩, ⟨fun _ => hall, fun _ => ⟨mem, rfl⟩⟩, ?_⟩
    intro m hm
    have := Option.some.inj hm
    cases this
    rfl
  · obtain ⟨m0, e⟩ := hg.2 hex
    rw [e]
    refine ⟨⟨_, rfl⟩, ⟨?_, ?_⟩, ?_⟩
    · rintro ⟨m, hm⟩
      have := Option.some.inj hm
      cases this
    · intro hall
      obtain ⟨b, hb, hbp⟩ := hex
      exact absurd hbp (hall b hb)
    · intro m hm
      have := Option.some.inj hm
      cases this

/-- Witness for C7: the zeroed arena and the pointer 8. -/
theorem deallocateScratch_assert_iff_witness :
    (∃ r, deallocateScratch zeroPool 8 = some r) ∧
    ((∃ m, deallocateScratch zeroPool 8 = some (DeallocResult.assertFailed m)) ↔
      ∀ b ∈ blocks zeroPool, b.payload ≠ 8) ∧
    (∀ m, deallocateScratch zeroPool 8 = some (DeallocResult.assertFailed m) → m = zeroPool) :=
  deallocateScratch_assert_iff zeroPool 8 (fun _ => (by decide : (0 : Nat) < 2 ^ 31))

theorem allocSplit_head (size : Nat) (b : Block) :
    ∃ b1 rest, allocSplit size b = b1 :: rest ∧ b1.offset = b.offset ∧ b1.free = false := by
  unfold allocSplit
  split
  · exact ⟨_, _, rfl, rfl, rfl⟩
  · exact ⟨_, _, rfl, rfl, rfl⟩

/-- C8: first-fit reuse.  For all sizes `a`, `b`, `c` such that the blocks of
`a` and `b` with their headers fit in the arena, the block of `a` leaving
room for a second block, and such that `c` rounded is at most `a` rounded:
on a fresh pool `allocateScratch(a)` returns `P1 = sizeofAlloc`,
`allocateScratch(b)` returns `P2 = P1 + roundUp4 a + sizeofAlloc`, and after
`deallocateScratch(P1)` the call `allocateScratch(c)` returns `P1` again. -/
theorem first_fit_reuse (raw : Pool) (a b c : Nat)
    (hfit : roundUp4 a + sizeofAlloc + roundUp4 b + sizeofAlloc ≤ SCRATCH_POOL_SIZE)
    (hroom : roundUp4 a + 2 * sizeofAlloc < SCRATCH_POOL_SIZE)
    (hc : roundUp4 c ≤ roundUp4 a) :
    ∃ mem1 mem2 mem3 mem4,
      allocateScratch (construct raw) a = some (mem1, some sizeofAlloc) ∧
      allocateScratch mem1 b = some (mem2, some (sizeofAlloc + roundUp4 a + sizeofAlloc)) ∧
      deallocateScratch mem2 sizeofAlloc = some (DeallocResult.done mem3) ∧
      allocateScratch mem3 c = some (mem4, some sizeofAlloc) := by
  have ha := roundUp4_ge a
  have hb := roundUp4_ge b
  have hcc := roundUp4_ge c
  have ra : roundSize a = roundUp4 a :=
    roundSize_eq_roundUp4 (by simp only [pool_size_val, sizeofAlloc_val] at *; omega)
  have rb : roundSize b = roundUp4 b :=
    roundSize_eq_roundUp4 (by simp only [pool_size_val, sizeofAlloc_val] at *; omega)
  have rc : roundSize c = roundUp4 c :=
    roundSize_eq_roundUp4 (by simp only [pool_size_val, sizeofAlloc_val] at *; omega)
  -- allocate(a)
  have hseg0 : Seg (construct raw) 0 ([] ++
      { offset := 0, size := SCRATCH_POOL_SIZE - sizeofAlloc, free := true } :: [])
      SCRATCH_POOL_SIZE := seg_construct raw
  obtain ⟨mem1, e1, e2⟩ := @allocateScratch_hit _ a _ _ _ hseg0 (by simp)
    ⟨rfl, by rw [ra]; simp only [pool_size_val, sizeofAlloc_val] at *; omega⟩
  have hsplit : SCRATCH_POOL_SIZE - sizeofAlloc > roundUp4 a + sizeofAlloc := by
    simp only [pool_size_val, sizeofAlloc_val] at *; omega
  rw [ra] at e2
  simp only [allocSplit, if_pos hsplit, List.nil_append, List.append_nil] at e2
  -- allocate(b)
  have e3 : Seg mem1 0 ([{ offset := 0, size := roundUp4 a, free := false }] ++
      ({ offset := 0 + sizeofAlloc + roundUp4 a,
         size := SCRATCH_POOL_SIZE - sizeofAlloc - roundUp4 a - sizeofAlloc,
         free := true } : Block) :: []) SCRATCH_POOL_SIZE := e2
  obtain ⟨mem2, g1, g2⟩ := @allocateScratch_hit _ b _ _ _ e3
    (by
      intro x hx hf
      simp only [List.mem_singleton] at hx
      rw [hx] at hf
      exact absurd hf.1 (by simp))
    ⟨rfl, by rw [rb]; simp only [pool_size_val, sizeofAlloc_val] at *; omega⟩
  obtain ⟨b1, rest, hsp, ho, hf⟩ := allocSplit_head (roundSize b)
    { offset := 0 + sizeofAlloc + roundUp4 a,
      size := SCRATCH_POOL_SIZE - sizeofAlloc - roundUp4 a - sizeofAlloc, free := true }
  rw [hsp] at g2
  -- deallocate(P1)
  have g3 : Seg mem2 0 ([] ++ ({ offset := 0, size := roundUp4 a, free := false } : Block) ::
      (b1 :: rest)) SCRATCH_POOL_SIZE := by
    simpa using g2
  obtain ⟨mem3, d1, d2⟩ := deallocateScratch_hit g3
  simp only [List.reverse_nil, deallocMerge, mergeNext, hf, Bool.false_eq_true, if_false] at d2
  -- allocate(c)
  have d3 : Seg mem3 0 ([] ++ ({ offset := 0, size := roundUp4 a, free := true } : Block) ::
      (b1 :: rest)) SCRATCH_POOL_SIZE := d2
  obtain ⟨mem4, k1, _⟩ := @allocateScratch_hit _ c _ _ _ d3 (by simp)
    ⟨rfl, by rw [rc]; exact hc⟩
  refine ⟨mem1, mem2, mem3, mem4, ?_, ?_, ?_, ?_⟩
  · simpa using e1
  · simpa using g1
  · simpa using d1
  · simpa using k1

/-- Witness for C8: `a = 100`, `b = 50`, `c = 90` on a fresh pool over a
zeroed arena; the pointers are `P1 = 4` and `P2 = 108`. -/
theorem first_fit_reuse_witness :
    sizeofAlloc + roundUp4 100 + sizeofAlloc = 108 ∧
    ∃ mem1 mem2 mem3 mem4,
      allocateScratch (construct zeroPool) 100 = some (mem1, some sizeofAlloc) ∧
      allocateScratch mem1 50 = some (mem2, some (sizeofAlloc + roundUp4 100 + sizeofAlloc)) ∧
      deallocateScratch mem2 sizeofAlloc = some (DeallocResult.done mem3) ∧
      allocateScratch mem3 90 = some (mem4, some sizeofAlloc) :=
  ⟨by decide, first_fit_reuse zeroPool 100 50 90 (by decide) (by decide) (by decide)⟩

/-! ## Framebuffer object: properties of the specification -/

theorem bindAttachments_none_iff (self : GLFrameBufferObject) (width height glformat : Nat) :
    ∀ (k x : Nat) (dev : GLDevice),
      (bindAttachments self width height glformat k x dev).1 = none ↔
        ∀ i, x ≤ i → i < x + k → SlotMatches self width height glformat i := by
  intro k
  induction k with
  | zero =>
    intro x dev
    simp only [bindAttachments, true_iff]
    intro i h1 h2
    omega
  | succ k ih =>
    intro x dev
    unfold bindAttachments
    cases hbuf : (self.mColor x).buffer with
    | none =>
      simp only
      rw [ih]
      constructor
      · intro h i h1 h2
        by_cases hi : i = x
        · subst hi
          intro b hb
          rw [hbuf] at hb
          cases hb
        · exact h i (by omega) (by omega)
      · intro h i h1 h2
        exact h i (by omega) (by omega)
    | some buffer =>
      simp only
      by_cases hsize : buffer.width ≠ width ∨ buffer.height ≠ height
      · rw [if_pos hsize]
        simp only [false_iff, reduceCtorEq]
        intro h
        have := h x (le_refl _) (by omega) buffer hbuf
        rcases hsize with h1 | h1
        · exact h1 this.1
        · exact h1 this.2.1
      · rw [if_neg hsize]
        by_cases hfmt : buffer.glFormat ≠ glformat
        · rw [if_pos hfmt]
          simp only [false_iff, reduceCtorEq]
          intro h
          exact hfmt (h x (le_refl _) (by omega) buffer hbuf).2.2
        · rw [if_neg hfmt, ih]
          constructor
          · intro h i h1 h2
            by_cases hi : i = x
            · subst hi
              intro b hb
              rw [hbuf] at hb
              cases hb
              refine ⟨?_, ?_, ?_⟩
              · by_contra hc; exact hsize (Or.inl hc)
              · by_contra hc; exact hsize (Or.inr hc)
              · by_contra hc; exact hfmt hc
            · exact h i (by omega) (by omega)
          · intro h i h1 h2
            exact h i (by omega) (by omega)

theorem finalize_self (M : Nat) (driver : GLDriver) (self : GLFrameBufferObject)
    (dev : GLDevice) : (finalize M driver self dev).self = self := by
  unfold finalize
  split
  · rfl
  · simp only
    split
    · rfl
    · split
      · rfl
      · split <;> rfl

theorem finalize_outcome_of_validated (M : Nat) (driver : GLDriver)
    (self : GLFrameBufferObject) (dev : GLDevice) (b0 : GLPixelBuffer)
    (h0 : (self.mColor 0).buffer = some b0)
    (hall : ∀ x, x < u16 driver.numMultiRenderTargets →
      SlotMatches self b0.width b0.height b0.glFormat x) :
    (finalize M driver self dev).outcome =
      if driver.framebufferStatus = GL_FRAMEBUFFER_COMPLETE_EXT then Outcome.returned
      else if driver.framebufferStatus = GL_FRAMEBUFFER_UNSUPPORTED_EXT then
        Outcome.invalidParameters InitError.unsupported
      else Outcome.invalidParameters InitError.incomplete := by
  have hloop := (bindAttachments_none_iff self b0.width b0.height b0.glFormat
    (u16 driver.numMultiRenderTargets) 0
    (dev.glBindFramebufferEXT GL_FRAMEBUFFER_EXT self.mFB)).mpr
    (fun i _ hi => hall i (by omega))
  unfold finalize
  rw [h0]
  simp only
  split
  · rename_i err dev2 heq
    rw [heq] at hloop
    cases hloop
  · split
    · rfl
    · split <;> rfl

theorem finalize_outcome_of_mismatch (M : Nat) (driver : GLDriver)
    (self : GLFrameBufferObject) (dev : GLDevice) (b0 : GLPixelBuffer)
    (h0 : (self.mColor 0).buffer = some b0)
    (hsome : ¬ ∀ x, x < u16 driver.numMultiRenderTargets →
      SlotMatches self b0.width b0.height b0.glFormat x) :
    ∃ e, (finalize M driver self dev).outcome = Outcome.invalidParameters e := by
  have hloop : (bindAttachments self b0.width b0.height b0.glFormat
      (u16 driver.numMultiRenderTargets) 0
      (dev.glBindFramebufferEXT GL_FRAMEBUFFER_EXT self.mFB)).1 ≠ none := by
    intro h
    apply hsome
    intro x hx
    exact (bindAttachments_none_iff _ _ _ _ _ _ _).mp h x (Nat.zero_le _) (by omega)
  unfold finalize
  rw [h0]
  simp only
  split
  · exact ⟨_, rfl⟩
  · rename_i dev2 heq
    rw [heq] at hloop
    exact absurd rfl hloop

/-- C9: `initialize()` returns normally if and only if slot 0 holds a buffer,
every populated slot examined by the validation loop (index below the
device's limit) has the width, height and GL format of slot 0, and the device
reports `GL_FRAMEBUFFER_COMPLETE_EXT`; in every other case it raises an
`InvalidParametersException`, in particular when slot 0 is empty and, the
validation passed, when the status is `GL_FRAMEBUFFER_UNSUPPORTED_EXT` or
another value. -/
theorem finalize_succeeds_iff (M : Nat) (driver : GLDriver) (self : GLFrameBufferObject)
    (dev : GLDevice) :
    ((finalize M driver self dev).outcome = Outcome.returned ↔
      ∃ b0, (self.mColor 0).buffer = some b0 ∧
        (∀ x, x < u16 driver.numMultiRenderTargets →
          SlotMatches self b0.width b0.height b0.glFormat x) ∧
        driver.framebufferStatus = GL_FRAMEBUFFER_COMPLETE_EXT) ∧
    ((finalize M driver self dev).outcome ≠ Outcome.returned →
      ∃ e, (finalize M driver self dev).outcome = Outcome.invalidParameters e) ∧
    ((self.mColor 0).buffer = none →
      (finalize M driver self dev).outcome =
        Outcome.invalidParameters InitError.attachment0Missing) ∧
    (driver.framebufferStatus ≠ GL_FRAMEBUFFER_COMPLETE_EXT →
      ∃ e, (finalize M driver self dev).outcome = Outcome.invalidParameters e) ∧
    (∀ b0, (self.mColor 0).buffer = some b0 →
      (∀ x, x < u16 driver.numMultiRenderTargets →
        SlotMatches self b0.width b0.height b0.glFormat x) →
      (driver.framebufferStatus = GL_FRAMEBUFFER_UNSUPPORTED_EXT →
        (finalize M driver self dev).outcome =
          Outcome.invalidParameters InitError.unsupported) ∧
      (driver.framebufferStatus ≠ GL_FRAMEBUFFER_COMPLETE_EXT →
        driver.framebufferStatus ≠ GL_FRAMEBUFFER_UNSUPPORTED_EXT →
        (finalize M driver self dev).outcome =
          Outcome.invalidParameters InitError.incomplete)) := by
  have hempty : (self.mColor 0).buffer = none →
      (finalize M driver self dev).outcome =
        Outcome.invalidParameters InitError.attachment0Missing := by
    intro h
    unfold finalize
    rw [h]
  have hiff : (finalize M driver self dev).outcome = Outcome.returned ↔
      ∃ b0, (self.mColor 0).buffer = some b0 ∧
        (∀ x, x < u16 driver.numMultiRenderTargets →
          SlotMatches self b0.width b0.height b0.glFormat x) ∧
        driver.framebufferStatus = GL_FRAMEBUFFER_COMPLETE_EXT := by
    constructor
    · intro hret
      cases h0 : (self.mColor 0).buffer with
      | none =>
        rw [hempty h0] at hret
        cases hret
      | some b0 =>
        refine ⟨b0, rfl, ?_⟩
        by_cases hall : ∀ x, x < u16 driver.numMultiRenderTargets →
            SlotMatches self b0.width b0.height b0.glFormat x
        · refine ⟨hall, ?_⟩
          rw [finalize_outcome_of_validated M driver self dev b0 h0 hall] at hret
          by_contra hst
          rw [if_neg hst] at hret
          split at hret <;> cases hret
        · obtain ⟨e, he⟩ := finalize_outcome_of_mismatch M driver self dev b0 h0 hall
          rw [he] at hret
          cases hret
    · rintro ⟨b0, h0, hall, hst⟩
      rw [finalize_outcome_of_validated M driver self dev b0 h0 hall, if_pos hst]
  have hfail : (finalize M driver self dev).outcome ≠ Outcome.returned →
      ∃ e, (finalize M driver self dev).outcome = Outcome.invalidParameters e := by
    intro h
    cases hout : (finalize M driver self dev).outcome with
    | returned => exact absurd hout h
    | invalidParameters e => exact ⟨e, rfl⟩
  refine ⟨hiff, hfail, hempty, ?_, ?_⟩
  · intro hst
    apply hfail
    intro hret
    obtain ⟨_, _, _, hc⟩ := hiff.mp hret
    exact hst hc
  · intro b0 h0 hall
    have hout := finalize_outcome_of_validated M driver self dev b0 h0 hall
    constructor
    · intro hst
      have hne : driver.framebufferStatus ≠ GL_FRAMEBUFFER_COMPLETE_EXT := by
        rw [hst]; decide
      rw [hout, if_neg hne, if_pos hst]
    · intro h1 h2
      rw [hout, if_neg h1, if_neg h2]

/-- Counterexample to C10 as stated: slot 0 holds a 256 x 256 buffer and
slot 1 a 128 x 128 buffer, the device supports one color attachment and
reports a complete framebuffer; `initialize()` returns normally, because the
validation loop stops at the device's limit. -/
theorem finalize_mismatch_beyond_limit :
    (mismatchedTable.mColor 0).buffer = some buffer256 ∧
    (mismatchedTable.mColor 1).buffer = some buffer128 ∧
    buffer128.width ≠ buffer256.width ∧ buffer128.height ≠ buffer256.height ∧
    (finalize 8 oneTargetDriver
      mismatchedTable idleDevice).outcome = Outcome.returned := by
  decide

/-- C10, as the code has it: when slot 0 is populated and some populated slot
with an index below the device's attachment limit has a width or height
different from slot 0's, `initialize()` raises an
`InvalidParametersException`, and the recorded bindings (every color slot and
the depth/stencil slot) are the same after the failure as before the call. -/
theorem finalize_size_mismatch_fails (M : Nat) (driver : GLDriver)
    (self : GLFrameBufferObject) (dev : GLDevice) (b0 b : GLPixelBuffer) (x : Nat)
    (h0 : (self.mColor 0).buffer = some b0)
    (hx : x < u16 driver.numMultiRenderTargets)
    (hb : (self.mColor x).buffer = some b)
    (hne : b.width ≠ b0.width ∨ b.height ≠ b0.height) :
    (∃ e, (finalize M driver self dev).outcome = Outcome.invalidParameters e) ∧
    (finalize M driver self dev).self.mColor = self.mColor ∧
    (finalize M driver self dev).self.mDepthStencilBuffer = self.mDepthStencilBuffer := by
  refine ⟨?_, by rw [finalize_self], by rw [finalize_self]⟩
  apply finalize_outcome_of_mismatch M driver self dev b0 h0
  intro hall
  have := hall x hx b hb
  rcases hne with h | h
  · exact h this.1
  · exact h this.2.1

/-- Witness for C10: slot 0 is 256 x 256, slot 1 is 128 x 128, and the device
supports two color attachments. -/
theorem finalize_size_mismatch_fails_witness :
    (∃ e, (finalize 8 twoTargetDriver
        mismatchedTable idleDevice).outcome = Outcome.invalidParameters e) ∧
    (finalize 8 twoTargetDriver
        mismatchedTable idleDevice).self.mColor = mismatchedTable.mColor ∧
    (finalize 8 twoTargetDriver
        mismatchedTable idleDevice).self.mDepthStencilBuffer =
      mismatchedTable.mDepthStencilBuffer :=
  finalize_size_mismatch_fails 8 twoTargetDriver
    mismatchedTable idleDevice buffer256 buffer128 1 rfl (by decide) rfl (by decide)


/-- Witness for C9: with the 256 x 256 buffer in slot 0 and a device that
examines one slot and reports a complete framebuffer, `initialize()` returns
normally. -/
theorem finalize_succeeds_iff_witness :
    (finalize 8 oneTargetDriver mismatchedTable idleDevice).outcome = Outcome.returned :=
  (finalize_succeeds_iff 8 oneTargetDriver mismatchedTable idleDevice).1.mpr
    ⟨buffer256, rfl,
      fun x hx b hb => by
        have hx0 : x = 0 := by
          have : x < 1 := hx
          omega
        subst hx0
        cases hb
        decide,
      rfl⟩


theorem bindAttachments_bound (self : GLFrameBufferObject) (width height glformat : Nat) :
    ∀ (k x : Nat) (dev : GLDevice),
      (bindAttachments self width height glformat k x dev).2.boundFramebuffer =
        dev.boundFramebuffer := by
  intro k
  induction k with
  | zero => intro x dev; rfl
  | succ k ih =>
    intro x dev
    unfold bindAttachments
    split
    · split
      · rfl
      · split
        · rfl
        · rw [ih]; rfl
    · rw [ih]; rfl

theorem finalize_of_loop_none (M : Nat) (driver : GLDriver) (self : GLFrameBufferObject)
    (dev dev2 : GLDevice) (b0 : GLPixelBuffer) (h0 : (self.mColor 0).buffer = some b0)
    (hloop : bindAttachments self b0.width b0.height b0.glFormat
      (u16 driver.numMultiRenderTargets) 0
      (dev.glBindFramebufferEXT GL_FRAMEBUFFER_EXT self.mFB) = (none, dev2)) :
    (finalize M driver self dev).device = finishDevice M driver self dev2 := by
  unfold finalize
  rw [h0]
  simp only
  rw [hloop]
  simp only [finishDevice]
  split
  · rfl
  · split <;> rfl

theorem finalize_of_loop_some (M : Nat) (driver : GLDriver) (self : GLFrameBufferObject)
    (dev dev2 : GLDevice) (b0 : GLPixelBuffer) (err : InitError)
    (h0 : (self.mColor 0).buffer = some b0)
    (hloop : bindAttachments self b0.width b0.height b0.glFormat
      (u16 driver.numMultiRenderTargets) 0
      (dev.glBindFramebufferEXT GL_FRAMEBUFFER_EXT self.mFB) = (some err, dev2)) :
    finalize M driver self dev =
      { outcome := Outcome.invalidParameters err, self := self, device := dev2 } := by
  unfold finalize
  rw [h0]
  simp only
  rw [hloop]

theorem finalize_bound_after (M : Nat) (driver : GLDriver) (self : GLFrameBufferObject)
    (dev : GLDevice) :
    ((self.mColor 0).buffer = none → (finalize M driver self dev).device = dev) ∧
    (∀ b0, (self.mColor 0).buffer = some b0 →
      ((∀ x, x < u16 driver.numMultiRenderTargets →
          SlotMatches self b0.width b0.height b0.glFormat x) →
        (finalize M driver self dev).device.boundFramebuffer = 0) ∧
      ((¬ ∀ x, x < u16 driver.numMultiRenderTargets →
          SlotMatches self b0.width b0.height b0.glFormat x) →
        (finalize M driver self dev).device.boundFramebuffer = self.mFB)) := by
  constructor
  · intro h
    unfold finalize
    rw [h]
  · intro b0 h0
    have hb := bindAttachments_bound self b0.width b0.height b0.glFormat
      (u16 driver.numMultiRenderTargets) 0
      (dev.glBindFramebufferEXT GL_FRAMEBUFFER_EXT self.mFB)
    have hiff := bindAttachments_none_iff self b0.width b0.height b0.glFormat
      (u16 driver.numMultiRenderTargets) 0
      (dev.glBindFramebufferEXT GL_FRAMEBUFFER_EXT self.mFB)
    cases hl : bindAttachments self b0.width b0.height b0.glFormat
      (u16 driver.numMultiRenderTargets) 0
      (dev.glBindFramebufferEXT GL_FRAMEBUFFER_EXT self.mFB) with
    | mk r dev2 =>
      rw [hl] at hb hiff
      cases r with
      | none =>
        constructor
        · intro _
          rw [finalize_of_loop_none M driver self dev dev2 b0 h0 hl]
          rfl
        · intro hno
          exact absurd (fun x hx => hiff.mp rfl x (Nat.zero_le _) (by omega)) hno
      | some err =>
        constructor
        · intro hall
          have := hiff.mpr (fun i _ hi => hall i (by omega))
          cases this
        · intro _
          rw [finalize_of_loop_some M driver self dev dev2 b0 err h0 hl]
          exact hb

/-- Counterexample to C11 as stated: slot 0 holds a 256 x 256 buffer, slot 3
(below `BS_MAX_MULTIPLE_RENDER_TARGETS = 8`) a 128 x 128 buffer, and the
device supports two color attachments; `initialize()` returns normally
although slot 3 does not have slot 0's size. -/
theorem finalize_success_unchecked_slot :
    (finalize 8 twoTargetDriver sparseTable idleDevice).outcome = Outcome.returned ∧
    3 < 8 ∧
    ((finalize 8 twoTargetDriver sparseTable idleDevice).self.mColor 3).buffer =
      some buffer128 ∧
    ((finalize 8 twoTargetDriver sparseTable idleDevice).self.mColor 0).buffer =
      some buffer256 ∧
    buffer128.width ≠ buffer256.width ∧ buffer128.height ≠ buffer256.height := by
  decide

/-- C11, as the code has it: whenever `initialize()` returns normally, slot 0
is populated and every non-empty color slot at an index below the device's
attachment limit has exactly slot 0's width, height and GL pixel format. -/
theorem finalize_success_slots_match (M : Nat) (driver : GLDriver)
    (self : GLFrameBufferObject) (dev : GLDevice)
    (hret : (finalize M driver self dev).outcome = Outcome.returned) :
    ∃ b0, ((finalize M driver self dev).self.mColor 0).buffer = some b0 ∧
      ∀ x, x < u16 driver.numMultiRenderTargets →
        ∀ b, ((finalize M driver self dev).self.mColor x).buffer = some b →
          b.width = b0.width ∧ b.height = b0.height ∧ b.glFormat = b0.glFormat := by
  rw [finalize_self]
  cases h0 : (self.mColor 0).buffer with
  | none =>
    have : (finalize M driver self dev).outcome =
        Outcome.invalidParameters InitError.attachment0Missing := by
      unfold finalize
      rw [h0]
    rw [this] at hret
    cases hret
  | some b0 =>
    refine ⟨b0, rfl, ?_⟩
    by_contra hno
    have hno2 : ¬ ∀ x, x < u16 driver.numMultiRenderTargets →
        SlotMatches self b0.width b0.height b0.glFormat x := hno
    obtain ⟨e, he⟩ := finalize_outcome_of_mismatch M driver self dev b0 h0 hno2
    rw [he] at hret
    cases hret

/-- Witness for C11: the 256 x 256 buffer in slot 0 on a device that examines
one slot and reports a complete framebuffer. -/
theorem finalize_success_slots_match_witness :
    ∃ b0, ((finalize 8 oneTargetDriver mismatchedTable idleDevice).self.mColor 0).buffer =
        some b0 ∧
      ∀ x, x < u16 oneTargetDriver.numMultiRenderTargets →
        ∀ b, ((finalize 8 oneTargetDriver mismatchedTable idleDevice).self.mColor x).buffer =
            some b →
          b.width = b0.width ∧ b.height = b0.height ∧ b.glFormat = b0.glFormat :=
  finalize_success_slots_match 8 oneTargetDriver mismatchedTable idleDevice (by decide)

/-- C12, at the failing input: slot 0 is 256 x 256 and slot 1 is 128 x 128 on
a device with two color attachments and nothing bound; `initialize()` raises
the size-mismatch exception from inside the attachment loop, and on that exit
the device's framebuffer binding is the object's own framebuffer `mFB = 1`,
not 0. -/
theorem finalize_mismatch_leaves_bound :
    idleDevice.boundFramebuffer = 0 ∧ mismatchedTable.mFB = 1 ∧
    (finalize 8 twoTargetDriver mismatchedTable idleDevice).outcome =
      Outcome.invalidParameters (InitError.incompatibleSize 1 128 128 256 256) ∧
    (finalize 8 twoTargetDriver mismatchedTable idleDevice).device.boundFramebuffer = 1 := by
  decide

theorem toGLsizei_of_lt {r : Nat} (h : r < 2147483648) : toGLsizei r = (r : Int) := by
  unfold toGLsizei
  have h1 : r % 2 ^ 32 = r := Nat.mod_eq_of_lt (by norm_num; omega)
  rw [h1, if_pos (by norm_num; exact h)]

theorem newGLFrameBufferObject_samples (M : Nat) (ctx : GLContext)
    (slots : Nat → GLSurfaceDesc) (r : Nat) (dev : GLDevice) (hr : r < 2147483648) :
    (ctx.GLEW_EXT_framebuffer_blit = true ∧ ctx.GLEW_EXT_framebuffer_multisample = true →
      (newGLFrameBufferObject M ctx slots r dev).1.mNumSamples = min (r : Int) ctx.maxSamples) ∧
    (¬ (ctx.GLEW_EXT_framebuffer_blit = true ∧ ctx.GLEW_EXT_framebuffer_multisample = true) →
      (newGLFrameBufferObject M ctx slots r dev).1.mNumSamples = 0) := by
  constructor
  · intro h
    simp only [newGLFrameBufferObject, if_pos h, toGLsizei_of_lt hr, stdMin]
    split
    · rename_i hlt
      exact (min_eq_right (le_of_lt hlt)).symm
    · rename_i hge
      exact (min_eq_left (not_lt.mp hge)).symm
  · intro h
    simp only [newGLFrameBufferObject, if_neg h]

/-- C14, at the failing input: for the requested multisample count
4294967295, a valid `UINT32`, on a device with multisample and blit support
and a maximum of 4 samples, the stored sample count is -1 and not
`min(4294967295, 4) = 4`: the request is converted to the `GLsizei` member
before the minimum is taken. -/
theorem newGLFrameBufferObject_samples_wrap :
    (4294967295 : Nat) < 2 ^ 32 ∧
    sampleContext.GLEW_EXT_framebuffer_blit = true ∧
    sampleContext.GLEW_EXT_framebuffer_multisample = true ∧
    sampleContext.maxSamples = 4 ∧
    (newGLFrameBufferObject 8 sampleContext emptyTable.mColor 4294967295
      idleDevice).1.mNumSamples = -1 ∧
    min (4294967295 : Int) sampleContext.maxSamples = 4 := by
  decide

/-- C15, at the failing input: for the 32-bit size 4294967293 the least
multiple of 4 that is at least the size is 4294967296, but the size that
`allocateScratch` uses for the scan and gives to the allocated block is 0. -/
theorem roundSize_wraps :
    (4294967293 : Nat) < 2 ^ 32 ∧
    roundUp4 4294967293 = 4294967296 ∧
    roundSize 4294967293 = 0 ∧
    (allocateScratch (construct zeroPool) 4294967293).map (fun r => (blocks r.1, r.2)) =
      some ([{ offset := 0, size := 0, free := false },
             { offset := 4, size := 1048568, free := true }], some 4) := by
  decide

theorem roundSize_mod4 (size : Nat) : roundSize size % 4 = 0 := by
  unfold roundSize u32
  split
  · have : (2 : Nat) ^ 32 = 4294967296 := by norm_num
    rw [this]
    omega
  · omega

/-- C16: the split rule.  When `allocateScratch` selects the block `b` (free,
of size `S` at least the rounded size `r`, first such block of a pool that
satisfies the partition invariant), it returns `b`'s payload address; if
`S > r + sizeofAlloc` the block is replaced by an allocated block of size
exactly `r` followed immediately by a new free block of size
`S - r - sizeofAlloc`, which is not zero; otherwise the block keeps its
offset and size `S` and only its free flag is cleared, and then, for sizes
that are multiples of 4, `S` is `r` or `r + sizeofAlloc`.  All other blocks
are as before. -/
theorem allocateScratch_split_rule (mem : Pool) (size : Nat) (pre post : List Block)
    (b : Block) (hinv : PartitionInvariant mem) (hbl : blocks mem = pre ++ b :: post)
    (hpre : ∀ x ∈ pre, ¬ x.fits (roundSize size)) (hb : b.fits (roundSize size)) :
    ∃ mem1, allocateScratch mem size = some (mem1, some b.payload) ∧
      (b.size > roundSize size + sizeofAlloc →
        blocks mem1 = pre ++
          [{ offset := b.offset, size := roundSize size, free := false },
           { offset := b.offset + sizeofAlloc + roundSize size,
             size := b.size - roundSize size - sizeofAlloc, free := true }] ++ post ∧
        0 < b.size - roundSize size - sizeofAlloc) ∧
      (¬ b.size > roundSize size + sizeofAlloc →
        blocks mem1 = pre ++ { offset := b.offset, size := b.size, free := false } :: post ∧
        (b.size % 4 = 0 →
          b.size = roundSize size ∨ b.size = roundSize size + sizeofAlloc)) := by
  have hseg := (invariant_iff_seg mem).mp hinv
  rw [hbl] at hseg
  obtain ⟨mem1, e1, e2⟩ := allocateScratch_hit hseg hpre hb
  refine ⟨mem1, e1, ?_, ?_⟩
  · intro hsplit
    rw [blocks_of_seg e2]
    simp only [allocSplit, if_pos hsplit]
    exact ⟨by simp, by omega⟩
  · intro hsplit
    rw [blocks_of_seg e2]
    simp only [allocSplit, if_neg hsplit]
    refine ⟨by simp, ?_⟩
    intro hmod
    have hr := roundSize_mod4 size
    have hge := hb.2
    simp only [sizeofAlloc_val] at *
    omega

/-- Witness for C16: a request of 100 bytes on a fresh pool over a zeroed
arena, whose single block is split. -/
theorem allocateScratch_split_rule_witness :
    ∃ mem1, allocateScratch (construct zeroPool) 100 =
        some (mem1, some ({ offset := 0, size := 1048572, free := true } : Block).payload) ∧
      ((1048572 : Nat) > roundSize 100 + sizeofAlloc →
        blocks mem1 = [] ++
          [{ offset := 0, size := roundSize 100, free := false },
           { offset := 0 + sizeofAlloc + roundSize 100,
             size := 1048572 - roundSize 100 - sizeofAlloc, free := true }] ++ [] ∧
        0 < 1048572 - roundSize 100 - sizeofAlloc) ∧
      (¬ (1048572 : Nat) > roundSize 100 + sizeofAlloc →
        blocks mem1 = [] ++ { offset := 0, size := 1048572, free := false } :: [] ∧
        (1048572 % 4 = 0 →
          1048572 = roundSize 100 ∨ 1048572 = roundSize 100 + sizeofAlloc)) :=
  allocateScratch_split_rule (construct zeroPool) 100 [] []
    { offset := 0, size := 1048572, free := true } (by decide) (by decide)
    (by decide) (by decide)

/-- C17: the postcondition of `deallocateScratch`.  For a pool satisfying the
partition invariant and the payload address of a block `B` that follows the
blocks `pre` and precedes the blocks `post`, the call returns, and: when
neither neighbour is free only `B`'s free flag changes; when the predecessor
`L` is free, `L` and `B` become one free block at `L`'s offset of size
`L.size + sizeofAlloc + B.size`; when the block after that result, the
successor `N`, is free it is absorbed too, adding `sizeofAlloc + N.size`. In
every case the region of `B` lies in a free block. -/
theorem deallocateScratch_postcondition (mem : Pool) (pre post : List Block) (B : Block)
    (hinv : PartitionInvariant mem) (hbl : blocks mem = pre ++ B :: post) :
    ∃ mem1, deallocateScratch mem B.payload = some (DeallocResult.done mem1) ∧
      (∃ F ∈ blocks mem1, F.free = true ∧ F.offset ≤ B.offset ∧ B.stop ≤ F.stop) ∧
      ((∀ l, pre.getLast? = some l → l.free = false) →
        (∀ n, post.head? = some n → n.free = false) →
        blocks mem1 = pre ++ { offset := B.offset, size := B.size, free := true } :: post) ∧
      (∀ pre0 L, pre = pre0 ++ [L] → L.free = true →
        (∀ n, post.head? = some n → n.free = false) →
        blocks mem1 = pre0 ++
          { offset := L.offset, size := L.size + sizeofAlloc + B.size, free := true } :: post) ∧
      (∀ N post0, post = N :: post0 → N.free = true →
        (∀ l, pre.getLast? = some l → l.free = false) →
        blocks mem1 = pre ++
          { offset := B.offset, size := B.size + sizeofAlloc + N.size, free := true } :: post0) ∧
      (∀ pre0 L N post0, pre = pre0 ++ [L] → post = N :: post0 → L.free = true →
        N.free = true →
        blocks mem1 = pre0 ++
          { offset := L.offset,
            size := L.size + sizeofAlloc + B.size + sizeofAlloc + N.size, free := true } ::
          post0) := by
  have hseg := (invariant_iff_seg mem).mp hinv
  rw [hbl] at hseg
  obtain ⟨mB, hpre, hrest⟩ := seg_append.mp hseg
  have hmB : B.offset = mB := hrest.1
  subst hmB
  obtain ⟨p1, p2, p3, p4⟩ := mergePrev_form (A := B) hpre
  obtain ⟨mem1, e1, e2⟩ := deallocateScratch_hit hseg
  rw [deallocMerge_eq] at e2
  obtain ⟨c1, post1, f1, f2, f3, f4, _, f6⟩ := mergeNext_form (mergePrev pre.reverse B).2 post
  have hblocks := blocks_of_seg e2
  refine ⟨mem1, e1, ?_, ?_, ?_, ?_, ?_⟩
  · rw [hblocks, f1]
    refine ⟨c1, by simp, by rw [f3]; exact p1, by rw [f2]; exact p2, ?_⟩
    simp only [Block.stop]
    rw [f2]
    omega
  · intro hl hn
    rw [hblocks, p4 hl]
    cases post with
    | nil => rfl
    | cons n r =>
      have := hn n rfl
      simp only [mergeNext, this, Bool.false_eq_true, if_false]
  · intro pre0 L hp hL hn
    subst hp
    rw [hblocks]
    simp only [List.reverse_append, List.reverse_cons, List.reverse_nil, List.nil_append,
      List.singleton_append, mergePrev, if_pos hL, List.reverse_reverse]
    have hsz : L.size + (B.size + sizeofAlloc) = L.size + sizeofAlloc + B.size := by omega
    rw [hsz]
    cases post with
    | nil => rfl
    | cons n r =>
      have := hn n rfl
      simp only [mergeNext, this, Bool.false_eq_true, if_false]
  · intro N post0 hp hN hl
    subst hp
    rw [hblocks, p4 hl]
    simp only [mergeNext, if_pos hN]
    have hsz : B.size + (N.size + sizeofAlloc) = B.size + sizeofAlloc + N.size := by omega
    rw [hsz]
  · intro pre0 L N post0 hp hq hL hN
    subst hp
    subst hq
    rw [hblocks]
    simp only [List.reverse_append, List.reverse_cons, List.reverse_nil, List.nil_append,
      List.singleton_append, mergePrev, if_pos hL, List.reverse_reverse, mergeNext, if_pos hN]
    have hsz : L.size + (B.size + sizeofAlloc) + (N.size + sizeofAlloc) =
        L.size + sizeofAlloc + B.size + sizeofAlloc + N.size := by omega
    rw [hsz]

/-- Witness for C17: in the pool left by allocations of 100, 52 and 20
bytes, the second block is freed. -/
theorem deallocateScratch_postcondition_witness :
    ∃ mem1, deallocateScratch threeAllocPool
        ({ offset := 104, size := 52, free := false } : Block).payload =
        some (DeallocResult.done mem1) ∧
      blocks mem1 = [{ offset := 0, size := 100, free := false }] ++
        { offset := 104, size := 52, free := true } ::
        [{ offset := 160, size := 20, free := false },
         { offset := 184, size := 1048388, free := true }] :=
  let ⟨mem1, h1, _, h3, _⟩ := deallocateScratch_postcondition threeAllocPool
    [{ offset := 0, size := 100, free := false }]
    [{ offset := 160, size := 20, free := false },
     { offset := 184, size := 1048388, free := true }]
    { offset := 104, size := 52, free := false } (by decide) (by decide)
  ⟨mem1, h1, h3 (by decide) (by decide)⟩

theorem fillDrawBuffers_fst (self : GLFrameBufferObject) : ∀ (k x : Nat) (bufs : List Nat)
    (n : Nat), (fillDrawBuffers self k x bufs n).1 =
      bufs ++ (List.range' x k).map (slotMarker self) := by
  intro k
  induction k with
  | zero => intro x bufs n; simp [fillDrawBuffers]
  | succ k ih =>
    intro x bufs n
    unfold fillDrawBuffers
    cases hb : (self.mColor x).buffer with
    | none =>
      simp only
      rw [ih, List.range'_succ, List.map_cons, List.append_assoc]
      simp [slotMarker, hb]
    | some b =>
      simp only
      rw [ih, List.range'_succ, List.map_cons, List.append_assoc]
      simp [slotMarker, hb]

theorem fillDrawBuffers_snd (self : GLFrameBufferObject) : ∀ (k x : Nat) (bufs : List Nat)
    (n : Nat), n ≤ x →
      n ≤ (fillDrawBuffers self k x bufs n).2 ∧
      (fillDrawBuffers self k x bufs n).2 ≤ x + k ∧
      ((fillDrawBuffers self k x bufs n).2 = n ∨
        (x < (fillDrawBuffers self k x bufs n).2 ∧
          (self.mColor ((fillDrawBuffers self k x bufs n).2 - 1)).buffer ≠ none)) ∧
      (∀ i, x ≤ i → i < x + k → (self.mColor i).buffer ≠ none →
        i < (fillDrawBuffers self k x bufs n).2) := by
  intro k
  induction k with
  | zero =>
    intro x bufs n hn
    exact ⟨le_refl _, hn, Or.inl rfl, fun i h1 h2 _ => by omega⟩
  | succ k ih =>
    intro x bufs n hn
    unfold fillDrawBuffers
    cases hb : (self.mColor x).buffer with
    | none =>
      simp only
      obtain ⟨a1, a2, a3, a4⟩ := ih (x + 1) (bufs ++ [GL_NONE]) n (by omega)
      refine ⟨a1, by omega, ?_, ?_⟩
      · rcases a3 with h | ⟨h1, h2⟩
        · exact Or.inl h
        · exact Or.inr ⟨by omega, h2⟩
      · intro i h1 h2 h3
        by_cases hi : i = x
        · subst hi
          exact absurd hb h3
        · exact a4 i (by omega) (by omega) h3
    | some b =>
      simp only
      obtain ⟨a1, a2, a3, a4⟩ :=
        ih (x + 1) (bufs ++ [GL_COLOR_ATTACHMENT0_EXT + x]) (x + 1) (le_refl _)
      refine ⟨by omega, by omega, Or.inr ⟨by omega, ?_⟩, ?_⟩
      · rcases a3 with h | ⟨_, h2⟩
        · rw [h]
          simp only [Nat.add_sub_cancel]
          rw [hb]
          simp
        · exact h2
      · intro i h1 h2 h3
        by_cases hi : i = x
        · subst hi
          omega
        · exact a4 i (by omega) (by omega) h3

theorem lastDrawTargets_append : ∀ (xs ys : List GLCall) (acc : List Nat),
    lastDrawTargets (xs ++ ys) acc = lastDrawTargets ys (lastDrawTargets xs acc) := by
  intro xs
  induction xs with
  | nil => intro ys acc; rfl
  | cons c cs ih =>
    intro ys acc
    cases c <;> exact ih ys _

theorem finishDevice_drawTargets (M : Nat) (driver : GLDriver) (self : GLFrameBufferObject)
    (dev2 : GLDevice) (hd : driver.hasDrawBuffers = true) :
    (finishDevice M driver self dev2).drawTargets =
      (fillDrawBuffers self M 0 [] 0).1.take (fillDrawBuffers self M 0 [] 0).2 := by
  unfold finishDevice GLDevice.drawTargets
  simp only [if_pos hd, GLDevice.call, GLDevice.glBindFramebufferEXT, List.append_assoc,
    lastDrawTargets_append]
  simp [lastDrawTargets]

/-- C18: the draw-target list computed by `initialize()`.  The array `bufs`
holds, for every slot `x`, the color-attachment marker of the slot if it is
populated and `GL_NONE` if it is not; the count `n` is the highest populated
slot index plus one (no populated slot is at `n` or above, and slot `n - 1`
is populated when `n` is not 0), and it is at least 1 when slot 0 is
populated and the slot array is not empty; and when the call gets that far on
a device with `glDrawBuffers`, the draw-target list that the device receives
is the first `n` entries. -/
theorem finalize_draw_target_list (M : Nat) (driver : GLDriver) (self : GLFrameBufferObject)
    (dev : GLDevice) :
    (fillDrawBuffers self M 0 [] 0).1 = (List.range M).map (slotMarker self) ∧
    (fillDrawBuffers self M 0 [] 0).2 ≤ M ∧
    (∀ x, x < M → (self.mColor x).buffer ≠ none → x < (fillDrawBuffers self M 0 [] 0).2) ∧
    (0 < (fillDrawBuffers self M 0 [] 0).2 →
      (self.mColor ((fillDrawBuffers self M 0 [] 0).2 - 1)).buffer ≠ none) ∧
    (0 < M → (self.mColor 0).buffer ≠ none → 1 ≤ (fillDrawBuffers self M 0 [] 0).2) ∧
    (∀ x, x < (fillDrawBuffers self M 0 [] 0).2 →
      (fillDrawBuffers self M 0 [] 0).1[x]? = some (slotMarker self x)) ∧
    (∀ b0 dev2, (self.mColor 0).buffer = some b0 →
      bindAttachments self b0.width b0.height b0.glFormat
        (u16 driver.numMultiRenderTargets) 0
        (dev.glBindFramebufferEXT GL_FRAMEBUFFER_EXT self.mFB) = (none, dev2) →
      driver.hasDrawBuffers = true →
      (finalize M driver self dev).device.drawTargets =
        (List.range (fillDrawBuffers self M 0 [] 0).2).map (slotMarker self)) := by
  have hfst : (fillDrawBuffers self M 0 [] 0).1 = (List.range M).map (slotMarker self) := by
    rw [fillDrawBuffers_fst, List.nil_append, List.range_eq_range']
  obtain ⟨_, a2, a3, a4⟩ := fillDrawBuffers_snd self M 0 [] 0 (le_refl _)
  have hle : (fillDrawBuffers self M 0 [] 0).2 ≤ M := by omega
  refine ⟨hfst, hle, ?_, ?_, ?_, ?_, ?_⟩
  · intro x hx hp
    exact a4 x (Nat.zero_le _) (by omega) hp
  · intro hpos
    rcases a3 with h | ⟨_, h⟩
    · omega
    · exact h
  · intro hM hp
    have := a4 0 (le_refl _) (by omega) hp
    omega
  · intro x hx
    rw [hfst, List.getElem?_map, List.getElem?_range (by omega)]
    rfl
  · intro b0 dev2 h0 hloop hd
    rw [finalize_of_loop_none M driver self dev dev2 b0 h0 hloop,
      finishDevice_drawTargets M driver self dev2 hd, hfst, ← List.map_take, List.take_range,
      Nat.min_eq_left hle]

/-- Witness for C18: the table with slots 0 and 3 populated, on a device that
examines two slots; the draw-target list has length 4. -/
theorem finalize_draw_target_list_witness :
    (fillDrawBuffers sparseTable 8 0 [] 0).2 = 4 ∧
    (finalize 8 twoTargetDriver sparseTable idleDevice).device.drawTargets =
      (List.range (fillDrawBuffers sparseTable 8 0 [] 0).2).map (slotMarker sparseTable) ∧
    (finalize 8 twoTargetDriver sparseTable idleDevice).device.drawTargets =
      [GL_COLOR_ATTACHMENT0_EXT, GL_NONE, GL_NONE, GL_COLOR_ATTACHMENT0_EXT + 3] :=
  ⟨by decide,
   (finalize_draw_target_list 8 twoTargetDriver sparseTable idleDevice).2.2.2.2.2.2
     buffer256 _ rfl rfl rfl,
   by decide⟩

theorem bindAttachments_calls_length (self : GLFrameBufferObject)
    (width height glformat : Nat) : ∀ (k x : Nat) (dev : GLDevice),
      dev.calls.length ≤ (bindAttachments self width height glformat k x dev).2.calls.length := by
  intro k
  induction k with
  | zero => intro x dev; exact le_refl _
  | succ k ih =>
    intro x dev
    unfold bindAttachments
    split
    · split
      · exact le_refl _
      · split
        · exact le_refl _
        · refine le_trans ?_ (ih _ _)
          simp [GLDevice.call]
    · refine le_trans ?_ (ih _ _)
      simp [GLDevice.call]

theorem finishDevice_calls_length (M : Nat) (driver : GLDriver) (self : GLFrameBufferObject)
    (dev2 : GLDevice) : dev2.calls.length ≤ (finishDevice M driver self dev2).calls.length := by
  unfold finishDevice
  simp only [GLDevice.call, GLDevice.glBindFramebufferEXT, List.length_append]
  split <;> split <;> simp <;> omega

theorem finalize_calls_ne (M : Nat) (driver : GLDriver) (self : GLFrameBufferObject)
    (dev : GLDevice) (h : (self.mColor 0).buffer ≠ none) :
    (finalize M driver self dev).device.calls ≠ dev.calls := by
  cases h0 : (self.mColor 0).buffer with
  | none => exact absurd h0 h
  | some b0 =>
    have hlen := bindAttachments_calls_length self b0.width b0.height b0.glFormat
      (u16 driver.numMultiRenderTargets) 0
      (dev.glBindFramebufferEXT GL_FRAMEBUFFER_EXT self.mFB)
    have hfirst : (dev.glBindFramebufferEXT GL_FRAMEBUFFER_EXT self.mFB).calls.length =
        dev.calls.length + 1 := by
      simp [GLDevice.glBindFramebufferEXT]
    intro heq
    have hl := congrArg List.length heq
    cases hl2 : bindAttachments self b0.width b0.height b0.glFormat
      (u16 driver.numMultiRenderTargets) 0
      (dev.glBindFramebufferEXT GL_FRAMEBUFFER_EXT self.mFB) with
    | mk r dev2 =>
      rw [hl2] at hlen
      cases r with
      | none =>
        rw [finalize_of_loop_none M driver self dev dev2 b0 h0 hl2] at hl
        have := finishDevice_calls_length M driver self dev2
        simp only at hlen
        omega
      | some err =>
        rw [finalize_of_loop_some M driver self dev dev2 b0 err h0 hl2] at hl
        simp only at hlen hl
        omega

/-- C19: `unbindSurface(k)` for `k` below `BS_MAX_MULTIPLE_RENDER_TARGETS`
clears the buffer of slot `k`, leaves every other color slot and the
depth/stencil slot unchanged, and runs `initialize()` if and only if slot 0 is
populated after the clear: if it is, the call is `initialize()` on the cleared
table, and if not, the call returns without touching the device.  So
`unbindSurface(0)` never runs `initialize()` and never raises, and for `k`
other than 0 the device receives calls exactly when slot 0 is populated. -/
theorem unbindSurface_clears_and_reinitialises (M : Nat) (driver : GLDriver)
    (self : GLFrameBufferObject) (dev : GLDevice) (k : Nat) (hk : k < M) :
    ∃ r, unbindSurface M driver self dev k = some r ∧
      (r.self.mColor k).buffer = none ∧
      (r.self.mColor k).zoffset = (self.mColor k).zoffset ∧
      (∀ x, x ≠ k → r.self.mColor x = self.mColor x) ∧
      r.self.mDepthStencilBuffer = self.mDepthStencilBuffer ∧
      ((r.self.mColor 0).buffer ≠ none → r = finalize M driver r.self dev) ∧
      ((r.self.mColor 0).buffer = none → r.outcome = Outcome.returned ∧ r.device = dev) ∧
      (r.device.calls ≠ dev.calls ↔ (r.self.mColor 0).buffer ≠ none) ∧
      (k = 0 → r.outcome = Outcome.returned ∧ r.device = dev) ∧
      (k ≠ 0 → (r.device.calls ≠ dev.calls ↔ (self.mColor 0).buffer ≠ none)) := by
  have hmain : ∀ self1 : GLFrameBufferObject,
      ∃ r, (match (self1.mColor 0).buffer with
          | some _ => some (finalize M driver self1 dev)
          | none => some { outcome := Outcome.returned, self := self1, device := dev }) =
          some r ∧ r.self = self1 ∧
        ((self1.mColor 0).buffer ≠ none → r = finalize M driver self1 dev) ∧
        ((self1.mColor 0).buffer = none → r.outcome = Outcome.returned ∧ r.device = dev) ∧
        (r.device.calls ≠ dev.calls ↔ (self1.mColor 0).buffer ≠ none) := by
    intro self1
    cases h0 : (self1.mColor 0).buffer with
    | none =>
      refine ⟨_, rfl, rfl, fun h => absurd rfl h, fun _ => ⟨rfl, rfl⟩, ?_⟩
      simp
    | some b =>
      refine ⟨_, rfl, finalize_self M driver self1 dev, fun _ => rfl, (fun h => by cases h), ?_⟩
      constructor
      · intro _ h
        cases h
      · intro _
        exact finalize_calls_ne M driver self1 dev (by rw [h0]; simp)
  unfold unbindSurface
  rw [if_pos hk]
  simp only
  obtain ⟨r, e1, e2, e3, e4, e5⟩ := hmain
    { self with mColor := fun x =>
        if x = k then { buffer := none, zoffset := (self.mColor k).zoffset }
        else self.mColor x }
  refine ⟨r, e1, ?_, ?_, ?_, ?_, ?_, ?_, ?_, ?_, ?_⟩
  · rw [e2]; simp
  · rw [e2]; simp
  · intro x hx
    rw [e2]
    simp [hx]
  · rw [e2]
  · intro h
    rw [e2] at h ⊢
    exact e3 h
  · intro h
    rw [e2] at h
    exact e4 h
  · rw [e2]
    exact e5
  · intro h0
    apply e4
    subst h0
    simp
  · intro hne
    rw [e5]
    have : (0 : Nat) ≠ k := fun h => hne h.symm
    simp [this]

/-- Witness for C19: slot 1 of the table with slots 0 and 1 populated is
cleared. -/
theorem unbindSurface_clears_and_reinitialises_witness :
    ∃ r, unbindSurface 8 twoTargetDriver mismatchedTable idleDevice 1 = some r ∧
      (r.self.mColor 1).buffer = none ∧ r.outcome = Outcome.returned :=
  let ⟨r, h1, h2, _⟩ :=
    unbindSurface_clears_and_reinitialises 8 twoTargetDriver mismatchedTable idleDevice 1
      (by decide)
  ⟨r, h1, h2, by
    have := Option.some.inj h1
    rw [← this]
    decide⟩

/-- C20: `bindSurface(k, target)` for `k` below
`BS_MAX_MULTIPLE_RENDER_TARGETS` stores the target (buffer and z-offset) in
slot `k`, leaves every other slot unchanged, and runs `initialize()` if and
only if slot 0 holds a buffer after the store: if it does, the call is
`initialize()` on the new table, and if not, the call returns without
touching the device.  So a bind to a slot other than 0 while slot 0 is empty
does not run `initialize()`, and the new binding is stored whatever the
outcome of `initialize()` is. -/
theorem bindSurface_stores_and_reinitialises (M : Nat) (driver : GLDriver)
    (self : GLFrameBufferObject) (dev : GLDevice) (k : Nat) (target : GLSurfaceDesc)
    (hk : k < M) :
    ∃ r, bindSurface M driver self dev k target = some r ∧
      r.self.mColor k = target ∧
      (∀ x, x ≠ k → r.self.mColor x = self.mColor x) ∧
      r.self.mDepthStencilBuffer = self.mDepthStencilBuffer ∧
      ((r.self.mColor 0).buffer ≠ none → r = finalize M driver r.self dev) ∧
      ((r.self.mColor 0).buffer = none → r.outcome = Outcome.returned ∧ r.device = dev) ∧
      (r.device.calls ≠ dev.calls ↔ (r.self.mColor 0).buffer ≠ none) ∧
      (k ≠ 0 → (self.mColor 0).buffer = none →
        r.outcome = Outcome.returned ∧ r.device = dev) := by
  have hmain : ∀ self1 : GLFrameBufferObject,
      ∃ r, (match (self1.mColor 0).buffer with
          | some _ => some (finalize M driver self1 dev)
          | none => some { outcome := Outcome.returned, self := self1, device := dev }) =
          some r ∧ r.self = self1 ∧
        ((self1.mColor 0).buffer ≠ none → r = finalize M driver self1 dev) ∧
        ((self1.mColor 0).buffer = none → r.outcome = Outcome.returned ∧ r.device = dev) ∧
        (r.device.calls ≠ dev.calls ↔ (self1.mColor 0).buffer ≠ none) := by
    intro self1
    cases h0 : (self1.mColor 0).buffer with
    | none =>
      refine ⟨_, rfl, rfl, fun h => absurd rfl h, fun _ => ⟨rfl, rfl⟩, ?_⟩
      simp
    | some b =>
      refine ⟨_, rfl, finalize_self M driver self1 dev, fun _ => rfl, (fun h => by cases h), ?_⟩
      constructor
      · intro _ h
        cases h
      · intro _
        exact finalize_calls_ne M driver self1 dev (by rw [h0]; simp)
  unfold bindSurface
  rw [if_pos hk]
  simp only
  obtain ⟨r, e1, e2, e3, e4, e5⟩ := hmain
    { self with mColor := fun x => if x = k then target else self.mColor x }
  refine ⟨r, e1, ?_, ?_, ?_, ?_, ?_, ?_, ?_⟩
  · rw [e2]; simp
  · intro x hx
    rw [e2]
    simp [hx]
  · rw [e2]
  · intro h
    rw [e2] at h ⊢
    exact e3 h
  · intro h
    rw [e2] at h
    exact e4 h
  · rw [e2]
    exact e5
  · intro hne h0
    apply e4
    have : (0 : Nat) ≠ k := fun h => hne h.symm
    simp [this, h0]

/-- Witness for C20: the 128 x 128 buffer is bound to slot 1 of a table whose
slot 0 holds the 256 x 256 buffer; `initialize()` fails and the binding
stays. -/
theorem bindSurface_stores_and_reinitialises_witness :
    ∃ r, bindSurface 8 twoTargetDriver mismatchedTable idleDevice 1
        { buffer := some buffer128, zoffset := 0 } = some r ∧
      r.self.mColor 1 = { buffer := some buffer128, zoffset := 0 } ∧
      r.outcome = Outcome.invalidParameters (InitError.incompatibleSize 1 128 128 256 256) :=
  let ⟨r, h1, h2, _⟩ :=
    bindSurface_stores_and_reinitialises 8 twoTargetDriver mismatchedTable idleDevice 1
      { buffer := some buffer128, zoffset := 0 } (by decide)
  ⟨r, h1, h2, by
    have := Option.some.inj h1
    rw [← this]
    decide⟩

theorem fillDrawBuffers_count (t : GLFrameBufferObject) (M n : Nat) (hn : n ≤ M)
    (hpop : 0 < n → (t.mColor (n - 1)).buffer ≠ none)
    (hempty : ∀ x, n ≤ x → x < M → (t.mColor x).buffer = none) :
    (fillDrawBuffers t M 0 [] 0).2 = n := by
  obtain ⟨_, a2, a3, a4⟩ := fillDrawBuffers_snd t M 0 [] 0 (le_refl _)
  have hge : n ≤ (fillDrawBuffers t M 0 [] 0).2 := by
    by_cases h0 : 0 < n
    · have := a4 (n - 1) (Nat.zero_le _) (by omega) (hpop h0)
      omega
    · omega
  by_contra hne
  rcases a3 with h | ⟨h1, h2⟩
  · omega
  · exact h2 (hempty _ (by omega) (by omega))

theorem finalize_validated (M : Nat) (driver : GLDriver) (t : GLFrameBufferObject)
    (dev : GLDevice) (b0 : GLPixelBuffer) (h0 : (t.mColor 0).buffer = some b0)
    (hall : ∀ x, x < u16 driver.numMultiRenderTargets →
      SlotMatches t b0.width b0.height b0.glFormat x)
    (hdraw : driver.hasDrawBuffers = true)
    (hst : driver.framebufferStatus = GL_FRAMEBUFFER_COMPLETE_EXT) :
    (finalize M driver t dev).outcome = Outcome.returned ∧
    (finalize M driver t dev).device.drawTargets =
      (List.range (fillDrawBuffers t M 0 [] 0).2).map (slotMarker t) := by
  constructor
  · rw [finalize_outcome_of_validated M driver t dev b0 h0 hall, if_pos hst]
  · have hnone := (bindAttachments_none_iff t b0.width b0.height b0.glFormat
      (u16 driver.numMultiRenderTargets) 0
      (dev.glBindFramebufferEXT GL_FRAMEBUFFER_EXT t.mFB)).mpr
      (fun i _ hi => hall i (by omega))
    cases hl : bindAttachments t b0.width b0.height b0.glFormat
      (u16 driver.numMultiRenderTargets) 0
      (dev.glBindFramebufferEXT GL_FRAMEBUFFER_EXT t.mFB) with
    | mk r dev2 =>
      rw [hl] at hnone
      have hr : r = none := hnone
      subst hr
      obtain ⟨_, a2, _, _⟩ := fillDrawBuffers_snd t M 0 [] 0 (le_refl _)
      rw [finalize_of_loop_none M driver t dev dev2 b0 h0 hl,
        finishDevice_drawTargets M driver t dev2 hdraw, fillDrawBuffers_fst, List.nil_append,
        ← List.range_eq_range', ← List.map_take, List.take_range,
        Nat.min_eq_left (by omega)]

theorem storeSlot_same (self : GLFrameBufferObject) (k : Nat) (target : GLSurfaceDesc) :
    (storeSlot self k target).mColor k = target := by
  simp [storeSlot]

theorem storeSlot_other (self : GLFrameBufferObject) (k : Nat) (target : GLSurfaceDesc)
    (x : Nat) (h : x ≠ k) : (storeSlot self k target).mColor x = self.mColor x := by
  simp [storeSlot, h]

theorem clearSlot_same (self : GLFrameBufferObject) (k : Nat) :
    ((clearSlot self k).mColor k).buffer = none := by
  simp [clearSlot]

theorem clearSlot_other (self : GLFrameBufferObject) (k x : Nat) (h : x ≠ k) :
    (clearSlot self k).mColor x = self.mColor x := by
  simp [clearSlot, h]

theorem bindSurface_run (M : Nat) (driver : GLDriver) (self : GLFrameBufferObject)
    (dev : GLDevice) (k : Nat) (target : GLSurfaceDesc) (b : GLPixelBuffer) (hk : k < M)
    (h : ((storeSlot self k target).mColor 0).buffer = some b) :
    bindSurface M driver self dev k target =
      some (finalize M driver (storeSlot self k target) dev) := by
  unfold bindSurface
  rw [if_pos hk]
  show (match ((storeSlot self k target).mColor 0).buffer with
    | some _ => some (finalize M driver (storeSlot self k target) dev)
    | none => some { outcome := Outcome.returned, self := storeSlot self k target,
                     device := dev }) = _
  rw [h]

theorem unbindSurface_run (M : Nat) (driver : GLDriver) (self : GLFrameBufferObject)
    (dev : GLDevice) (k : Nat) (b : GLPixelBuffer) (hk : k < M)
    (h : ((clearSlot self k).mColor 0).buffer = some b) :
    unbindSurface M driver self dev k = some (finalize M driver (clearSlot self k) dev) := by
  unfold unbindSurface
  rw [if_pos hk]
  show (match ((clearSlot self k).mColor 0).buffer with
    | some _ => some (finalize M driver (clearSlot self k) dev)
    | none => some { outcome := Outcome.returned, self := clearSlot self k,
                     device := dev }) = _
  rw [h]

/-- C13: the bind, bind, unbind scenario.  On a table whose color slots are
all empty, with a device whose attachment limit is at least 2 and within the
slot array, that has `glDrawBuffers` and reports a complete framebuffer, and
for two buffers of the same width, height and GL format: binding them to
slots 0 and 1 ends in a successful `initialize()` whose draw-target list is
the two attachment markers; `unbindSurface(1)` then runs `initialize()`
again, which succeeds with the draw-target list holding only slot 0's marker,
and slot 0 still holds the first buffer. -/
theorem bind_bind_unbind_scenario (M : Nat) (driver : GLDriver) (self : GLFrameBufferObject)
    (dev : GLDevice) (b1 b2 : GLPixelBuffer) (z1 z2 : Nat)
    (hempty : ∀ x, x < M → (self.mColor x).buffer = none)
    (hsame : b2.width = b1.width ∧ b2.height = b1.height ∧ b2.glFormat = b1.glFormat)
    (hd2 : 2 ≤ u16 driver.numMultiRenderTargets)
    (hdM : u16 driver.numMultiRenderTargets ≤ M)
    (hdraw : driver.hasDrawBuffers = true)
    (hst : driver.framebufferStatus = GL_FRAMEBUFFER_COMPLETE_EXT) :
    ∃ r1 r2 r3,
      bindSurface M driver self dev 0 { buffer := some b1, zoffset := z1 } = some r1 ∧
      r1.outcome = Outcome.returned ∧
      bindSurface M driver r1.self r1.device 1 { buffer := some b2, zoffset := z2 } = some r2 ∧
      r2.outcome = Outcome.returned ∧
      r2.device.drawTargets = [GL_COLOR_ATTACHMENT0_EXT, GL_COLOR_ATTACHMENT0_EXT + 1] ∧
      unbindSurface M driver r2.self r2.device 1 = some r3 ∧
      r3.outcome = Outcome.returned ∧
      r3.device.drawTargets = [GL_COLOR_ATTACHMENT0_EXT] ∧
      r3.self.mColor 0 = { buffer := some b1, zoffset := z1 } := by
  have hM0 : 0 < M := by omega
  have hM1 : 1 < M := by omega
  have h10 : (0 : Nat) ≠ 1 := by decide
  -- slot 0 and the other slots of the three tables
  have a0 : (storeSlot self 0 { buffer := some b1, zoffset := z1 }).mColor 0 =
      { buffer := some b1, zoffset := z1 } := storeSlot_same _ _ _
  have b0 : (storeSlot (storeSlot self 0 { buffer := some b1, zoffset := z1 }) 1
      { buffer := some b2, zoffset := z2 }).mColor 0 = { buffer := some b1, zoffset := z1 } := by
    rw [storeSlot_other _ _ _ _ h10, a0]
  have b1' : (storeSlot (storeSlot self 0 { buffer := some b1, zoffset := z1 }) 1
      { buffer := some b2, zoffset := z2 }).mColor 1 = { buffer := some b2, zoffset := z2 } :=
    storeSlot_same _ _ _
  have c0 : (clearSlot (storeSlot (storeSlot self 0 { buffer := some b1, zoffset := z1 }) 1
      { buffer := some b2, zoffset := z2 }) 1).mColor 0 =
      { buffer := some b1, zoffset := z1 } := by
    rw [clearSlot_other _ _ _ h10, b0]
  have arest : ∀ x, x ≠ 0 → x < M →
      ((storeSlot self 0 { buffer := some b1, zoffset := z1 }).mColor x).buffer = none := by
    intro x hx hxM
    rw [storeSlot_other _ _ _ _ hx]
    exact hempty x hxM
  have brest : ∀ x, x ≠ 0 → x ≠ 1 → x < M →
      ((storeSlot (storeSlot self 0 { buffer := some b1, zoffset := z1 }) 1
        { buffer := some b2, zoffset := z2 }).mColor x).buffer = none := by
    intro x hx0 hx1 hxM
    rw [storeSlot_other _ _ _ _ hx1]
    exact arest x hx0 hxM
  have crest : ∀ x, x ≠ 0 → x < M →
      ((clearSlot (storeSlot (storeSlot self 0 { buffer := some b1, zoffset := z1 }) 1
        { buffer := some b2, zoffset := z2 }) 1).mColor x).buffer = none := by
    intro x hx0 hxM
    by_cases hx1 : x = 1
    · subst hx1
      exact clearSlot_same _ _
    · rw [clearSlot_other _ _ _ hx1]
      exact brest x hx0 hx1 hxM
  -- the validation passes on each table
  have ht1 : ∀ x, x < u16 driver.numMultiRenderTargets →
      SlotMatches (storeSlot self 0 { buffer := some b1, zoffset := z1 })
        b1.width b1.height b1.glFormat x := by
    intro x hx b hb
    by_cases h : x = 0
    · subst h
      rw [a0] at hb
      cases hb
      exact ⟨rfl, rfl, rfl⟩
    · rw [arest x h (by omega)] at hb
      cases hb
  have ht2 : ∀ x, x < u16 driver.numMultiRenderTargets →
      SlotMatches (storeSlot (storeSlot self 0 { buffer := some b1, zoffset := z1 }) 1
        { buffer := some b2, zoffset := z2 }) b1.width b1.height b1.glFormat x := by
    intro x hx b hb
    by_cases h : x = 0
    · subst h
      rw [b0] at hb
      cases hb
      exact ⟨rfl, rfl, rfl⟩
    · by_cases h1 : x = 1
      · subst h1
        rw [b1'] at hb
        cases hb
        exact hsame
      · rw [brest x h h1 (by omega)] at hb
        cases hb
  have ht3 : ∀ x, x < u16 driver.numMultiRenderTargets →
      SlotMatches (clearSlot (storeSlot (storeSlot self 0 { buffer := some b1, zoffset := z1 })
        1 { buffer := some b2, zoffset := z2 }) 1) b1.width b1.height b1.glFormat x := by
    intro x hx b hb
    by_cases h : x = 0
    · subst h
      rw [c0] at hb
      cases hb
      exact ⟨rfl, rfl, rfl⟩
    · rw [crest x h (by omega)] at hb
      cases hb
  -- the three runs of initialize()
  obtain ⟨o1, _⟩ := finalize_validated M driver
    (storeSlot self 0 { buffer := some b1, zoffset := z1 }) dev b1 (by rw [a0]) ht1 hdraw hst
  obtain ⟨o2, d2⟩ := finalize_validated M driver
    (storeSlot (storeSlot self 0 { buffer := some b1, zoffset := z1 }) 1
      { buffer := some b2, zoffset := z2 })
    (finalize M driver (storeSlot self 0 { buffer := some b1, zoffset := z1 }) dev).device
    b1 (by rw [b0]) ht2 hdraw hst
  obtain ⟨o3, d3⟩ := finalize_validated M driver
    (clearSlot (storeSlot (storeSlot self 0 { buffer := some b1, zoffset := z1 }) 1
      { buffer := some b2, zoffset := z2 }) 1)
    (finalize M driver (storeSlot (storeSlot self 0 { buffer := some b1, zoffset := z1 }) 1
      { buffer := some b2, zoffset := z2 })
      (finalize M driver (storeSlot self 0 { buffer := some b1, zoffset := z1 })
        dev).device).device
    b1 (by rw [c0]) ht3 hdraw hst
  have n2 := fillDrawBuffers_count
    (storeSlot (storeSlot self 0 { buffer := some b1, zoffset := z1 }) 1
      { buffer := some b2, zoffset := z2 }) M 2 (by omega)
    (by intro _; rw [b1']; simp)
    (fun x h1 h2 => brest x (by omega) (by omega) h2)
  have n3 := fillDrawBuffers_count
    (clearSlot (storeSlot (storeSlot self 0 { buffer := some b1, zoffset := z1 }) 1
      { buffer := some b2, zoffset := z2 }) 1) M 1 (by omega)
    (by intro _; rw [c0]; simp)
    (fun x h1 h2 => crest x (by omega) h2)
  rw [n2] at d2
  rw [n3] at d3
  refine ⟨finalize M driver (storeSlot self 0 { buffer := some b1, zoffset := z1 }) dev,
    finalize M driver (storeSlot (storeSlot self 0 { buffer := some b1, zoffset := z1 }) 1
      { buffer := some b2, zoffset := z2 })
      (finalize M driver (storeSlot self 0 { buffer := some b1, zoffset := z1 }) dev).device,
    finalize M driver (clearSlot (storeSlot (storeSlot self 0
        { buffer := some b1, zoffset := z1 }) 1 { buffer := some b2, zoffset := z2 }) 1)
      (finalize M driver (storeSlot (storeSlot self 0 { buffer := some b1, zoffset := z1 }) 1
        { buffer := some b2, zoffset := z2 })
        (finalize M driver (storeSlot self 0 { buffer := some b1, zoffset := z1 })
          dev).device).device,
    ?_, o1, ?_, o2, ?_, ?_, o3, ?_, ?_⟩
  · exact bindSurface_run M driver self dev 0 _ b1 hM0 (by rw [a0])
  · rw [finalize_self]
    exact bindSurface_run M driver _ _ 1 _ b1 hM1 (by rw [b0])
  · rw [d2]
    have e0 : slotMarker (storeSlot (storeSlot self 0 { buffer := some b1, zoffset := z1 }) 1
        { buffer := some b2, zoffset := z2 }) 0 = GL_COLOR_ATTACHMENT0_EXT := by
      simp [slotMarker, b0]
    have e1 : slotMarker (storeSlot (storeSlot self 0 { buffer := some b1, zoffset := z1 }) 1
        { buffer := some b2, zoffset := z2 }) 1 = GL_COLOR_ATTACHMENT0_EXT + 1 := by
      simp [slotMarker, b1']
    simp [List.range_succ, e0, e1]
  · rw [finalize_self]
    exact unbindSurface_run M driver _ _ 1 b1 hM1 (by rw [c0])
  · rw [d3]
    have e0 : slotMarker (clearSlot (storeSlot (storeSlot self 0
        { buffer := some b1, zoffset := z1 }) 1 { buffer := some b2, zoffset := z2 }) 1) 0 =
        GL_COLOR_ATTACHMENT0_EXT := by
      simp [slotMarker, c0]
    simp [List.range_succ, e0]
  · rw [finalize_self]
    exact c0

/-- Witness for C13: two 512 x 512 RGBA8 buffers on an empty table with
`BS_MAX_MULTIPLE_RENDER_TARGETS = 8` and a device with two attachments. -/
theorem bind_bind_unbind_scenario_witness :
    ∃ r1 r2 r3,
      bindSurface 8 twoTargetDriver emptyTable idleDevice 0
        { buffer := some buffer512a, zoffset := 0 } = some r1 ∧
      r1.outcome = Outcome.returned ∧
      bindSurface 8 twoTargetDriver r1.self r1.device 1
        { buffer := some buffer512b, zoffset := 0 } = some r2 ∧
      r2.outcome = Outcome.returned ∧
      r2.device.drawTargets = [GL_COLOR_ATTACHMENT0_EXT, GL_COLOR_ATTACHMENT0_EXT + 1] ∧
      unbindSurface 8 twoTargetDriver r2.self r2.device 1 = some r3 ∧
      r3.outcome = Outcome.returned ∧
      r3.device.drawTargets = [GL_COLOR_ATTACHMENT0_EXT] ∧
      r3.self.mColor 0 = { buffer := some buffer512a, zoffset := 0 } :=
  bind_bind_unbind_scenario 8 twoTargetDriver emptyTable idleDevice buffer512a buffer512b 0 0
    (fun _ _ => rfl) (by decide) (by decide) (by decide) rfl rfl

/-! ## Scratch pool: coalescing invariant, frame and round trip -/

theorem notBothFree_of_left {x y : Block} (h : x.free = false) : NotBothFree x y := by
  intro hxy
  rw [h] at hxy
  exact Bool.false_ne_true hxy.1

theorem notBothFree_of_right {x y : Block} (h : y.free = false) : NotBothFree x y := by
  intro hxy
  rw [h] at hxy
  exact Bool.false_ne_true hxy.2

theorem notBothFree_left_free {x y : Block} (h : NotBothFree x y) (hx : x.free = true) :
    y.free = false := by
  cases hy : y.free with
  | false => rfl
  | true => exact absurd ⟨hx, hy⟩ h

theorem notBothFree_right_free {x y : Block} (h : NotBothFree x y) (hy : y.free = true) :
    x.free = false := by
  cases hx : x.free with
  | false => rfl
  | true => exact absurd ⟨hx, hy⟩ h

theorem noAdjFreeList_iff_chain : ∀ bs : List Block,
    NoAdjFreeList bs ↔ List.Chain' NotBothFree bs := by
  intro bs
  induction bs with
  | nil => simp [NoAdjFreeList]
  | cons x xs ih =>
    cases xs with
    | nil => simp [NoAdjFreeList]
    | cons y rest =>
      rw [List.chain'_cons, ← ih]
      rfl

theorem seg_mem {mem : Pool} : ∀ {bs : List Block} {a e : Nat}, Seg mem a bs e →
    ∀ x ∈ bs, mem x.offset = { size := x.size, free := x.free } := by
  intro bs
  induction bs with
  | nil => intro a e _ x hx; simp at hx
  | cons b bs ih =>
    intro a e h x hx
    obtain ⟨h1, h2, h3⟩ := h
    rcases List.mem_cons.mp hx with rfl | hx
    · rw [h1]; exact h2
    · exact ih h3 x hx

theorem chain_split_at {pre post : List Block} {b : Block}
    (h : List.Chain' NotBothFree (pre ++ b :: post)) :
    List.Chain' NotBothFree pre ∧ List.Chain' NotBothFree post ∧
      (∀ x ∈ pre.getLast?, NotBothFree x b) ∧ (∀ y ∈ post.head?, NotBothFree b y) := by
  obtain ⟨h1, h2, h3⟩ := List.chain'_append.mp h
  obtain ⟨h4, h5⟩ := List.chain'_cons'.mp h2
  refine ⟨h1, h5, ?_, h4⟩
  intro x hx
  exact h3 x hx b (by simp)

theorem mergeNext_chain (c : Block) (post : List Block)
    (h : List.Chain' NotBothFree post) :
    List.Chain' NotBothFree (mergeNext c post) ∧
      ∀ y ∈ (mergeNext c post).head?, y.free = c.free := by
  cases post with
  | nil => simp [mergeNext]
  | cons n r =>
    by_cases hn : n.free = true
    · simp only [mergeNext, if_pos hn]
      obtain ⟨h4, h5⟩ := List.chain'_cons'.mp h
      refine ⟨List.chain'_cons'.mpr ⟨?_, h5⟩, by simp⟩
      intro y hy
      exact notBothFree_of_right (notBothFree_left_free (h4 y hy) hn)
    · simp only [mergeNext, if_neg hn]
      refine ⟨List.chain'_cons.mpr ⟨notBothFree_of_right (by simpa using hn), h⟩, by simp⟩

theorem mergePrev_chain (pre : List Block) (B : Block)
    (h : List.Chain' NotBothFree pre) :
    List.Chain' NotBothFree (mergePrev pre.reverse B).1 ∧
      ∀ x ∈ (mergePrev pre.reverse B).1.getLast?, x.free = false := by
  rcases List.eq_nil_or_concat pre with hnil | ⟨L, l, hL⟩
  · subst hnil
    simp [mergePrev]
  · rw [List.concat_eq_append] at hL
    subst hL
    obtain ⟨h1, _, h3⟩ := List.chain'_append.mp h
    simp only [List.reverse_append, List.reverse_cons, List.reverse_nil, List.nil_append,
      List.singleton_append, mergePrev]
    by_cases hl : l.free = true
    · simp only [if_pos hl, List.reverse_reverse]
      refine ⟨h1, ?_⟩
      intro x hx
      exact notBothFree_right_free (h3 x hx l (by simp)) hl
    · simp only [if_neg hl, List.reverse_cons, List.reverse_reverse]
      refine ⟨h, ?_⟩
      intro x hx
      simp only [List.getLast?_append, List.getLast?_singleton, Option.mem_def] at hx
      have hx1 : some l = some x := hx
      cases hx1
      simpa using hl

theorem deallocMerge_chain (pre post : List Block) (B : Block)
    (h : List.Chain' NotBothFree (pre ++ B :: post)) :
    List.Chain' NotBothFree (deallocMerge pre.reverse B post) := by
  obtain ⟨h1, h2, _, _⟩ := chain_split_at h
  obtain ⟨p1, p2⟩ := mergePrev_chain pre B h1
  obtain ⟨q1, _⟩ := mergeNext_chain (mergePrev pre.reverse B).2 post h2
  rw [deallocMerge_eq]
  refine List.Chain'.append p1 q1 ?_
  intro x hx y _
  exact notBothFree_of_left (p2 x hx)

theorem allocSplit_chain (size : Nat) (pre post : List Block) (b : Block)
    (h : List.Chain' NotBothFree (pre ++ b :: post)) (hb : b.free = true) :
    List.Chain' NotBothFree (pre ++ allocSplit size b ++ post) := by
  obtain ⟨h1, h2, _, h4⟩ := chain_split_at h
  rw [List.append_assoc]
  refine List.Chain'.append h1 ?_ ?_
  · unfold allocSplit
    split
    · simp only [List.cons_append, List.nil_append]
      refine List.chain'_cons.mpr ⟨notBothFree_of_left rfl, List.chain'_cons'.mpr ⟨?_, h2⟩⟩
      intro y hy
      exact notBothFree_of_right (notBothFree_left_free (h4 y hy) hb)
    · simp only [List.cons_append, List.nil_append]
      refine List.chain'_cons'.mpr ⟨?_, h2⟩
      intro y _
      exact notBothFree_of_left rfl
  · intro x _ y hy
    obtain ⟨b1, rest, hsp, _, hf⟩ := allocSplit_head size b
    rw [hsp] at hy
    simp only [List.cons_append, List.head?_cons, Option.mem_def, Option.some.injEq] at hy
    rw [← hy]
    exact notBothFree_of_right hf

/-- C22: the no-adjacent-free-blocks invariant.  The freshly constructed pool
has no two consecutive blocks that are both free, and on a pool that
satisfies it together with the partition invariant, `allocateScratch` for
every size and `deallocateScratch` for the payload address of every
allocated block return and leave a pool that satisfies both again. -/
theorem no_adjacent_free_preserved :
    (∀ raw : Pool, NoAdjacentFree (construct raw)) ∧
    (∀ (mem : Pool) (size : Nat), PartitionInvariant mem → NoAdjacentFree mem →
      ∃ mem1 r, allocateScratch mem size = some (mem1, r) ∧
        PartitionInvariant mem1 ∧ NoAdjacentFree mem1) ∧
    (∀ (mem : Pool) (B : Block), PartitionInvariant mem → NoAdjacentFree mem →
      B ∈ blocks mem → B.free = false →
      ∃ mem1, deallocateScratch mem B.payload = some (DeallocResult.done mem1) ∧
        PartitionInvariant mem1 ∧ NoAdjacentFree mem1) := by
  refine ⟨?_, ?_, ?_⟩
  · intro raw
    unfold NoAdjacentFree
    rw [blocks_of_seg (seg_construct raw)]
    exact trivial
  · intro mem size hinv hnaf
    have hseg := (invariant_iff_seg mem).mp hinv
    rcases first_split (fun b => b.fits (roundSize size)) (blocks mem) with hn | h
    · exact ⟨mem, none, allocateScratch_miss hseg hn, hinv, hnaf⟩
    · obtain ⟨pre, b, post, h1, h2, h3⟩ := h
      unfold NoAdjacentFree at hnaf
      rw [noAdjFreeList_iff_chain, h1] at hnaf
      rw [h1] at hseg
      obtain ⟨mem1, e1, e2⟩ := allocateScratch_hit hseg h2 h3
      refine ⟨mem1, _, e1, invariant_of_seg e2, ?_⟩
      unfold NoAdjacentFree
      rw [noAdjFreeList_iff_chain, blocks_of_seg e2]
      exact allocSplit_chain _ pre post b hnaf h3.1
  · intro mem B hinv hnaf hB _
    have hseg := (invariant_iff_seg mem).mp hinv
    obtain ⟨pre, post, h1⟩ := List.append_of_mem hB
    unfold NoAdjacentFree at hnaf
    rw [noAdjFreeList_iff_chain, h1] at hnaf
    rw [h1] at hseg
    obtain ⟨mem3, e1, e2⟩ := deallocateScratch_hit hseg
    refine ⟨mem3, e1, invariant_of_seg e2, ?_⟩
    unfold NoAdjacentFree
    rw [noAdjFreeList_iff_chain, blocks_of_seg e2]
    exact deallocMerge_chain pre post B hnaf

/-- Witness for C22: a request of 100 bytes on a fresh pool, and the release
of the second block of the pool left by allocations of 100, 52 and 20
bytes. -/
theorem no_adjacent_free_preserved_witness :
    NoAdjacentFree (construct zeroPool) ∧
    (∃ mem1 r, allocateScratch (construct zeroPool) 100 = some (mem1, r) ∧
      PartitionInvariant mem1 ∧ NoAdjacentFree mem1) ∧
    (∃ mem1, deallocateScratch threeAllocPool
        ({ offset := 104, size := 52, free := false } : Block).payload =
        some (DeallocResult.done mem1) ∧
      PartitionInvariant mem1 ∧ NoAdjacentFree mem1) :=
  ⟨no_adjacent_free_preserved.1 zeroPool,
   no_adjacent_free_preserved.2.1 (construct zeroPool) 100 (by decide) (by decide),
   no_adjacent_free_preserved.2.2 threeAllocPool { offset := 104, size := 52, free := false }
     (by decide) (by decide) (by decide) rfl⟩

theorem deallocMerge_of_free_isolated {mem : Pool} (pre post : List Block) (B : Block)
    (hpre : Seg mem 0 pre B.offset)
    (hl : ∀ l, pre.getLast? = some l → l.free = false)
    (hn : ∀ n, post.head? = some n → n.free = false) :
    deallocMerge pre.reverse B post =
      pre ++ { offset := B.offset, size := B.size, free := true } :: post := by
  obtain ⟨_, _, _, p4⟩ := mergePrev_form (A := B) hpre
  rw [deallocMerge_eq, p4 hl]
  cases post with
  | nil => rfl
  | cons n r =>
    have := hn n rfl
    simp only [mergeNext, this, Bool.false_eq_true, if_false]

theorem neighbours_not_free {pre post : List Block} {B : Block}
    (h : List.Chain' NotBothFree (pre ++ B :: post)) (hB : B.free = true) :
    (∀ l, pre.getLast? = some l → l.free = false) ∧
      (∀ n, post.head? = some n → n.free = false) := by
  obtain ⟨_, _, h3, h4⟩ := chain_split_at h
  constructor
  · intro l hl
    exact notBothFree_right_free (h3 l hl) hB
  · intro n hn
    exact notBothFree_left_free (h4 n hn) hB

/-- C25: the undetected double free.  On a pool that satisfies the partition
and the no-adjacent-free-blocks invariants, `deallocateScratch` on the
payload address of a block that is already free does not reach the
assertion: it returns normally and leaves the block list as it was. -/
theorem double_free_undetected (mem : Pool) (B : Block) (hinv : PartitionInvariant mem)
    (hnaf : NoAdjacentFree mem) (hB : B ∈ blocks mem) (hfree : B.free = true) :
    ∃ mem1, deallocateScratch mem B.payload = some (DeallocResult.done mem1) ∧
      blocks mem1 = blocks mem := by
  have hseg := (invariant_iff_seg mem).mp hinv
  obtain ⟨pre, post, h1⟩ := List.append_of_mem hB
  unfold NoAdjacentFree at hnaf
  rw [noAdjFreeList_iff_chain, h1] at hnaf
  rw [h1] at hseg
  obtain ⟨mB, hpre, hrest⟩ := seg_append.mp hseg
  have hmB : B.offset = mB := hrest.1
  subst hmB
  obtain ⟨hl, hn⟩ := neighbours_not_free hnaf hfree
  obtain ⟨mem1, e1, e2⟩ := deallocateScratch_hit hseg
  refine ⟨mem1, e1, ?_⟩
  rw [blocks_of_seg e2, deallocMerge_of_free_isolated pre post B hpre hl hn, h1, ← hfree]

/-- Witness for C25: the free block at the end of the pool left by
allocations of 100, 52 and 20 bytes is freed again. -/
theorem double_free_undetected_witness :
    ∃ mem1, deallocateScratch threeAllocPool
        ({ offset := 184, size := 1048388, free := true } : Block).payload =
        some (DeallocResult.done mem1) ∧
      blocks mem1 = blocks threeAllocPool :=
  double_free_undetected threeAllocPool { offset := 184, size := 1048388, free := true }
    (by decide) (by decide) (by decide) rfl

/-- C24: the general round trip.  On a pool that satisfies the partition and
the no-adjacent-free-blocks invariants, for every size for which
`allocateScratch` returns a non-null pointer `p`, `deallocateScratch(p)`
right afterwards returns and restores exactly the block list (offsets, sizes
and free flags) that existed before the allocation. -/
theorem alloc_dealloc_roundtrip (mem : Pool) (size p : Nat) (mem1 : Pool)
    (hinv : PartitionInvariant mem) (hnaf : NoAdjacentFree mem)
    (h : allocateScratch mem size = some (mem1, some p)) :
    ∃ mem2, deallocateScratch mem1 p = some (DeallocResult.done mem2) ∧
      blocks mem2 = blocks mem := by
  have hseg := (invariant_iff_seg mem).mp hinv
  rcases first_split (fun b => b.fits (roundSize size)) (blocks mem) with hn | hfit
  · rw [allocateScratch_miss hseg hn] at h
    have := congrArg Prod.snd (Option.some.inj h)
    cases this
  · obtain ⟨pre, b, post, h1, h2, h3⟩ := hfit
    unfold NoAdjacentFree at hnaf
    rw [noAdjFreeList_iff_chain, h1] at hnaf
    rw [h1] at hseg
    obtain ⟨mB, hpre, hrest⟩ := seg_append.mp hseg
    have hmB : b.offset = mB := hrest.1
    subst hmB
    obtain ⟨hl, hnx⟩ := neighbours_not_free hnaf h3.1
    obtain ⟨m1, e1, e2⟩ := allocateScratch_hit hseg h2 h3
    rw [e1] at h
    have hm : m1 = mem1 := congrArg Prod.fst (Option.some.inj h)
    have hp : b.offset + sizeofAlloc = p :=
      Option.some.inj (congrArg Prod.snd (Option.some.inj h))
    subst hm
    subst hp
    rw [h1]
    by_cases hsplit : b.size > roundSize size + sizeofAlloc
    · simp only [allocSplit, if_pos hsplit] at e2
      have e3 : Seg m1 0 (pre ++
          ({ offset := b.offset, size := roundSize size, free := false } : Block) ::
          ({ offset := b.offset + sizeofAlloc + roundSize size,
             size := b.size - roundSize size - sizeofAlloc, free := true } :: post))
          SCRATCH_POOL_SIZE := by
        simpa using e2
      obtain ⟨mem2, d1, d2⟩ := deallocateScratch_hit e3
      refine ⟨mem2, d1, ?_⟩
      obtain ⟨_, _, _, p4⟩ := mergePrev_form
        (A := { offset := b.offset, size := roundSize size, free := false }) hpre
      rw [blocks_of_seg d2, deallocMerge_eq, p4 hl]
      simp only [mergeNext, if_true]
      have hsz : roundSize size + (b.size - roundSize size - sizeofAlloc + sizeofAlloc) =
          b.size := by omega
      rw [hsz, ← h3.1]
    · simp only [allocSplit, if_neg hsplit] at e2
      have e3 : Seg m1 0 (pre ++
          ({ offset := b.offset, size := b.size, free := false } : Block) :: post)
          SCRATCH_POOL_SIZE := by
        simpa using e2
      obtain ⟨mem2, d1, d2⟩ := deallocateScratch_hit e3
      refine ⟨mem2, d1, ?_⟩
      rw [blocks_of_seg d2, deallocMerge_of_free_isolated pre post
        { offset := b.offset, size := b.size, free := false } hpre hl hnx, ← h3.1]

/-- Witness for C24: a request of 60 bytes on the pool left by allocations of
100, 52 and 20 bytes returns the pointer 188. -/
theorem alloc_dealloc_roundtrip_witness :
    ∃ mem1, allocateScratch threeAllocPool 60 = some (mem1, some 188) ∧
      ∃ mem2, deallocateScratch mem1 188 = some (DeallocResult.done mem2) ∧
        blocks mem2 = blocks threeAllocPool :=
  ⟨_, rfl, alloc_dealloc_roundtrip threeAllocPool 60 188 _ (by decide) (by decide) rfl⟩

theorem mergePrev_mem (pre : List Block) (B x : Block) (hx : x ∈ pre)
    (hf : x.free = false) : x ∈ (mergePrev pre.reverse B).1 := by
  rcases List.eq_nil_or_concat pre with hnil | ⟨L, l, hL⟩
  · subst hnil
    simp at hx
  · rw [List.concat_eq_append] at hL
    subst hL
    simp only [List.reverse_append, List.reverse_cons, List.reverse_nil, List.nil_append,
      List.singleton_append, mergePrev]
    by_cases hl : l.free = true
    · simp only [if_pos hl, List.reverse_reverse]
      rcases List.mem_append.mp hx with h | h
      · exact h
      · simp only [List.mem_singleton] at h
        rw [h, hl] at hf
        cases hf
    · simp only [if_neg hl, List.reverse_cons, List.reverse_reverse]
      exact hx

theorem mergeNext_mem (c : Block) (post : List Block) (x : Block) (hx : x ∈ post)
    (hf : x.free = false) : x ∈ mergeNext c post := by
  cases post with
  | nil => simp at hx
  | cons n r =>
    by_cases hn : n.free = true
    · simp only [mergeNext, if_pos hn]
      rcases List.mem_cons.mp hx with h | h
      · rw [h, hn] at hf
        cases hf
      · exact List.mem_cons_of_mem _ h
    · simp only [mergeNext, if_neg hn]
      exact List.mem_cons_of_mem _ hx

/-- C23: live allocations are never disturbed.  On a pool satisfying the
partition invariant, `allocateScratch` for every size, and
`deallocateScratch` for the payload address of every block `B`, return, and
every allocated block other than the target is a block of the pool
afterwards with the same offset, size and not-free flag, its control block
being untouched; so the blocks that change are free blocks and the
target. -/
theorem live_allocations_undisturbed :
    (∀ (mem : Pool) (size : Nat), PartitionInvariant mem →
      ∃ mem1 r, allocateScratch mem size = some (mem1, r) ∧
        (∀ x ∈ blocks mem, x.free = false → x ∈ blocks mem1 ∧ mem1 x.offset = mem x.offset) ∧
        (∀ x ∈ blocks mem, x ∉ blocks mem1 → x.free = true ∧ r = some x.payload)) ∧
    (∀ (mem : Pool) (B : Block), PartitionInvariant mem → B ∈ blocks mem →
      ∃ mem1, deallocateScratch mem B.payload = some (DeallocResult.done mem1) ∧
        (∀ x ∈ blocks mem, x.free = false → x ≠ B →
          x ∈ blocks mem1 ∧ mem1 x.offset = mem x.offset) ∧
        (∀ x ∈ blocks mem, x ∉ blocks mem1 → x.free = true ∨ x = B)) := by
  constructor
  · intro mem size hinv
    have hseg := (invariant_iff_seg mem).mp hinv
    rcases first_split (fun b => b.fits (roundSize size)) (blocks mem) with hn | hfit
    · refine ⟨mem, none, allocateScratch_miss hseg hn, fun x hx _ => ⟨hx, rfl⟩, ?_⟩
      intro x hx hnx
      exact absurd hx hnx
    · obtain ⟨pre, b, post, h1, h2, h3⟩ := hfit
      have hseg0 := hseg
      rw [h1] at hseg
      obtain ⟨mem1, e1, e2⟩ := allocateScratch_hit hseg h2 h3
      have hkeep : ∀ x ∈ blocks mem, x ≠ b → x ∈ blocks mem1 := by
        intro x hx hne
        rw [h1] at hx
        rw [blocks_of_seg e2]
        rcases List.mem_append.mp hx with h | h
        · simp [h]
        · rcases List.mem_cons.mp h with h | h
          · exact absurd h hne
          · simp [h]
      refine ⟨mem1, _, e1, ?_, ?_⟩
      · intro x hx hf
        have hne : x ≠ b := by
          intro h
          rw [h, h3.1] at hf
          cases hf
        have hx1 := hkeep x hx hne
        refine ⟨hx1, ?_⟩
        have a1 := seg_mem hseg0 x hx
        have a2 := seg_mem (by rw [blocks_of_seg e2]; exact e2 :
          Seg mem1 0 (blocks mem1) SCRATCH_POOL_SIZE) x hx1
        rw [a1, a2]
      · intro x hx hnx
        by_cases hne : x = b
        · subst hne
          exact ⟨h3.1, rfl⟩
        · exact absurd (hkeep x hx hne) hnx
  · intro mem B hinv hB
    have hseg := (invariant_iff_seg mem).mp hinv
    have hseg0 := hseg
    obtain ⟨pre, post, h1⟩ := List.append_of_mem hB
    rw [h1] at hseg
    obtain ⟨mem1, e1, e2⟩ := deallocateScratch_hit hseg
    have hkeep : ∀ x ∈ blocks mem, x.free = false → x ≠ B → x ∈ blocks mem1 := by
      intro x hx hf hne
      rw [h1] at hx
      rw [blocks_of_seg e2, deallocMerge_eq]
      rcases List.mem_append.mp hx with h | h
      · exact List.mem_append_left _ (mergePrev_mem pre B x h hf)
      · rcases List.mem_cons.mp h with h | h
        · exact absurd h hne
        · exact List.mem_append_right _ (mergeNext_mem _ post x h hf)
    refine ⟨mem1, e1, ?_, ?_⟩
    · intro x hx hf hne
      have hx1 := hkeep x hx hf hne
      refine ⟨hx1, ?_⟩
      have a1 := seg_mem hseg0 x hx
      have a2 := seg_mem (by rw [blocks_of_seg e2]; exact e2 :
        Seg mem1 0 (blocks mem1) SCRATCH_POOL_SIZE) x hx1
      rw [a1, a2]
    · intro x hx hnx
      by_cases hf : x.free = true
      · exact Or.inl hf
      · right
        by_contra hne
        exact hnx (hkeep x hx (by simpa using hf) hne)

/-- Witness for C23: a request of 60 bytes on the pool left by allocations of
100, 52 and 20 bytes, and the release of its second block. -/
theorem live_allocations_undisturbed_witness :
    (∃ mem1 r, allocateScratch threeAllocPool 60 = some (mem1, r) ∧
      (∀ x ∈ blocks threeAllocPool, x.free = false →
        x ∈ blocks mem1 ∧ mem1 x.offset = threeAllocPool x.offset) ∧
      (∀ x ∈ blocks threeAllocPool, x ∉ blocks mem1 →
        x.free = true ∧ r = some x.payload)) ∧
    (∃ mem1, deallocateScratch threeAllocPool
        ({ offset := 104, size := 52, free := false } : Block).payload =
        some (DeallocResult.done mem1) ∧
      (∀ x ∈ blocks threeAllocPool, x.free = false →
        x ≠ { offset := 104, size := 52, free := false } →
        x ∈ blocks mem1 ∧ mem1 x.offset = threeAllocPool x.offset) ∧
      (∀ x ∈ blocks threeAllocPool, x ∉ blocks mem1 →
        x.free = true ∨ x = { offset := 104, size := 52, free := false })) :=
  ⟨live_allocations_undisturbed.1 threeAllocPool 60 (by decide),
   live_allocations_undisturbed.2 threeAllocPool { offset := 104, size := 52, free := false }
     (by decide) (by decide)⟩

/-! ## Scratch pool: in-bounds access to control blocks -/

theorem allocLoopTraced_fst : ∀ (fuel : Nat) (mem : Pool) (size pos : Nat)
    (tr : List HeaderAccess),
    (allocLoopTraced fuel mem size pos tr).map Prod.fst = allocLoop fuel mem size pos := by
  intro fuel
  induction fuel with
  | zero => intro mem size pos tr; rfl
  | succ n ih =>
    intro mem size pos tr
    unfold allocLoopTraced allocLoop
    by_cases h1 : pos < SCRATCH_POOL_SIZE
    · rw [if_pos h1, if_pos h1]
      simp only
      by_cases h2 : (mem pos).free = true ∧ (mem pos).size ≥ size
      · rw [if_pos h2, if_pos h2]
        by_cases h3 : (mem pos).size > size + sizeofAlloc
        · rw [if_pos h3, if_pos h3]
          rfl
        · rw [if_neg h3, if_neg h3]
          rfl
      · rw [if_neg h2, if_neg h2]
        exact ih _ _ _ _
    · rw [if_neg h1, if_neg h1]
      rfl

theorem deallocLoopTraced_fst : ∀ (fuel : Nat) (mem : Pool) (ptr pos : Nat)
    (pLast : Option Nat) (tr : List HeaderAccess),
    (deallocLoopTraced fuel mem ptr pos pLast tr).map Prod.fst =
      deallocLoop fuel mem ptr pos pLast := by
  intro fuel
  induction fuel with
  | zero => intro mem ptr pos pLast tr; rfl
  | succ n ih =>
    intro mem ptr pos pLast tr
    unfold deallocLoopTraced deallocLoop
    by_cases h1 : pos < SCRATCH_POOL_SIZE
    · rw [if_pos h1, if_pos h1]
      simp only
      by_cases h2 : pos + sizeofAlloc = ptr
      · rw [if_pos h2, if_pos h2]
        rfl
      · rw [if_neg h2, if_neg h2]
        exact ih _ _ _ _ _
    · rw [if_neg h1, if_neg h1]
      rfl

theorem allocLoopTraced_skip {mem : Pool} {size : Nat} : ∀ {pre : List Block} {a e k : Nat}
    {tr : List HeaderAccess},
    Seg mem a pre e → e ≤ SCRATCH_POOL_SIZE → (∀ b ∈ pre, ¬ b.fits size) →
    allocLoopTraced (pre.length + k) mem size a tr =
      allocLoopTraced k mem size e (tr ++ pre.map (fun b => HeaderAccess.visited b.offset)) := by
  intro pre
  induction pre with
  | nil =>
    intro a e k tr h _ _
    have : a = e := h
    subst this; simp
  | cons b pre ih =>
    intro a e k tr h he hn
    have hle := seg_le h
    obtain ⟨h1, h2, h3⟩ := h
    subst h1
    have hfuel : (b :: pre).length + k = (pre.length + k) + 1 := by
      simp only [List.length_cons]; omega
    have hlt : b.offset < SCRATCH_POOL_SIZE := by
      simp only [List.length_cons] at hle; omega
    have hb : ¬ ((mem b.offset).free = true ∧ (mem b.offset).size ≥ size) := by
      rw [h2]; exact hn b (List.mem_cons_self _ _)
    have hle3 := seg_le h3
    have hpos : u32 (b.offset + u32 (sizeofAlloc + (mem b.offset).size)) =
        b.offset + sizeofAlloc + b.size := by
      rw [h2]
      simp only [sizeofAlloc_val, pool_size_val] at *
      have hin : u32 (4 + b.size) = 4 + b.size := u32_of_lt (by omega)
      rw [hin, u32_of_lt (by omega)]; omega
    rw [hfuel, allocLoopTraced, if_pos hlt]
    simp only
    rw [if_neg hb, hpos, ih h3 he (fun x hx => hn x (List.mem_cons_of_mem _ hx))]
    simp

theorem allocLoopTraced_hit {mem : Pool} {size : Nat} {b : Block} {post : List Block}
    {tr : List HeaderAccess} (h : Seg mem b.offset (b :: post) SCRATCH_POOL_SIZE)
    (hb : b.fits size) (k : Nat) :
    (allocLoopTraced (k + 1) mem size b.offset tr).map Prod.snd =
      some (tr ++ HeaderAccess.visited b.offset ::
        (if b.size > size + sizeofAlloc then
          [HeaderAccess.split (b.offset + sizeofAlloc + size)] else [])) := by
  have hle := seg_le h
  obtain ⟨_, h2, h3⟩ := h
  have hle3 := seg_le h3
  have hlt : b.offset < SCRATCH_POOL_SIZE := by
    simp only [List.length_cons] at hle; omega
  have hfit : (mem b.offset).free = true ∧ (mem b.offset).size ≥ size := by rw [h2]; exact hb
  have hsz : (mem b.offset).size = b.size := by rw [h2]
  have hu : u32 (sizeofAlloc + size) = sizeofAlloc + size := by
    have := hb.2
    simp only [sizeofAlloc_val, pool_size_val] at *
    exact u32_of_lt (by omega)
  rw [allocLoopTraced, if_pos hlt]
  simp only
  rw [if_pos hfit, hsz]
  by_cases hsplit : b.size > size + sizeofAlloc
  · rw [if_pos hsplit, if_pos hsplit, hu]
    simp [Nat.add_assoc]
  · rw [if_neg hsplit, if_neg hsplit]
    simp

theorem deallocLoopTraced_skip {mem : Pool} {ptr : Nat} : ∀ {pre : List Block} {a e k : Nat}
    {p : Option Nat} {tr : List HeaderAccess}, Seg mem a pre e → e ≤ SCRATCH_POOL_SIZE →
    (∀ b ∈ pre, b.offset + sizeofAlloc ≠ ptr) →
    deallocLoopTraced (pre.length + k) mem ptr a p tr =
      deallocLoopTraced k mem ptr e (lastVisited p pre)
        (tr ++ pre.map (fun b => HeaderAccess.visited b.offset)) := by
  intro pre
  induction pre with
  | nil =>
    intro a e k p tr h _ _
    have : a = e := h
    subst this; simp [lastVisited]
  | cons b pre ih =>
    intro a e k p tr h he hn
    have hle := seg_le h
    obtain ⟨h1, h2, h3⟩ := h
    subst h1
    have hfuel : (b :: pre).length + k = (pre.length + k) + 1 := by
      simp only [List.length_cons]; omega
    have hlt : b.offset < SCRATCH_POOL_SIZE := by
      simp only [List.length_cons] at hle; omega
    have hb : ¬ (b.offset + sizeofAlloc = ptr) := hn b (List.mem_cons_self _ _)
    have hle3 := seg_le h3
    have hpos : u32 (b.offset + u32 (sizeofAlloc + (mem b.offset).size)) =
        b.offset + sizeofAlloc + b.size := by
      rw [h2]
      simp only [sizeofAlloc_val, pool_size_val] at *
      have hin : u32 (4 + b.size) = 4 + b.size := u32_of_lt (by omega)
      rw [hin, u32_of_lt (by omega)]; omega
    rw [hfuel, deallocLoopTraced, if_pos hlt]
    simp only
    rw [if_neg hb, hpos, ih h3 he (fun x hx => hn x (List.mem_cons_of_mem _ hx))]
    simp [lastVisited]

theorem deallocLoopTraced_hit_first {mem : Pool} {b : Block} {post : List Block}
    {tr : List HeaderAccess} (h : Seg mem b.offset (b :: post) SCRATCH_POOL_SIZE) (k : Nat) :
    (deallocLoopTraced (k + 1) mem (b.offset + sizeofAlloc) b.offset none tr).map Prod.snd =
      some (tr ++ HeaderAccess.visited b.offset ::
        (if b.offset + sizeofAlloc + b.size < SCRATCH_POOL_SIZE then
          [HeaderAccess.next (b.offset + sizeofAlloc + b.size)] else [])) := by
  have hle := seg_le h
  obtain ⟨_, h2, h3⟩ := h
  have hle3 := seg_le h3
  have hlt : b.offset < SCRATCH_POOL_SIZE := by
    simp only [List.length_cons] at hle; omega
  have hb1 : setFree mem b.offset true b.offset = { size := b.size, free := true } := by
    rw [setFree_same, h2]
  have hoff : u32 (u32 (b.offset + b.size) + sizeofAlloc) = b.offset + sizeofAlloc + b.size := by
    simp only [sizeofAlloc_val, pool_size_val] at *
    have hin : u32 (b.offset + b.size) = b.offset + b.size := u32_of_lt (by omega)
    rw [hin, u32_of_lt (by omega)]; omega
  rw [deallocLoopTraced, if_pos hlt]
  simp only [↓reduceIte, hb1, hoff, Option.map_some']
  split <;> simp

theorem deallocLoopTraced_hit_next {mem : Pool} {l b : Block} {post : List Block}
    {tr : List HeaderAccess} (hl : Seg mem l.offset [l] b.offset)
    (h : Seg mem b.offset (b :: post) SCRATCH_POOL_SIZE) (k : Nat) :
    (deallocLoopTraced (k + 1) mem (b.offset + sizeofAlloc) b.offset (some l.offset)
        tr).map Prod.snd =
      some (tr ++ HeaderAccess.visited b.offset :: HeaderAccess.last l.offset ::
        (if b.offset + sizeofAlloc + b.size < SCRATCH_POOL_SIZE then
          [HeaderAccess.next (b.offset + sizeofAlloc + b.size)] else [])) := by
  have hle := seg_le h
  obtain ⟨_, l2, l3⟩ := hl
  have l3 : l.offset + sizeofAlloc + l.size = b.offset := l3
  obtain ⟨_, h2, h3⟩ := h
  have hle3 := seg_le h3
  have hlt : b.offset < SCRATCH_POOL_SIZE := by
    simp only [List.length_cons] at hle; omega
  have hne : l.offset ≠ b.offset := by simp only [sizeofAlloc_val] at *; omega
  have hl1 : setFree mem b.offset true l.offset = { size := l.size, free := l.free } := by
    rw [setFree_other _ _ _ _ hne, l2]
  have hb1 : setFree mem b.offset true b.offset = { size := b.size, free := true } := by
    rw [setFree_same, h2]
  have hoff : u32 (u32 (b.offset + b.size) + sizeofAlloc) = b.offset + sizeofAlloc + b.size := by
    simp only [sizeofAlloc_val, pool_size_val] at *
    have hin : u32 (b.offset + b.size) = b.offset + b.size := u32_of_lt (by omega)
    rw [hin, u32_of_lt (by omega)]; omega
  have hsub : sub32 b.offset (u32 (l.size + sizeofAlloc)) = l.offset := by
    simp only [sizeofAlloc_val, pool_size_val] at *
    have hin : u32 (l.size + 4) = l.size + 4 := u32_of_lt (by omega)
    rw [hin, sub32_of_le (by omega) (by omega)]; omega
  have hm : u31 (l.size + (b.size + sizeofAlloc)) = l.size + (b.size + sizeofAlloc) := by
    simp only [sizeofAlloc_val, pool_size_val] at *
    exact u31_of_lt (by omega)
  have hoff2 : u32 (u32 (l.offset + (l.size + (b.size + sizeofAlloc))) + sizeofAlloc) =
      b.offset + sizeofAlloc + b.size := by
    simp only [sizeofAlloc_val, pool_size_val] at *
    have hin : u32 (l.offset + (l.size + (b.size + 4))) = l.offset + (l.size + (b.size + 4)) :=
      u32_of_lt (by omega)
    rw [hin, u32_of_lt (by omega)]; omega
  rw [deallocLoopTraced, if_pos hlt]
  by_cases hf : l.free = true
  · simp only [↓reduceIte, hl1, hb1, hf, hsub, setSize_same, hm, hoff2, Option.map_some']
    split <;> simp
  · simp only [↓reduceIte, hl1, hb1, hf, hoff, Option.map_some', Bool.false_eq_true]
    split <;> simp

theorem option_pair_of_maps {α β : Type} {x : Option (α × β)} {r : α} {t : β}
    (h1 : x.map Prod.fst = some r) (h2 : x.map Prod.snd = some t) : x = some (r, t) := by
  cases x with
  | none => simp at h1
  | some p =>
    obtain ⟨a, b⟩ := p
    simp only [Option.map_some', Option.some.injEq] at h1 h2
    rw [h1, h2]

theorem countP_visited (vis : List Block) :
    (vis.map (fun b => HeaderAccess.visited b.offset)).countP (fun a => a.isVisited) =
      vis.length := by
  induction vis with
  | nil => rfl
  | cons x xs ih =>
    rw [List.map_cons, List.countP_cons, ih]
    simp [HeaderAccess.isVisited]

theorem countP_not_visited (extra : List HeaderAccess)
    (h : ∀ a ∈ extra, a.isVisited = false) : extra.countP (fun a => a.isVisited) = 0 := by
  rw [List.countP_eq_zero]
  intro a ha
  simp [h a ha]

theorem traceInBounds_of_walk {mem : Pool} {bs : List Block} (vis : List Block)
    (extra : List HeaderAccess) (hseg : Seg mem 0 bs SCRATCH_POOL_SIZE)
    (hlen : vis.length ≤ bs.length) (hvis : ∀ x ∈ vis, x ∈ bs)
    (hextra : ∀ a ∈ extra, a.isVisited = false ∧ a.offset + sizeofAlloc ≤ SCRATCH_POOL_SIZE) :
    TraceInBounds mem (vis.map (fun b => HeaderAccess.visited b.offset) ++ extra) := by
  rw [TraceInBounds, blocks_of_seg hseg]
  refine ⟨?_, ?_, ?_⟩
  · intro a ha
    rcases List.mem_append.mp ha with ha | ha
    · obtain ⟨x, hx, rfl⟩ := List.mem_map.mp ha
      have := seg_offset_lt hseg x (hvis x hx)
      simp only [HeaderAccess.offset, sizeofAlloc_val] at *
      omega
    · exact (hextra a ha).2
  · intro o ho
    rcases List.mem_append.mp ho with ho | ho
    · obtain ⟨x, hx, hxo⟩ := List.mem_map.mp ho
      refine ⟨x, hvis x hx, ?_⟩
      cases hxo
      rfl
    · have := (hextra _ ho).1
      simp [HeaderAccess.isVisited] at this
  · rw [List.countP_append, countP_visited,
      countP_not_visited extra (fun a ha => (hextra a ha).1)]
    omega

theorem allocLoopTraced_walk {mem : Pool} {bs : List Block} (size : Nat)
    (hseg : Seg mem 0 bs SCRATCH_POOL_SIZE) :
    ∃ res tr, allocLoopTraced SCRATCH_POOL_SIZE mem size 0 [] = some (res, tr) ∧
      TraceInBounds mem tr := by
  have hle := seg_le hseg
  rcases first_split (fun b => b.fits size) bs with hn | ⟨pre, b, post, hbs, hn, hb⟩
  · have hfuel : SCRATCH_POOL_SIZE =
        bs.length + ((SCRATCH_POOL_SIZE - bs.length - 1) + 1) := by
      simp only [pool_size_val] at *; omega
    refine ⟨(mem, none), bs.map (fun b => HeaderAccess.visited b.offset), ?_, ?_⟩
    · rw [hfuel, allocLoopTraced_skip hseg (le_refl _) hn, allocLoopTraced,
        if_neg (lt_irrefl _), List.nil_append]
    · have := traceInBounds_of_walk bs [] hseg (le_refl _) (fun x hx => hx)
        (fun a ha => by simp at ha)
      rwa [List.append_nil] at this
  · subst hbs
    obtain ⟨m, h1, h2⟩ := seg_append.mp hseg
    have hm : b.offset = m := h2.1
    subst hm
    have hfuel : SCRATCH_POOL_SIZE =
        pre.length + ((SCRATCH_POOL_SIZE - pre.length - 1) + 1) := by
      simp only [pool_size_val, List.length_append, List.length_cons] at *; omega
    have hsnd := @allocLoopTraced_hit mem size b post
      ([] ++ pre.map (fun b => HeaderAccess.visited b.offset)) h2 hb
      (SCRATCH_POOL_SIZE - pre.length - 1)
    rw [← allocLoopTraced_skip h1 (seg_le h2 |> fun _ => by
      have := seg_le h2; simp only [List.length_cons] at this; omega) hn, ← hfuel] at hsnd
    cases hx : allocLoopTraced SCRATCH_POOL_SIZE mem size 0 [] with
    | none => rw [hx] at hsnd; simp at hsnd
    | some p =>
      obtain ⟨res, tr⟩ := p
      rw [hx] at hsnd
      simp only [Option.map_some', Option.some.injEq] at hsnd
      refine ⟨res, tr, rfl, ?_⟩
      rw [hsnd]
      have hb2 := seg_offset_lt hseg b (by simp)
      have key := traceInBounds_of_walk (pre ++ [b])
        (if b.size > size + sizeofAlloc then
          [HeaderAccess.split (b.offset + sizeofAlloc + size)] else []) hseg
        (by simp) (by
          intro x hx
          rcases List.mem_append.mp hx with hx | hx
          · exact List.mem_append_left _ hx
          · rw [List.mem_singleton] at hx
            subst hx
            simp) (by
          intro a ha
          split at ha
          · rw [List.mem_singleton] at ha
            subst ha
            refine ⟨rfl, ?_⟩
            simp only [HeaderAccess.offset, sizeofAlloc_val] at *
            omega
          · simp at ha)
      simpa using key

theorem deallocLoopTraced_walk {mem : Pool} {bs : List Block} (ptr : Nat)
    (hseg : Seg mem 0 bs SCRATCH_POOL_SIZE) :
    ∃ res tr, deallocLoopTraced SCRATCH_POOL_SIZE mem ptr 0 none [] = some (res, tr) ∧
      TraceInBounds mem tr := by
  have hle := seg_le hseg
  rcases first_split (fun b => b.offset + sizeofAlloc = ptr) bs with
    hn | ⟨pre, b, post, hbs, hn, hb⟩
  · have hfuel : SCRATCH_POOL_SIZE =
        bs.length + ((SCRATCH_POOL_SIZE - bs.length - 1) + 1) := by
      simp only [pool_size_val] at *; omega
    refine ⟨DeallocResult.assertFailed mem,
      bs.map (fun b => HeaderAccess.visited b.offset), ?_, ?_⟩
    · rw [hfuel, deallocLoopTraced_skip hseg (le_refl _) hn, deallocLoopTraced,
        if_neg (lt_irrefl _), List.nil_append]
    · have := traceInBounds_of_walk bs [] hseg (le_refl _) (fun x hx => hx)
        (fun a ha => by simp at ha)
      rwa [List.append_nil] at this
  · subst hbs
    have hb : b.offset + sizeofAlloc = ptr := hb
    subst hb
    obtain ⟨m, h1, h2⟩ := seg_append.mp hseg
    have hm : b.offset = m := h2.1
    subst hm
    have hle2 := seg_le h2
    have hfuel : SCRATCH_POOL_SIZE =
        pre.length + ((SCRATCH_POOL_SIZE - pre.length - 1) + 1) := by
      simp only [pool_size_val, List.length_append, List.length_cons] at *; omega
    have hb2 := seg_offset_lt hseg b (by simp)
    have hnext : ∀ a ∈ (if b.offset + sizeofAlloc + b.size < SCRATCH_POOL_SIZE then
          [HeaderAccess.next (b.offset + sizeofAlloc + b.size)] else []),
        a.isVisited = false ∧ a.offset + sizeofAlloc ≤ SCRATCH_POOL_SIZE := by
      intro a ha
      split at ha
      · rename_i hlt
        rw [List.mem_singleton] at ha
        subst ha
        refine ⟨rfl, ?_⟩
        obtain ⟨_, _, h3⟩ := h2
        cases post with
        | nil =>
          have : b.offset + sizeofAlloc + b.size = SCRATCH_POOL_SIZE := h3
          omega
        | cons x xs =>
          have hx := seg_offset_lt h3 x (by simp)
          have hxo : x.offset = b.offset + sizeofAlloc + b.size := h3.1
          simp only [HeaderAccess.offset, sizeofAlloc_val] at *
          omega
      · simp at ha
    have hvis : ∀ x ∈ pre ++ [b], x ∈ pre ++ b :: post := by
      intro x hx
      rcases List.mem_append.mp hx with hx | hx
      · exact List.mem_append_left _ hx
      · rw [List.mem_singleton] at hx
        subst hx
        simp
    rcases List.eq_nil_or_concat pre with hnil | ⟨L, l, hL⟩
    · subst hnil
      have h0 : b.offset = 0 := by
        have : (0 : Nat) = b.offset := h1
        omega
      have hsnd := @deallocLoopTraced_hit_first mem b post [] h2 (SCRATCH_POOL_SIZE - 0 - 1)
      have hfuel0 : SCRATCH_POOL_SIZE - 0 - 1 + 1 = SCRATCH_POOL_SIZE := by
        simp only [pool_size_val]
      rw [hfuel0] at hsnd
      rw [h0]
      rw [h0] at hsnd
      cases hx : deallocLoopTraced SCRATCH_POOL_SIZE mem (0 + sizeofAlloc) 0 none [] with
      | none => rw [hx] at hsnd; simp at hsnd
      | some p =>
        obtain ⟨res, tr⟩ := p
        rw [hx] at hsnd
        simp only [Option.map_some', Option.some.injEq] at hsnd
        refine ⟨res, tr, rfl, ?_⟩
        rw [hsnd]
        have key := traceInBounds_of_walk ([] ++ [b]) _ hseg (by simp) hvis hnext
        simpa [h0] using key
    · rw [List.concat_eq_append] at hL
      subst hL
      obtain ⟨m, g1, g2⟩ := seg_append.mp h1
      have hm : l.offset = m := g2.1
      subst hm
      have hpre : ∀ x ∈ L ++ [l], x.offset + sizeofAlloc ≠ b.offset + sizeofAlloc := hn
      have hsnd := @deallocLoopTraced_hit_next mem l b post
        ([] ++ (L ++ [l]).map (fun b => HeaderAccess.visited b.offset)) g2 h2
        (SCRATCH_POOL_SIZE - (L ++ [l]).length - 1)
      rw [← lastVisited_concat none L l,
        ← deallocLoopTraced_skip h1 (by simp only [List.length_cons] at hle2; omega) hpre,
        ← hfuel] at hsnd
      cases hx : deallocLoopTraced SCRATCH_POOL_SIZE mem (b.offset + sizeofAlloc) 0 none [] with
      | none => rw [hx] at hsnd; simp at hsnd
      | some p =>
        obtain ⟨res, tr⟩ := p
        rw [hx] at hsnd
        simp only [Option.map_some', Option.some.injEq] at hsnd
        refine ⟨res, tr, rfl, ?_⟩
        rw [hsnd]
        have hl2 := seg_offset_lt hseg l (by simp)
        have key := traceInBounds_of_walk ((L ++ [l]) ++ [b])
          (HeaderAccess.last l.offset ::
            (if b.offset + sizeofAlloc + b.size < SCRATCH_POOL_SIZE then
              [HeaderAccess.next (b.offset + sizeofAlloc + b.size)] else [])) hseg
          (by simp) hvis (by
            intro a ha
            rcases List.mem_cons.mp ha with ha | ha
            · subst ha
              refine ⟨rfl, ?_⟩
              simp only [HeaderAccess.offset, sizeofAlloc_val] at *
              omega
            · exact hnext a ha)
        simpa using key

/-- C26 (in-bounds header access).  For every arena that satisfies the partition
invariant, every requested size and every pointer, the instrumented runs of
`allocateScratch` and `deallocateScratch` return, their result is the result of the
method itself, and the control blocks they read or write (each visited header, the
header of the split remainder, the previous block and the forward-merge neighbour)
all lie at an offset `o` with `o + sizeofAlloc ≤ SCRATCH_POOL_SIZE`; every visited
offset is the start of a block of the partition, and no more headers are visited
than the pool has blocks. -/
theorem header_accesses_in_bounds (mem : Pool) (hinv : PartitionInvariant mem)
    (size ptr : Nat) :
    (∃ res tr, allocLoopTraced SCRATCH_POOL_SIZE mem (roundSize size) 0 [] = some (res, tr) ∧
        allocateScratch mem size = some res ∧ TraceInBounds mem tr) ∧
    (∃ res tr, deallocLoopTraced SCRATCH_POOL_SIZE mem ptr 0 none [] = some (res, tr) ∧
        deallocateScratch mem ptr = some res ∧ TraceInBounds mem tr) := by
  have hseg := (invariant_iff_seg mem).mp hinv
  constructor
  · obtain ⟨res, tr, h1, h2⟩ := allocLoopTraced_walk (roundSize size) hseg
    refine ⟨res, tr, h1, ?_, h2⟩
    rw [allocateScratch, ← allocLoopTraced_fst SCRATCH_POOL_SIZE mem (roundSize size) 0 [], h1]
    rfl
  · obtain ⟨res, tr, h1, h2⟩ := deallocLoopTraced_walk ptr hseg
    refine ⟨res, tr, h1, ?_, h2⟩
    rw [deallocateScratch, ← deallocLoopTraced_fst SCRATCH_POOL_SIZE mem ptr 0 none [], h1]
    rfl

theorem header_accesses_in_bounds_witness :
    PartitionInvariant threeAllocPool ∧
    ((∃ res tr, allocLoopTraced SCRATCH_POOL_SIZE threeAllocPool (roundSize 10) 0 [] =
          some (res, tr) ∧
        allocateScratch threeAllocPool 10 = some res ∧ TraceInBounds threeAllocPool tr) ∧
    (∃ res tr, deallocLoopTraced SCRATCH_POOL_SIZE threeAllocPool 108 0 none [] =
          some (res, tr) ∧
        deallocateScratch threeAllocPool 108 = some res ∧ TraceInBounds threeAllocPool tr)) :=
  ⟨by decide, header_accesses_in_bounds threeAllocPool (by decide) 10 108⟩


/-! ## Framebuffer object: slot range of the attachment loop -/

theorem bindAttachmentsTraced_fst (self : GLFrameBufferObject) (width height glformat : Nat) :
    ∀ (k x : Nat) (dev : GLDevice) (seen : List Nat),
      (bindAttachmentsTraced self width height glformat k x dev seen).1 =
        bindAttachments self width height glformat k x dev := by
  intro k
  induction k with
  | zero => intro x dev seen; rfl
  | succ k ih =>
    intro x dev seen
    unfold bindAttachmentsTraced bindAttachments
    split
    · split
      · rfl
      · split
        · rfl
        · exact ih _ _ _
    · exact ih _ _ _

theorem bindAttachmentsTraced_snd (self : GLFrameBufferObject) (width height glformat : Nat) :
    ∀ (k x : Nat) (dev : GLDevice) (seen : List Nat),
      ∃ j, j ≤ k ∧
        (bindAttachmentsTraced self width height glformat k x dev seen).2 =
          seen ++ List.range' x j ∧
        ((bindAttachmentsTraced self width height glformat k x dev seen).1.1 = none →
          j = k) := by
  intro k
  induction k with
  | zero =>
    intro x dev seen
    exact ⟨0, le_refl _, by simp [bindAttachmentsTraced], fun _ => rfl⟩
  | succ k ih =>
    intro x dev seen
    unfold bindAttachmentsTraced
    split
    · split
      · exact ⟨1, by omega, by simp, fun h => by simp at h⟩
      · split
        · exact ⟨1, by omega, by simp, fun h => by simp at h⟩
        · obtain ⟨j, h1, h2, h3⟩ := ih (x + 1) _ (seen ++ [x])
          refine ⟨j + 1, by omega, ?_, fun h => by rw [h3 h]⟩
          rw [h2, List.range'_succ, List.append_assoc, List.singleton_append]
    · obtain ⟨j, h1, h2, h3⟩ := ih (x + 1) _ (seen ++ [x])
      refine ⟨j + 1, by omega, ?_, fun h => by rw [h3 h]⟩
      rw [h2, List.range'_succ, List.append_assoc, List.singleton_append]

theorem examinedSlots_lt_limit (driver : GLDriver) (self : GLFrameBufferObject)
    (dev : GLDevice) : ∀ x ∈ examinedSlots driver self dev, x < u16 driver.numMultiRenderTargets := by
  intro x hx
  unfold examinedSlots at hx
  split at hx
  · simp at hx
  · rename_i b0 _
    obtain ⟨j, h1, h2, _⟩ := bindAttachmentsTraced_snd self b0.width b0.height b0.glFormat
      (u16 driver.numMultiRenderTargets) 0
      (dev.glBindFramebufferEXT GL_FRAMEBUFFER_EXT self.mFB) []
    rw [h2, List.nil_append, List.mem_range'_1] at hx
    omega

/-- C21, at the failing input: with `BS_MAX_MULTIPLE_RENDER_TARGETS = 8`, a
table whose slot 0 alone is populated and a device that reports nine color
attachments, the attachment loop of `initialize()` reads `mColor[x]` for
x = 0, ..., 8, while `min 8 9 = 8`: index 8 is used on the slot array although
it is not below 8, and the call log of `initialize()` holds the detach call for
attachment 8. -/
theorem finalize_loop_exceeds_slot_array :
    examinedSlots nineTargetDriver singleTable idleDevice = [0, 1, 2, 3, 4, 5, 6, 7, 8] ∧
    min 8 (u16 nineTargetDriver.numMultiRenderTargets) = 8 ∧
    examinedSlots nineTargetDriver singleTable idleDevice ≠ List.range 8 ∧
    ¬ (∀ x ∈ examinedSlots nineTargetDriver singleTable idleDevice, x < 8) ∧
    GLCall.framebufferRenderbuffer GL_FRAMEBUFFER_EXT (GL_COLOR_ATTACHMENT0_EXT + 8)
        GL_RENDERBUFFER_EXT 0 ∈
      (finalize 8 nineTargetDriver singleTable idleDevice).device.calls ∧
    (finalize 8 nineTargetDriver singleTable idleDevice).outcome = Outcome.returned := by
  decide

end BansheeEngine
